import Mathlib

/-!
# PrimoAI task API: a shallow embedding of the task controller

The development follows `backend/src/controllers/taskController.js`,
`backend/src/models/Task.js` and `backend/src/middleware/validator.js`.

* JavaScript numbers are the type `JSNum`: NaN, the two infinities, negative
  zero and the finite values, which are rationals. `parseInt` rounds what it
  reads to the nearest double; the operators compute exactly, where an IEEE
  operation rounds a result beyond 2^53.
* The document store is a list of `Task` documents; the calls the controller
  makes on the Mongoose model (`findById`, `find`, `countDocuments`, `save`,
  `deleteOne`) are functions on that list. What a list request leaves to the
  store (the regular expressions, the order among equal sort keys, the
  window) is a `StoreEngine`.
* A handler is a function from the store and the request to what it sends
  and the store it leaves behind.
-/

namespace PrimoAI

/-! ## JavaScript numbers -/

/-- A JavaScript number. `fin 0` is positive zero. -/
inductive JSNum where
  | nan
  | inf (neg : Bool)
  | negZero
  | fin (q : ℚ)
  deriving DecidableEq

namespace JSNum

/-- The number written by an integer literal. -/
def ofInt (z : Int) : JSNum := fin z

/-- The sign bit of a number other than NaN. -/
def signBit : JSNum → Bool
  | nan => false
  | inf neg => neg
  | negZero => true
  | fin q => decide (q < 0)

/-- Whether the number is one of the two zeros. -/
def isZero : JSNum → Bool
  | negZero => true
  | fin q => decide (q = 0)
  | _ => false

/-- The zero with the given sign bit. -/
def zero (neg : Bool) : JSNum := if neg then negZero else fin 0

/-- The rational value of a finite number; both zeros have value 0. -/
def toRat? : JSNum → Option ℚ
  | negZero => some 0
  | fin q => some q
  | _ => none

/-- The integer value of a number that is an integer; both zeros are 0. -/
def toInt? (x : JSNum) : Option Int :=
  match x.toRat? with
  | some q => if q.den = 1 then some q.num else none
  | none => none

/-- Unary minus. -/
def neg : JSNum → JSNum
  | nan => nan
  | inf n => inf (!n)
  | negZero => fin 0
  | fin q => if q = 0 then negZero else fin (-q)

/-- The operator `+`. A zero sum is negative zero only when both operands are. -/
def add : JSNum → JSNum → JSNum
  | nan, _ => nan
  | _, nan => nan
  | inf a, inf b => if a = b then inf a else nan
  | inf a, _ => inf a
  | _, inf b => inf b
  | negZero, negZero => negZero
  | negZero, fin b => fin b
  | fin a, negZero => fin a
  | fin a, fin b => fin (a + b)

/-- The operator `-`. -/
def sub (x y : JSNum) : JSNum := add x (neg y)

/-- The operator `*`. -/
def mul (x y : JSNum) : JSNum :=
  match x, y with
  | nan, _ => nan
  | _, nan => nan
  | inf a, y => if y.isZero then nan else inf (a != y.signBit)
  | x, inf b => if x.isZero then nan else inf (x.signBit != b)
  | x, y =>
    match x.toRat?, y.toRat? with
    | some a, some b =>
      if a * b = 0 then zero (x.signBit != y.signBit) else fin (a * b)
    | _, _ => nan

/-- The operator `/`. -/
def div (x y : JSNum) : JSNum :=
  match x, y with
  | nan, _ => nan
  | _, nan => nan
  | inf _, inf _ => nan
  | inf a, y => inf (a != y.signBit)
  | x, inf b => zero (x.signBit != b)
  | x, y =>
    match x.toRat?, y.toRat? with
    | some a, some b =>
      if b = 0 then
        (if a = 0 then nan else inf (x.signBit != y.signBit))
      else if a = 0 then zero (x.signBit != y.signBit)
      else fin (a / b)
    | _, _ => nan

/-- The function `Math.ceil`. -/
def ceil : JSNum → JSNum
  | nan => nan
  | inf n => inf n
  | negZero => negZero
  | fin q => if ⌈q⌉ = 0 ∧ q < 0 then negZero else fin (⌈q⌉ : Int)

/-- The operator `<`. It is false when an operand is NaN. -/
def lt : JSNum → JSNum → Bool
  | nan, _ => false
  | _, nan => false
  | inf a, inf b => a && !b
  | inf a, _ => a
  | _, inf b => !b
  | x, y =>
    match x.toRat?, y.toRat? with
    | some a, some b => decide (a < b)
    | _, _ => false

end JSNum

/-! ## `parseInt` -/

/-- The characters `parseInt` and `String.prototype.trim` strip: the
white space and line terminator code points of ECMAScript. -/
def isStrWhiteSpace (c : Char) : Bool :=
  let n := c.toNat
  n = 9 || n = 10 || n = 11 || n = 12 || n = 13 || n = 32 || n = 0xA0 ||
  n = 0x1680 || (0x2000 ≤ n && n ≤ 0x200A) || n = 0x2028 || n = 0x2029 ||
  n = 0x202F || n = 0x205F || n = 0x3000 || n = 0xFEFF

/-- The value of a character as a digit of the given radix (10 or 16). -/
def digitValue (radix : Nat) (c : Char) : Option Nat :=
  let n := c.toNat
  if 48 ≤ n ∧ n ≤ 57 then some (n - 48)
  else if radix = 16 ∧ 97 ≤ n ∧ n ≤ 102 then some (n - 87)
  else if radix = 16 ∧ 65 ≤ n ∧ n ≤ 70 then some (n - 55)
  else none

/-- Reads the longest run of digits at the head of the list. `acc` is the
value read so far and `seen` tells whether a digit has been read. -/
def readDigits (radix : Nat) : List Char → Nat → Bool → Option Nat
  | [], acc, seen => if seen then some acc else none
  | c :: cs, acc, seen =>
    match digitValue radix c with
    | some d => readDigits radix cs (acc * radix + d) true
    | none => if seen then some acc else none

/-- The steps of `parseInt` after the leading white space and sign are gone:
an optional `0x` or `0X` prefix selects radix 16, then the digits are read. -/
def parseUnsigned (cs : List Char) : Option Nat :=
  match cs with
  | '0' :: 'x' :: rest => readDigits 16 rest 0 false
  | '0' :: 'X' :: rest => readDigits 16 rest 0 false
  | _ => readDigits 10 cs 0 false

/-- The least `s`, counted up from the given one, with `n / 2 ^ s` below
2^53: the binary digits of `n` that do not fit the 53 of a double. The first
argument bounds the steps. -/
def mantissaShift (n : Nat) : Nat → Nat → Nat
  | 0, s => s
  | fuel + 1, s => if n / 2 ^ s < 2 ^ 53 then s else mantissaShift n fuel (s + 1)

/-- The double nearest to a natural number, a tie going to the even
mantissa; `none` when the number rounds to Infinity. -/
def roundToDouble (n : Nat) : Option Nat :=
  if n < 2 ^ 53 then some n
  else
    let shift := mantissaShift n n 0
    let q := n / 2 ^ shift
    let rest := n % 2 ^ shift
    let half := 2 ^ (shift - 1)
    let q := if half < rest ∨ (rest = half ∧ q % 2 = 1) then q + 1 else q
    if q * 2 ^ shift < 2 ^ 1024 then some (q * 2 ^ shift) else none

/-- The function `parseInt(string)` with no radix argument. The integer the
digits write is rounded to a double: beyond 2^53 not every integer is one,
and a number too large for a double is Infinity. -/
def parseInt (s : String) : JSNum :=
  let cs := s.data.dropWhile isStrWhiteSpace
  let (negative, body) :=
    match cs with
    | '-' :: rest => (true, rest)
    | '+' :: rest => (false, rest)
    | _ => (false, cs)
  match parseUnsigned body with
  | none => JSNum.nan
  | some n =>
    match roundToDouble n with
    | none => JSNum.inf negative
    | some 0 => JSNum.zero negative
    | some m => if negative then JSNum.fin (-(m : ℚ)) else JSNum.fin (m : ℚ)

/-! ## Strings -/

/-- The method `String.prototype.trim`, on the characters of the string. -/
def jsTrim (s : String) : String :=
  ⟨((s.data.dropWhile isStrWhiteSpace).reverse.dropWhile isStrWhiteSpace).reverse⟩

/-- The property `length` of a string: its number of UTF-16 code units. -/
def jsLength (s : String) : Nat :=
  (s.data.map (fun c => if c.toNat < 0x10000 then 1 else 2)).sum

/-- The length the check `isLength` of validator.js measures: the UTF-16
code units, less one for each surrogate pair and less the variation
selectors U+FE0E and U+FE0F. That is the number of characters of the string
that are no variation selector. -/
def isLengthCount (s : String) : Nat :=
  (s.data.filter (fun c => c.toNat != 0xFE0E && c.toNat != 0xFE0F)).length

/-- Truthiness of an optional string value: `undefined` and the empty string
are falsy, every other string is truthy. -/
def truthy : Option String → Bool
  | none => false
  | some s => decide (s ≠ "")

/-! ## The task document and the store -/

/-- An ObjectId. The handlers take the identifiers of a request
(`req.params.id`, `req.user.id`) after their cast to an ObjectId; the
parameter of the route before the cast is an `IdParam`. -/
abbrev ObjectId := Nat

/-- A date, as milliseconds since the epoch. -/
abbrev Date := Int

/-- A document of the `Task` collection, with the paths of `taskSchema` and
the two paths added by `timestamps: true`. -/
structure Task where
  _id : ObjectId
  title : String
  description : Option String
  status : String
  priority : String
  dueDate : Option Date
  user : ObjectId
  tags : List String
  completedAt : Option Date
  createdAt : Date
  updatedAt : Date
  deriving DecidableEq

/-- The collection: the stored documents in their natural order. -/
abbrev Store := List Task

/-- The values of the `status` enum of the schema. -/
def statusEnum : List String := ["pending", "in-progress", "completed", "cancelled"]

/-- The values of the `priority` enum of the schema. -/
def priorityEnum : List String := ["low", "medium", "high", "urgent"]

/-! ## The regular expressions of the `$regex` operator

The store matches `{ $regex: search, $options: 'i' }` with a PCRE engine,
which is not part of the repository. The patterns made of ordinary
characters and of the dot are read here; what a pattern with any other
character that has a meaning in PCRE matches, and how the option `i` folds
case, are parameters of the model (see `StoreEngine`). -/

/-- The characters with a meaning of their own in a pattern. -/
def regexSpecial : List Char :=
  ['\\', '^', '$', '.', '[', ']', '|', '(', ')', '?', '*', '+', '{', '}']

/-- One item of a pattern of the modelled fragment. -/
inductive RegexItem where
  | lit (c : Char)
  | anyChar
  deriving DecidableEq

/-- Reads a pattern of ordinary characters and dots: a dot is the wildcard
and every ordinary character stands for itself. The result is `none` for a
pattern with another special character, whose meaning is left to the engine. -/
def compilePattern : List Char → Option (List RegexItem)
  | [] => some []
  | c :: cs =>
    if c = '.' then (compilePattern cs).map (RegexItem.anyChar :: ·)
    else if c ∈ regexSpecial then none
    else (compilePattern cs).map (RegexItem.lit c :: ·)

/-- A case folding on the ASCII letters alone: a capital is its small
letter. The folding of the store reaches beyond ASCII. -/
def foldCase (c : Char) : Nat :=
  if 65 ≤ c.toNat ∧ c.toNat ≤ 90 then c.toNat + 32 else c.toNat

/-- Whether an item matches a character of the subject under the option
`i`, for the case folding `fold`: a character of the pattern matches the
characters with the same folding. The dot matches every character but the
line feed. -/
def RegexItem.accepts (fold : Char → Nat) : RegexItem → Char → Bool
  | .lit c, d => fold c == fold d
  | .anyChar, d => d != '\n'

/-- Whether the pattern matches at the head of the subject. -/
def matchHere (fold : Char → Nat) : List RegexItem → List Char → Bool
  | [], _ => true
  | _ :: _, [] => false
  | i :: is, d :: ds => i.accepts fold d && matchHere fold is ds

/-- Whether the pattern matches somewhere in the subject (an unanchored
search). -/
def regexSearch (fold : Char → Nat) (items : List RegexItem) : List Char → Bool
  | [] => matchHere fold items []
  | d :: ds => matchHere fold items (d :: ds) || regexSearch fold items ds

/-! ## The filter of the list request -/

/-- The query string of `GET /api/tasks`: each parameter is absent or a
string. -/
structure ListParams where
  search : Option String := none
  status : Option String := none
  priority : Option String := none
  page : Option String := none
  limit : Option String := none
  sortBy : Option String := none
  order : Option String := none
  deriving DecidableEq

/-- The filter object `query`: the owner, the pattern of the `$or` pair of
`$regex` conditions on title and description, and the two equality
conditions. -/
structure Query where
  user : ObjectId
  or : Option String := none
  status : Option String := none
  priority : Option String := none
  deriving DecidableEq

/-- The filter built by `getTasks` (the lines under "Build query"). -/
def buildQuery (caller : ObjectId) (p : ListParams) : Query :=
  let query : Query := { user := caller }
  let query := if truthy p.search then { query with or := p.search } else query
  let query := if truthy p.status then { query with status := p.status } else query
  let query := if truthy p.priority then { query with priority := p.priority } else query
  query

/-- The conditions of a filter other than the `$or`: equality on the owner,
and on status and priority where the filter has them. -/
def Query.matchesFields (q : Query) (t : Task) : Bool :=
  decide (t.user = q.user) &&
  (match q.status with
   | none => true
   | some s => decide (t.status = s)) &&
  (match q.priority with
   | none => true
   | some s => decide (t.priority = s))

/-- The `$or` of the two `$regex` conditions, for what the pattern matches
in a text: it matches in the title, or the document has a description and it
matches there. -/
def matchesOr (rx : String → Bool) (t : Task) : Bool :=
  rx t.title ||
  (match t.description with
   | none => false
   | some d => rx d)

/-! ## Ordering, window and the calls on the model -/

/-- The value a document is ordered by. The constructors are listed in the
comparison order of the store: an empty array, then null or a missing path,
then strings, ObjectIds and dates. -/
inductive SortKey where
  | emptyArray
  | null
  | str (s : String)
  | oid (id : ObjectId)
  | date (d : Date)
  deriving DecidableEq

/-- The place of the type of a key in the comparison order. -/
def SortKey.rank : SortKey → Nat
  | .emptyArray => 0
  | .null => 1
  | .str _ => 2
  | .oid _ => 3
  | .date _ => 4

/-- The comparison of two keys: by type first, then by value. -/
def SortKey.le : SortKey → SortKey → Bool
  | .str a, .str b => decide (a ≤ b)
  | .oid a, .oid b => decide (a ≤ b)
  | .date a, .date b => decide (a ≤ b)
  | a, b => decide (a.rank ≤ b.rank)

/-- The least string of a non-empty list. -/
def leastString (x : String) (xs : List String) : String :=
  xs.foldl (fun m y => if y < m then y else m) x

/-- The greatest string of a non-empty list. -/
def greatestString (x : String) (xs : List String) : String :=
  xs.foldl (fun m y => if m < y then y else m) x

/-- The key of a document for a sort on `field` in direction `dir`. An
array is ordered by its least element when ascending and by its greatest
when descending. A name that is no path of the document gives null. -/
def sortKey (field : String) (dir : Int) (t : Task) : SortKey :=
  if field = "_id" then .oid t._id
  else if field = "title" then .str t.title
  else if field = "description" then
    (match t.description with
     | none => .null
     | some d => .str d)
  else if field = "status" then .str t.status
  else if field = "priority" then .str t.priority
  else if field = "dueDate" then
    (match t.dueDate with
     | none => .null
     | some d => .date d)
  else if field = "user" then .oid t.user
  else if field = "tags" then
    (match t.tags with
     | [] => .emptyArray
     | x :: xs => .str (if dir = 1 then leastString x xs else greatestString x xs))
  else if field = "completedAt" then
    (match t.completedAt with
     | none => .null
     | some d => .date d)
  else if field = "createdAt" then .date t.createdAt
  else if field = "updatedAt" then .date t.updatedAt
  else .null

/-- Whether document `a` may come before document `b` under the ordering
`{ [field]: dir }`. -/
def docLe (sortObj : String × Int) (a b : Task) : Bool :=
  if sortObj.2 = 1 then (sortKey sortObj.1 sortObj.2 a).le (sortKey sortObj.1 sortObj.2 b)
  else (sortKey sortObj.1 sortObj.2 b).le (sortKey sortObj.1 sortObj.2 a)

/-- Puts a document in its place in an ordered list, before the first
document it may come before. -/
def insertDoc (le : Task → Task → Bool) (x : Task) : List Task → List Task
  | [] => [x]
  | y :: ys => if le x y then x :: y :: ys else y :: insertDoc le x ys

/-- Orders the documents. Documents with equal keys keep their natural
order (the store promises no order among them). -/
def sortDocs (le : Task → Task → Bool) : List Task → List Task
  | [] => []
  | x :: xs => insertDoc le x (sortDocs le xs)

/-- A number as a count of documents: a non-negative integer other than
negative zero. -/
def JSNum.toNat? : JSNum → Option Nat
  | .fin q => if q.den = 1 ∧ 0 ≤ q.num then some q.num.toNat else none
  | _ => none

/-- A window of `.limit(limit).skip(skip)` for counts: `skip` documents are
passed over, then at most `limit` are kept, all of them when `limit` is 0;
no answer when one of the two is not a count. -/
def applyWindow (limit skip : JSNum) (docs : List Task) : Option (List Task) :=
  match skip.toNat?, limit.toNat? with
  | some k, some n => some (if n = 0 then docs.drop k else (docs.drop k).take n)
  | _, _ => none

/-! ## The store engine

The repository holds the calls on the store, not the store. What a list
request needs of it beyond the documents is gathered in a `StoreEngine`. The
statements on the list request are made for every engine, under the
properties of an engine they rest on (`Lawful`, `SortsPaths`,
`WindowsCounts`, `FoldsAscii`); the worked examples run on `plainEngine`
and its variants. -/

/-- The parts of the store a list request depends on and the repository
does not fix. In each of them `none` stands for an error of the store, which
the handler hands to `next`. -/
structure StoreEngine where
  /-- The case folding of the option `i`: two characters match when they have
  the same folding. -/
  fold : Char → Nat
  /-- What a pattern matches that holds a special character other than the
  dot: the texts it matches somewhere, or `none` when the store refuses the
  pattern. -/
  otherPattern : String → Option (String → Bool)
  /-- The order in which `.sort(sortObj)` gives the selected documents; the
  store promises no order among documents with equal keys, and two queries
  may be given different ones. -/
  order : String × Int → List Task → Option (List Task)
  /-- The documents `.limit(limit).skip(skip)` keeps of the ordered ones. -/
  window : JSNum → JSNum → List Task → Option (List Task)

/-- The paths of a task document. -/
def schemaPaths : List String :=
  ["_id", "title", "description", "status", "priority", "dueDate", "user", "tags",
   "completedAt", "createdAt", "updatedAt"]

/-- An engine gives back only documents it was given: ordering rearranges
the selected documents, and a window keeps some of the documents it is
given, in their order. -/
structure StoreEngine.Lawful (db : StoreEngine) : Prop where
  order_perm : ∀ sortObj docs out, db.order sortObj docs = some out → out.Perm docs
  window_sublist : ∀ limit skip docs out,
    db.window limit skip docs = some out → out.Sublist docs

/-- An engine orders by every path of the schema. -/
def StoreEngine.SortsPaths (db : StoreEngine) : Prop :=
  ∀ field ∈ schemaPaths, ∀ (dir : Int) (docs : List Task),
    (db.order (field, dir) docs).isSome = true

/-- An engine windows by counts: for a limit of 1 to 2^53 and a skip of 0
to 2^53 the window passes over `skip` documents and keeps the next `limit`. -/
def StoreEngine.WindowsCounts (db : StoreEngine) : Prop :=
  ∀ (n k : Nat) (docs : List Task), 1 ≤ n → n ≤ 2 ^ 53 → k ≤ 2 ^ 53 →
    db.window (JSNum.fin n) (JSNum.fin k) docs = some ((docs.drop k).take n)

/-- On the ASCII characters the folding of the option `i` identifies a
capital with its small letter and nothing else. -/
def StoreEngine.FoldsAscii (db : StoreEngine) : Prop :=
  ∀ c d : Char, c.toNat < 128 → d.toNat < 128 →
    (db.fold c = db.fold d ↔ foldCase c = foldCase d)

/-- The engine of the worked examples: case is folded on the ASCII letters,
a pattern with a special character other than the dot is refused, the
documents are ordered by a stable sort of the stored order, and the window is
`applyWindow`. -/
def plainEngine : StoreEngine :=
  { fold := foldCase
    otherPattern := fun _ => none
    order := fun sortObj docs => some (sortDocs (docLe sortObj) docs)
    window := applyWindow }

/-- The plain engine with the other order among equal keys: the documents
are taken from the last stored to the first before the stable sort. -/
def reversingEngine : StoreEngine :=
  { plainEngine with
    order := fun sortObj docs => some (sortDocs (docLe sortObj) docs.reverse) }

/-- A case folding that folds the capitals of Latin-1 as well (U+00C0 to
U+00DE, the multiplication sign apart). -/
def foldLatin1 (c : Char) : Nat :=
  if (65 ≤ c.toNat ∧ c.toNat ≤ 90) ∨ (0xC0 ≤ c.toNat ∧ c.toNat ≤ 0xDE ∧ c.toNat ≠ 0xD7) then
    c.toNat + 32
  else c.toNat

/-- The plain engine with the folding of Latin-1. -/
def latinEngine : StoreEngine := { plainEngine with fold := foldLatin1 }

/-- The plain engine with these additions: the pattern `a*`, which matches
every text, is evaluated; a negative limit is read as the count of its size;
and a skip of negative zero is read as 0. -/
def lenientEngine : StoreEngine :=
  { plainEngine with
    otherPattern := fun pattern => if pattern = "a*" then some (fun _ => true) else none
    window := fun limit skip docs =>
      applyWindow (if limit.signBit then limit.neg else limit)
        (if skip = JSNum.negZero then JSNum.fin 0 else skip) docs }

/-- What the pattern of a `$regex` condition with the option `i` matches:
the texts it matches somewhere, or `none` when the store refuses it. -/
def StoreEngine.regex (db : StoreEngine) (pattern : String) : Option (String → Bool) :=
  match compilePattern pattern.data with
  | some items => some (fun text => regexSearch db.fold items text.data)
  | none => db.otherPattern pattern

/-- The predicate a filter selects documents with on the given engine;
`none` when the store refuses its pattern. -/
def Query.predicateOn (db : StoreEngine) (q : Query) : Option (Task → Bool) :=
  match q.or with
  | none => some (fun t => q.matchesFields t)
  | some pattern =>
    (db.regex pattern).map (fun rx t => q.matchesFields t && matchesOr rx t)

/-- Whether a document satisfies a filter on the given engine. -/
def Query.matchesOn (db : StoreEngine) (q : Query) (t : Task) : Option Bool :=
  (q.predicateOn db).map (fun f => f t)

/-- The predicate of a filter on the plain engine. -/
def Query.predicate (q : Query) : Option (Task → Bool) :=
  q.predicateOn plainEngine

/-- Whether a document satisfies a filter on the plain engine. -/
def Query.matches (q : Query) (t : Task) : Option Bool :=
  q.predicate.map (fun f => f t)

/-- The call `Task.findById(id)`. -/
def Task.findById (store : Store) (id : ObjectId) : Option Task :=
  store.find? (fun t => t._id == id)

/-- The call `Task.find(query).sort(sortObj).limit(limit).skip(skip)`.
The method `sort` of Mongoose throws for the empty field name. -/
def Task.find (db : StoreEngine) (store : Store) (query : Query)
    (sortObj : String × Int) (limit skip : JSNum) : Option (List Task) :=
  if sortObj.1 = "" then none
  else
    match query.predicateOn db with
    | none => none
    | some f =>
      match db.order sortObj (store.filter f) with
      | none => none
      | some sorted => db.window limit skip sorted

/-- The call `Task.countDocuments(query)`. -/
def Task.countDocuments (db : StoreEngine) (store : Store) (query : Query) :
    Option Nat :=
  (query.predicateOn db).map (fun f => (store.filter f).length)

/-! ## Responses -/

/-- The object `pagination` of the list response. In the JSON text a NaN
or an infinity is written `null`. -/
structure Pagination where
  total : Nat
  page : JSNum
  limit : JSNum
  totalPages : JSNum
  hasMore : Bool
  deriving DecidableEq

/-- What `res.status(status).json(...)` sends: the status and the keys of
the envelope. `errors` is the list of field and message pairs of a rejected
body. -/
structure Response (α : Type) where
  status : Nat
  success : Bool
  message : Option String := none
  data : Option α := none
  pagination : Option Pagination := none
  errors : Option (List (String × String)) := none
  deriving DecidableEq

/-! ## `getTasks` -/

namespace getTasks

/-- The parameter `page` after `page = 1` of the destructuring. The default
is the number 1, which `parseInt` reads through its string "1". -/
def page (p : ListParams) : String := p.page.getD "1"

/-- The parameter `limit` after `limit = 10` of the destructuring. -/
def limit (p : ListParams) : String := p.limit.getD "10"

/-- The parameter `sortBy` after its default `'createdAt'`. -/
def sortBy (p : ListParams) : String := p.sortBy.getD "createdAt"

/-- The parameter `order` after its default `'desc'`. -/
def order (p : ListParams) : String := p.order.getD "desc"

/-- The constant `skip`: `(parseInt(page) - 1) * parseInt(limit)`. -/
def skip (p : ListParams) : JSNum :=
  ((parseInt (page p)).sub (JSNum.ofInt 1)).mul (parseInt (limit p))

/-- The constant `sortOrder`: `order === 'asc' ? 1 : -1`. -/
def sortOrder (p : ListParams) : Int := if order p = "asc" then 1 else -1

/-- The constant `sortObj`: `{ [sortBy]: sortOrder }`. -/
def sortObj (p : ListParams) : String × Int := (sortBy p, sortOrder p)

/-- The constant `totalPages`: `Math.ceil(total / parseInt(limit))`. -/
def totalPages (p : ListParams) (total : Nat) : JSNum :=
  ((JSNum.ofInt total).div (parseInt (limit p))).ceil

/-- The object `pagination` of the response. -/
def pagination (p : ListParams) (total : Nat) : Pagination :=
  { total := total
    page := parseInt (page p)
    limit := parseInt (limit p)
    totalPages := totalPages p total
    hasMore := (parseInt (page p)).lt (totalPages p total) }

end getTasks

/-- The handler `getTasks` on a store with the given engine. The result is
`none` when a call on the model throws: the handler hands the error to `next`
and sends nothing. -/
def getTasksOn (db : StoreEngine) (store : Store) (caller : ObjectId) (p : ListParams) :
    Option (Response (List Task)) :=
  let query := buildQuery caller p
  match Task.find db store query (getTasks.sortObj p) (parseInt (getTasks.limit p))
      (getTasks.skip p) with
  | none => none
  | some tasks =>
    match Task.countDocuments db store query with
    | none => none
    | some total =>
      some { status := 200, success := true, data := some tasks,
             pagination := some (getTasks.pagination p total) }

/-- The handler `getTasks` on a store with the plain engine. -/
def getTasks (store : Store) (caller : ObjectId) (p : ListParams) :
    Option (Response (List Task)) :=
  getTasksOn plainEngine store caller p

/-! ## Saving a document -/

/-- The body of a create or update request. A key is absent (`none`) or
holds a value; the value of `dueDate` may be null. The key `user` is one the
handlers do not read. -/
structure TaskBody where
  title : Option String := none
  description : Option String := none
  status : Option String := none
  priority : Option String := none
  dueDate : Option (Option Date) := none
  tags : Option (List String) := none
  user : Option ObjectId := none
  deriving DecidableEq

/-- The error a handler hands to `next`: the paths that failed the
validation of the schema. -/
structure ValidationError where
  paths : List String
  deriving DecidableEq

/-- What a handler does with a request: it sends a response or hands an
error to `next`. -/
inductive Outcome (α : Type) where
  | json (r : Response α)
  | next (e : ValidationError)
  deriving DecidableEq

/-- The status of the response a handler sent. -/
def Outcome.status? {α : Type} : Outcome α → Option Nat
  | .json r => some r.status
  | .next _ => none

/-- The paths of a document that fail the validators of `taskSchema`:
`title` is required (not empty) and at most 100 long, `description` at most
500, `status` and `priority` are values of their enum. -/
def schemaErrors (t : Task) : List String :=
  (if t.title = "" ∨ 100 < jsLength t.title then ["title"] else []) ++
  (match t.description with
   | some d => if 500 < jsLength d then ["description"] else []
   | none => []) ++
  (if t.status ∈ statusEnum then [] else ["status"]) ++
  (if t.priority ∈ priorityEnum then [] else ["priority"])

/-- The hook `taskSchema.pre('save')`: `completedAt` is set to the current
time when `status` was modified, is `'completed'`, and `completedAt` is
unset. -/
def preSave (statusModified : Bool) (now : Date) (t : Task) : Task :=
  if statusModified && t.status == "completed" && t.completedAt.isNone then
    { t with completedAt := some now }
  else t

/-- Writes a document over the stored document with the same `_id`. -/
def replaceDoc (t : Task) : Store → Store
  | [] => []
  | d :: ds => if d._id = t._id then t :: ds else d :: replaceDoc t ds

/-- The call `task.save()` on a document loaded as `orig` and now holding
`t`: the validation, then `updatedAt` when a path was modified, then the
hook, then the write. -/
def Task.save (store : Store) (orig t : Task) (now : Date) :
    Except ValidationError (Task × Store) :=
  if schemaErrors t ≠ [] then .error ⟨schemaErrors t⟩
  else
    let t := if t ≠ orig then { t with updatedAt := now } else t
    let t := preSave (decide (t.status ≠ orig.status)) now t
    .ok (t, replaceDoc t store)

/-- The call `Task.create(doc)`: the defaults and setters of the schema,
the validation, both timestamps, the hook, then the insertion. `newId` is
the ObjectId the driver gives the document. -/
def Task.create (store : Store) (newId : ObjectId) (body : TaskBody)
    (user : ObjectId) (now : Date) : Except ValidationError (Task × Store) :=
  let t : Task :=
    { _id := newId
      title := (body.title.map jsTrim).getD ""
      description := body.description.map jsTrim
      status := body.status.getD "pending"
      priority := body.priority.getD "medium"
      dueDate := body.dueDate.getD none
      user := user
      tags := (body.tags.getD []).map jsTrim
      completedAt := none
      createdAt := now
      updatedAt := now }
  if schemaErrors t ≠ [] then .error ⟨schemaErrors t⟩
  else
    let t := preSave body.status.isSome now t
    .ok (t, store ++ [t])

/-! ## The handlers on one task -/

/-- The response of a handler that found no task. -/
def notFound {α : Type} : Response α :=
  { status := 404, success := false, message := some "Task not found" }

/-- The response of a handler whose caller is not the owner. -/
def notAuthorized {α : Type} (verb : String) : Response α :=
  { status := 403, success := false,
    message := some ("Not authorized to " ++ verb ++ " this task") }

/-- The handler `getTask`. -/
def getTask (store : Store) (caller id : ObjectId) : Outcome Task :=
  match Task.findById store id with
  | none => .json notFound
  | some task =>
    if task.user ≠ caller then .json (notAuthorized "access")
    else .json { status := 200, success := true, data := some task }

/-- The handler `createTask`. -/
def createTask (store : Store) (caller newId : ObjectId) (body : TaskBody)
    (now : Date) : Outcome Task × Store :=
  match Task.create store newId body caller now with
  | .error e => (.next e, store)
  | .ok (task, store') =>
    (.json { status := 201, success := true,
             message := some "Task created successfully", data := some task }, store')

/-- The assignments under "Update fields": a key of the body that is not
`undefined` is written to the task, through the setter of its path. -/
def assignFields (task : Task) (body : TaskBody) : Task :=
  let task := match body.title with
    | some v => { task with title := jsTrim v }
    | none => task
  let task := match body.description with
    | some v => { task with description := some (jsTrim v) }
    | none => task
  let task := match body.status with
    | some v => { task with status := v }
    | none => task
  let task := match body.priority with
    | some v => { task with priority := v }
    | none => task
  let task := match body.dueDate with
    | some v => { task with dueDate := v }
    | none => task
  let task := match body.tags with
    | some v => { task with tags := v.map jsTrim }
    | none => task
  task

/-- The handler `updateTask`. -/
def updateTask (store : Store) (caller id : ObjectId) (body : TaskBody)
    (now : Date) : Outcome Task × Store :=
  match Task.findById store id with
  | none => (.json notFound, store)
  | some task =>
    if task.user ≠ caller then (.json (notAuthorized "update"), store)
    else
      match Task.save store task (assignFields task body) now with
      | .error e => (.next e, store)
      | .ok (task', store') =>
        (.json { status := 200, success := true,
                 message := some "Task updated successfully", data := some task' }, store')

/-- The call `task.deleteOne()`: the stored document with the `_id` of the
task is removed. -/
def Task.deleteOne (store : Store) (task : Task) : Store :=
  store.eraseP (fun d => d._id == task._id)

/-- The handler `deleteTask`. The data of its response is the empty
object. -/
def deleteTask (store : Store) (caller id : ObjectId) : Outcome Unit × Store :=
  match Task.findById store id with
  | none => (.json notFound, store)
  | some task =>
    if task.user ≠ caller then (.json (notAuthorized "delete"), store)
    else
      (.json { status := 200, success := true,
               message := some "Task deleted successfully", data := some () },
       Task.deleteOne store task)

/-! ## The parameter `:id`

The handlers above take the id of the route after its cast to an ObjectId.
The route gives them a string; `Task.findById` throws for a string that does
not cast, and the `catch` of the handler hands the error to `next`. -/

/-- The parameter `:id` of a route: a string that casts to an ObjectId,
given by that ObjectId, or a string that does not cast. -/
inductive IdParam where
  | objectId (id : ObjectId)
  | other (raw : String)
  deriving DecidableEq

/-- The error `findById` throws for a value that does not cast to an
ObjectId. -/
structure CastError where
  value : String
  deriving DecidableEq

/-- What a handler does with the parameter of the route: what it does with
the ObjectId the parameter casts to, or, when the parameter does not cast, it
hands the cast error to `next` and sends no response. -/
inductive ParamOutcome (α : Type) where
  | handled (o : Outcome α)
  | castFailed (e : CastError)
  deriving DecidableEq

/-- The handler `getTask` on the parameter of the route. -/
def getTaskOnParam (store : Store) (caller : ObjectId) : IdParam → ParamOutcome Task
  | .objectId id => .handled (getTask store caller id)
  | .other raw => .castFailed ⟨raw⟩

/-- The handler `updateTask` on the parameter of the route. -/
def updateTaskOnParam (store : Store) (caller : ObjectId) (param : IdParam)
    (body : TaskBody) (now : Date) : ParamOutcome Task × Store :=
  match param with
  | .objectId id => (.handled (updateTask store caller id body now).1,
      (updateTask store caller id body now).2)
  | .other raw => (.castFailed ⟨raw⟩, store)

/-- The handler `deleteTask` on the parameter of the route. -/
def deleteTaskOnParam (store : Store) (caller : ObjectId) (param : IdParam) :
    ParamOutcome Unit × Store :=
  match param with
  | .objectId id => (.handled (deleteTask store caller id).1, (deleteTask store caller id).2)
  | .other raw => (.castFailed ⟨raw⟩, store)

/-! ## `getTaskStats` -/

/-- A document a `$group` stage gives out: the value grouped on and the
`$sum: 1` of its group. -/
structure GroupCount where
  _id : String
  count : Nat
  deriving DecidableEq

/-- One document passes through the `$group` stage: the group of its key
counts one more, and a key seen for the first time opens a group. -/
def addToGroups (key : String) : List GroupCount → List GroupCount
  | [] => [{ _id := key, count := 1 }]
  | g :: gs =>
    if g._id = key then { g with count := g.count + 1 } :: gs
    else g :: addToGroups key gs

/-- The stage `{ $group: { _id: ..., count: { $sum: 1 } } }` on the keys of
the documents that reach it. The store promises no order of the groups. -/
def groupCounts : List String → List GroupCount
  | [] => []
  | key :: keys => addToGroups key (groupCounts keys)

/-- The call `Task.aggregate([{ $match: { user } }, { $group: ... }])`,
with the path of the `_id` expression as a function of the document. -/
def Task.aggregate (store : Store) (user : ObjectId) (path : Task → String) :
    List GroupCount :=
  groupCounts ((store.filter (fun t => decide (t.user = user))).map path)

/-- The data of the statistics response. -/
structure Stats where
  total : Nat
  byStatus : List GroupCount
  byPriority : List GroupCount
  deriving DecidableEq

/-- The handler `getTaskStats`. -/
def getTaskStats (store : Store) (caller : ObjectId) : Response Stats :=
  let stats := Task.aggregate store caller (fun t => t.status)
  let priorityStats := Task.aggregate store caller (fun t => t.priority)
  let total := (store.filter (fun t => decide (t.user = caller))).length
  { status := 200, success := true,
    data := some { total := total, byStatus := stats, byPriority := priorityStats } }

/-! ## The validation of an update request -/

/-- The value of `dueDate` in the JSON of a request: null, the empty
string, a string that reads as a date, or a string that does not. -/
inductive DueInput where
  | null
  | empty
  | date (d : Date)
  | invalid
  deriving DecidableEq

/-- The JSON body of a request before the validation. -/
structure RequestBody where
  title : Option String := none
  description : Option String := none
  status : Option String := none
  priority : Option String := none
  dueDate : Option DueInput := none
  tags : Option (List String) := none
  user : Option ObjectId := none
  deriving DecidableEq

/-- The chain on `title` of `taskUpdateValidation`: skipped when the key
is absent; the value is trimmed, must not be empty, and must be 3 to 100
long by the count of `isLength`. -/
def updateTitleErrors (title : Option String) : List (String × String) :=
  match title with
  | none => []
  | some v =>
    (if jsTrim v = "" then [("title", "Task title cannot be empty")] else []) ++
    (if 3 ≤ isLengthCount (jsTrim v) ∧ isLengthCount (jsTrim v) ≤ 100 then []
     else [("title", "Title must be between 3 and 100 characters")])

/-- The chain on `description`: skipped when absent; trimmed, at most 500
long by the count of `isLength`. -/
def descriptionErrors (description : Option String) : List (String × String) :=
  match description with
  | none => []
  | some v =>
    if isLengthCount (jsTrim v) ≤ 500 then []
    else [("description", "Description cannot exceed 500 characters")]

/-- The chain on `status`: skipped when absent; a value of the enum. -/
def statusErrors (status : Option String) : List (String × String) :=
  match status with
  | none => []
  | some v => if v ∈ statusEnum then [] else [("status", "Invalid status value")]

/-- The chain on `priority`: skipped when absent; a value of the enum. -/
def priorityErrors (priority : Option String) : List (String × String) :=
  match priority with
  | none => []
  | some v => if v ∈ priorityEnum then [] else [("priority", "Invalid priority value")]

/-- The chain on `dueDate` of `taskUpdateValidation`, with
`optional({ nullable: true })`: skipped when the key is absent or null; the
custom check lets the empty string pass and asks of any other string that
`Date.parse` reads it. -/
def updateDueDateErrors (dueDate : Option DueInput) : List (String × String) :=
  match dueDate with
  | none => []
  | some .null => []
  | some .empty => []
  | some (.date _) => []
  | some .invalid => [("dueDate", "Invalid date format")]

/-- The errors the chains of `taskUpdateValidation` find in a body. -/
def taskUpdateValidation (body : RequestBody) : List (String × String) :=
  updateTitleErrors body.title ++ descriptionErrors body.description ++
  statusErrors body.status ++ priorityErrors body.priority ++
  updateDueDateErrors body.dueDate

/-- The cast of the schema for a date: null and the empty string are null.
A string that is no date does not get past the validation. -/
def DueInput.cast : DueInput → Option Date
  | .null => none
  | .empty => none
  | .date d => some d
  | .invalid => none

/-- The body the handler receives after the chains: the sanitizer `trim`
of the chains on `title` and `description` has replaced their values, and a
date is read as the schema casts it. -/
def RequestBody.sanitized (body : RequestBody) : TaskBody :=
  { title := body.title.map jsTrim
    description := body.description.map jsTrim
    status := body.status
    priority := body.priority
    dueDate := body.dueDate.map DueInput.cast
    tags := body.tags
    user := body.user }

/-- The route `PUT /api/tasks/:id`: `taskUpdateValidation`, then `validate`,
which answers 400 with the errors when there are any, then `updateTask`. -/
def putTaskRoute (store : Store) (caller id : ObjectId) (body : RequestBody)
    (now : Date) : Outcome Task × Store :=
  if taskUpdateValidation body ≠ [] then
    (.json { status := 400, success := false,
             errors := some (taskUpdateValidation body) }, store)
  else updateTask store caller id body.sanitized now

/-- The body the renew action of the task page sends. -/
def renewBody : RequestBody := { status := some "pending", dueDate := some .null }

/-! ## The validation of a create request -/

/-- The chain on `title` of `taskCreateValidation`. The chain is not
optional: an absent title is read as the empty string. The value is trimmed,
must not be empty, and must be 3 to 100 long by the count of `isLength`. -/
def createTitleErrors (title : Option String) : List (String × String) :=
  let value := jsTrim (title.getD "")
  (if value = "" then [("title", "Task title is required")] else []) ++
  (if 3 ≤ isLengthCount value ∧ isLengthCount value ≤ 100 then []
   else [("title", "Title must be between 3 and 100 characters")])

/-- The chain on `dueDate` of `taskCreateValidation`: skipped when the key
is absent; the custom check lets null and the empty string pass and asks of
any other string that `Date.parse` reads it. -/
def createDueDateErrors (dueDate : Option DueInput) : List (String × String) :=
  match dueDate with
  | none => []
  | some .null => []
  | some .empty => []
  | some (.date _) => []
  | some .invalid => [("dueDate", "Invalid date format")]

/-- The errors the chains of `taskCreateValidation` find in a body. -/
def taskCreateValidation (body : RequestBody) : List (String × String) :=
  createTitleErrors body.title ++ descriptionErrors body.description ++
  statusErrors body.status ++ priorityErrors body.priority ++
  createDueDateErrors body.dueDate

/-- The route `POST /api/tasks`: `taskCreateValidation`, then `validate`,
which answers 400 with the errors when there are any, then `createTask`. -/
def postTaskRoute (store : Store) (caller newId : ObjectId) (body : RequestBody)
    (now : Date) : Outcome Task × Store :=
  if taskCreateValidation body ≠ [] then
    (.json { status := 400, success := false,
             errors := some (taskCreateValidation body) }, store)
  else createTask store caller newId body.sanitized now

/-! ## The validation of a registration -/

/-- The chain on `password` of `registerValidation`: the value must not be
empty and must be at least 6 long by the count of `isLength`. The check of the letters and
the digit is commented out in the source, and its message, given by the
second `withMessage` after `isLength`, has become the message of the length
check. An absent password is read as the empty string. -/
def registerPasswordErrors (password : Option String) : List (String × String) :=
  let value := password.getD ""
  (if value = "" then [("password", "Password is required")] else []) ++
  (if 6 ≤ isLengthCount value then []
   else [("password",
     "Password must contain at least one uppercase letter, one lowercase letter, and one number")])

/-! ## The buttons of a task card -/

/-- A button of a task card. -/
inductive TaskAction where
  | complete
  | cancel
  | renew
  | edit
  | delete
  deriving DecidableEq

/-- The buttons the page `Tasks` renders for a task with the given status:
Complete and Cancel for a pending or in-progress task, Renew for a completed
task, Edit and Delete always. -/
def Tasks.actions (status : String) : List TaskAction :=
  (if status = "pending" ∨ status = "in-progress" then [.complete, .cancel] else []) ++
  (if status = "completed" then [.renew] else []) ++
  [.edit, .delete]

/-- The buttons the page `Dashboard` renders for a recent task with the
given status: Complete and Cancel for a pending or in-progress task, Renew
for a completed task. -/
def Dashboard.actions (status : String) : List TaskAction :=
  (if status = "pending" ∨ status = "in-progress" then [.complete, .cancel] else []) ++
  (if status = "completed" then [.renew] else [])

/-! ## Histories of requests -/

/-- A request to one of the three handlers that write. -/
inductive Request where
  | create (caller newId : ObjectId) (body : TaskBody) (now : Date)
  | update (caller id : ObjectId) (body : TaskBody) (now : Date)
  | delete (caller id : ObjectId)
  deriving DecidableEq

/-- The store a request leaves behind. -/
def Request.apply (store : Store) : Request → Store
  | .create caller newId body now => (createTask store caller newId body now).2
  | .update caller id body now => (updateTask store caller id body now).2
  | .delete caller id => (deleteTask store caller id).2

/-- The store after a history of requests, the first request first. -/
def runRequests (store : Store) (requests : List Request) : Store :=
  requests.foldl Request.apply store

/-! ## Notions the statements use -/

/-- The text `s` occurs in `text` as a substring when case is ignored as
the folding `fold` ignores it: the folded characters of `s` are a contiguous
run of the folded characters of `text`. -/
def occursIgnoringCase (fold : Char → Nat) (s text : String) : Prop :=
  s.data.map fold <:+: text.data.map fold

instance (fold : Char → Nat) (s text : String) :
    Decidable (occursIgnoringCase fold s text) := by
  unfold occursIgnoringCase
  infer_instance

/-- The rule the message of the registration states: the password holds an
uppercase letter, a lowercase letter and a digit. -/
def meetsPasswordRule (password : String) : Prop :=
  (∃ c ∈ password.data, 'A' ≤ c ∧ c ≤ 'Z') ∧
  (∃ c ∈ password.data, 'a' ≤ c ∧ c ≤ 'z') ∧
  (∃ c ∈ password.data, '0' ≤ c ∧ c ≤ '9')

instance (password : String) : Decidable (meetsPasswordRule password) := by
  unfold meetsPasswordRule
  infer_instance

/-! ## A small store for the worked examples -/

/-- A task with the given id, owner, title, status and creation time, and
the defaults of the schema elsewhere. -/
def sampleTask (id owner : ObjectId) (title status : String) (created : Date) : Task :=
  { _id := id, title := title, description := none, status := status,
    priority := "medium", dueDate := none, user := owner, tags := [],
    completedAt := none, createdAt := created, updatedAt := created }

/-- Four tasks: three of user 7 and one of user 8. -/
def sampleStore : Store :=
  [ sampleTask 1 7 "abc" "pending" 10,
    sampleTask 2 7 "Write report" "completed" 30,
    sampleTask 3 8 "abc" "pending" 20,
    sampleTask 4 7 "ABCD" "pending" 20 ]

/-- A store with one task of user 7 that was completed at time 40 and is
due at time 90. -/
def completedStore : Store :=
  [ { sampleTask 1 7 "Write report" "completed" 10 with
      completedAt := some 40, dueDate := some 90, updatedAt := 40 } ]

/-! ## Lemmas on numbers -/

theorem toInt?_fin_intCast (a : Int) : (JSNum.fin (a : ℚ)).toInt? = some a := by
  simp [JSNum.toInt?, JSNum.toRat?]

theorem toInt?_cases {x : JSNum} {a : Int} (h : x.toInt? = some a) :
    x = JSNum.fin (a : ℚ) ∨ (x = JSNum.negZero ∧ a = 0) := by
  cases x with
  | nan => simp [JSNum.toInt?, JSNum.toRat?] at h
  | inf n => simp [JSNum.toInt?, JSNum.toRat?] at h
  | negZero =>
    right
    simp [JSNum.toInt?, JSNum.toRat?] at h
    exact ⟨rfl, h.symm⟩
  | fin q =>
    left
    simp only [JSNum.toInt?, JSNum.toRat?] at h
    split_ifs at h with hden
    injection h with h
    rw [← h, Rat.coe_int_num_of_den_eq_one hden]

theorem sub_one_of_toInt? {x : JSNum} {a : Int} (h : x.toInt? = some a) :
    x.sub (JSNum.ofInt 1) = JSNum.fin ((a - 1 : Int) : ℚ) := by
  rcases toInt?_cases h with hx | ⟨hx, ha⟩
  · subst hx
    simp [JSNum.sub, JSNum.neg, JSNum.add, JSNum.ofInt, sub_eq_add_neg]
  · subst hx ha
    simp [JSNum.sub, JSNum.neg, JSNum.add, JSNum.ofInt]

theorem mul_of_toInt? {x y : JSNum} {a b : Int} (hx : x.toInt? = some a)
    (hy : y.toInt? = some b) : (x.mul y).toInt? = some (a * b) := by
  have hzero : ∀ n : Bool, (JSNum.zero n).toInt? = some 0 := by
    intro n
    cases n <;> simp [JSNum.zero, JSNum.toInt?, JSNum.toRat?]
  have key : ∀ (u v : JSNum), u.toRat? = some (a : ℚ) → v.toRat? = some (b : ℚ) →
      (if (a : ℚ) * b = 0 then JSNum.zero (u.signBit != v.signBit)
        else JSNum.fin ((a : ℚ) * b)).toInt? = some (a * b) := by
    intro u v _ _
    split_ifs with h0
    · rw [hzero]
      have : a * b = 0 := by exact_mod_cast h0
      rw [this]
    · have : ((a : ℚ) * b) = ((a * b : Int) : ℚ) := by push_cast; rfl
      rw [this, toInt?_fin_intCast]
  rcases toInt?_cases hx with hx' | ⟨hx', ha⟩ <;>
    rcases toInt?_cases hy with hy' | ⟨hy', hb⟩
  · subst hx' hy'
    simpa [JSNum.mul, JSNum.toRat?] using
      key (JSNum.fin (a : ℚ)) (JSNum.fin (b : ℚ)) rfl rfl
  · subst hx' hy' hb
    simpa [JSNum.mul, JSNum.toRat?] using
      key (JSNum.fin (a : ℚ)) JSNum.negZero rfl (by simp [JSNum.toRat?])
  · subst hx' hy' ha
    simpa [JSNum.mul, JSNum.toRat?] using
      key JSNum.negZero (JSNum.fin (b : ℚ)) (by simp [JSNum.toRat?]) rfl
  · subst hx' hy' ha hb
    simp [JSNum.mul, JSNum.toRat?, JSNum.zero, JSNum.signBit, JSNum.toInt?]

theorem toNat?_fin_intCast (a : Int) (h : 0 ≤ a) :
    (JSNum.fin (a : ℚ)).toNat? = some a.toNat := by
  simp only [JSNum.toNat?, Rat.intCast_den, Rat.intCast_num, h, and_self, if_true]

theorem toNat?_of_toInt? {x : JSNum} {a : Int} (h : x.toInt? = some a) (ha : 1 ≤ a) :
    x.toNat? = some a.toNat := by
  rcases toInt?_cases h with hx | ⟨_, h0⟩
  · subst hx
    have : (0 : Int) ≤ a := by omega
    simp [JSNum.toNat?, this]
  · omega

theorem skip_of_positive {x y : JSNum} {a b : Int} (hx : x.toInt? = some a)
    (hy : y.toInt? = some b) (ha : 1 ≤ a) (hb : 1 ≤ b) :
    (x.sub (JSNum.ofInt 1)).mul y = JSNum.fin (((a - 1) * b : Int) : ℚ) := by
  rw [sub_one_of_toInt? hx]
  rcases toInt?_cases hy with hy' | ⟨_, h0⟩
  · subst hy'
    have h1 : ¬ ((a : ℚ) - 1 < 0) := by
      have : (1 : ℚ) ≤ a := by exact_mod_cast ha
      linarith
    have h2 : ¬ ((b : ℚ) < 0) := by
      have : (1 : ℚ) ≤ b := by exact_mod_cast hb
      linarith
    have h3 : (b : ℚ) ≠ 0 := by
      have : (1 : ℚ) ≤ b := by exact_mod_cast hb
      linarith
    by_cases h0 : (a : ℚ) - 1 = 0
    · simp [JSNum.mul, JSNum.toRat?, JSNum.zero, JSNum.signBit, h0, h2]
    · simp [JSNum.mul, JSNum.toRat?, JSNum.zero, JSNum.signBit, h0, h3]
  · omega

/-! ## Lemmas on the store calls -/

theorem insertDoc_perm (le : Task → Task → Bool) (x : Task) (l : List Task) :
    List.Perm (insertDoc le x l) (x :: l) := by
  induction l with
  | nil => exact List.Perm.refl _
  | cons y ys ih =>
    unfold insertDoc
    split
    · exact List.Perm.refl _
    · exact (List.Perm.cons y ih).trans (List.Perm.swap x y ys)

theorem sortDocs_perm (le : Task → Task → Bool) (l : List Task) :
    List.Perm (sortDocs le l) l := by
  induction l with
  | nil => exact List.Perm.refl _
  | cons x xs ih =>
    exact (insertDoc_perm le x (sortDocs le xs)).trans (List.Perm.cons x ih)

theorem applyWindow_sublist {limit skip : JSNum} {docs out : List Task}
    (h : applyWindow limit skip docs = some out) : List.Sublist out docs := by
  unfold applyWindow at h
  split at h
  · rename_i k n _ _
    injection h with h
    subst h
    split
    · exact List.drop_sublist k docs
    · exact (List.take_sublist n _).trans (List.drop_sublist k docs)
  · exact absurd h (by simp)

/-- The filter of `getTasks`, key by key. -/
theorem buildQuery_eq (caller : ObjectId) (p : ListParams) :
    buildQuery caller p =
      { user := caller
        or := if truthy p.search then p.search else none
        status := if truthy p.status then p.status else none
        priority := if truthy p.priority then p.priority else none } := by
  unfold buildQuery
  split_ifs <;> rfl

theorem buildQuery_user (caller : ObjectId) (p : ListParams) :
    (buildQuery caller p).user = caller := by
  rw [buildQuery_eq]

theorem matchesFields_user {q : Query} {t : Task} (h : q.matchesFields t = true) :
    t.user = q.user := by
  unfold Query.matchesFields at h
  simp only [Bool.and_eq_true, decide_eq_true_eq] at h
  exact h.1.1

theorem predicateOn_fields {db : StoreEngine} {q : Query} {f : Task → Bool}
    (hf : q.predicateOn db = some f) {t : Task} (ht : f t = true) :
    q.matchesFields t = true := by
  unfold Query.predicateOn at hf
  split at hf
  · injection hf with hf
    subst hf
    exact ht
  · rename_i pat _
    cases hc : db.regex pat with
    | none => simp [hc] at hf
    | some rx =>
      simp only [hc, Option.map_some', Option.some.injEq] at hf
      subst hf
      simp only [Bool.and_eq_true] at ht
      exact ht.1

theorem predicate_fields {q : Query} {f : Task → Bool} (hf : q.predicate = some f)
    {t : Task} (ht : f t = true) : q.matchesFields t = true :=
  predicateOn_fields hf ht

theorem predicate_user {q : Query} {f : Task → Bool} (hf : q.predicate = some f)
    {t : Task} (ht : f t = true) : t.user = q.user :=
  matchesFields_user (predicate_fields hf ht)

/-- The tasks `getTasks` returns satisfy the predicate of its filter. -/
theorem window_subset_matches {limit skip : JSNum} {le : Task → Task → Bool}
    {f : Task → Bool} {store : Store} {tasks : List Task}
    (hw : applyWindow limit skip (sortDocs le (store.filter f)) = some tasks)
    {t : Task} (ht : t ∈ tasks) : t ∈ store ∧ f t = true :=
  List.mem_filter.mp ((sortDocs_perm _ _).subset ((applyWindow_sublist hw).subset ht))

theorem toNat?_fin_natCast (n : Nat) : (JSNum.fin (n : ℚ)).toNat? = some n := by
  simp [JSNum.toNat?]

theorem applyWindow_counts (n k : Nat) (docs : List Task) (hn : 1 ≤ n) :
    applyWindow (JSNum.fin n) (JSNum.fin k) docs = some ((docs.drop k).take n) := by
  have hne : n ≠ 0 := by omega
  simp [applyWindow, toNat?_fin_natCast, hne]

theorem signBit_fin_natCast (n : Nat) : (JSNum.fin (n : ℚ)).signBit = false := by
  have : ¬ ((n : ℚ) < 0) := not_lt.mpr (Nat.cast_nonneg n)
  simp [JSNum.signBit, this]

theorem foldLatin1_ascii (c : Char) (h : c.toNat < 128) : foldLatin1 c = foldCase c := by
  unfold foldLatin1 foldCase
  have h2 : ¬ (0xC0 ≤ c.toNat ∧ c.toNat ≤ 0xDE ∧ c.toNat ≠ 0xD7) := by omega
  simp only [h2, or_false]

theorem plainEngine_lawful : plainEngine.Lawful where
  order_perm := by
    intro sortObj docs out h
    simp only [plainEngine, Option.some.injEq] at h
    rw [← h]
    exact sortDocs_perm _ _
  window_sublist := by
    intro limit skip docs out h
    exact applyWindow_sublist h

theorem plainEngine_sortsPaths : plainEngine.SortsPaths :=
  fun _ _ _ _ => rfl

theorem plainEngine_windowsCounts : plainEngine.WindowsCounts :=
  fun n k docs hn _ _ => applyWindow_counts n k docs hn

theorem plainEngine_foldsAscii : plainEngine.FoldsAscii :=
  fun _ _ _ _ => Iff.rfl

theorem latinEngine_foldsAscii : latinEngine.FoldsAscii := by
  intro c d hc hd
  show foldLatin1 c = foldLatin1 d ↔ _
  rw [foldLatin1_ascii c hc, foldLatin1_ascii d hd]

theorem reversingEngine_lawful : reversingEngine.Lawful where
  order_perm := by
    intro sortObj docs out h
    simp only [reversingEngine, Option.some.injEq] at h
    rw [← h]
    exact (sortDocs_perm _ _).trans (List.reverse_perm docs)
  window_sublist := by
    intro limit skip docs out h
    exact applyWindow_sublist h

theorem reversingEngine_windowsCounts : reversingEngine.WindowsCounts :=
  fun n k docs hn _ _ => applyWindow_counts n k docs hn

theorem lenientEngine_lawful : lenientEngine.Lawful where
  order_perm := by
    intro sortObj docs out h
    simp only [lenientEngine, plainEngine, Option.some.injEq] at h
    rw [← h]
    exact sortDocs_perm _ _
  window_sublist := by
    intro limit skip docs out h
    exact applyWindow_sublist h

/-- The shape of a response of `getTasks`: the sort field is not empty, and
the response holds the window of the ordered matches and the count of the
matches. -/
theorem getTasksOn_eq_some {db : StoreEngine} {store : Store} {caller : ObjectId}
    {p : ListParams} {r : Response (List Task)} (h : getTasksOn db store caller p = some r) :
    getTasks.sortBy p ≠ "" ∧
    ∃ f sorted tasks, (buildQuery caller p).predicateOn db = some f ∧
      db.order (getTasks.sortObj p) (store.filter f) = some sorted ∧
      db.window (parseInt (getTasks.limit p)) (getTasks.skip p) sorted = some tasks ∧
      r = { status := 200, success := true, data := some tasks,
            pagination := some (getTasks.pagination p (store.filter f).length) } := by
  unfold getTasksOn Task.find Task.countDocuments at h
  by_cases hs : (getTasks.sortObj p).1 = ""
  · simp [hs] at h
  · refine ⟨hs, ?_⟩
    simp only [hs, if_false] at h
    cases hf : (buildQuery caller p).predicateOn db with
    | none => simp [hf] at h
    | some f =>
      simp only [hf, Option.map_some'] at h
      cases ho : db.order (getTasks.sortObj p) (store.filter f) with
      | none => simp [ho] at h
      | some sorted =>
        simp only [ho] at h
        cases hw : db.window (parseInt (getTasks.limit p)) (getTasks.skip p) sorted with
        | none => simp [hw] at h
        | some tasks =>
          simp only [hw, Option.some.injEq] at h
          exact ⟨f, sorted, tasks, rfl, ho, hw, h.symm⟩

/-- The answer of `getTasks` when the sort field is not empty, in the calls
on the engine. -/
theorem getTasksOn_of_sortBy (db : StoreEngine) (store : Store) (caller : ObjectId)
    (p : ListParams) (hs : getTasks.sortBy p ≠ "") :
    getTasksOn db store caller p =
      ((buildQuery caller p).predicateOn db).bind (fun f =>
        (db.order (getTasks.sortObj p) (store.filter f)).bind (fun sorted =>
          (db.window (parseInt (getTasks.limit p)) (getTasks.skip p) sorted).map
            (fun tasks =>
              { status := 200, success := true, data := some tasks,
                pagination := some (getTasks.pagination p (store.filter f).length) }))) := by
  have hs' : ¬ (getTasks.sortObj p).1 = "" := hs
  unfold getTasksOn Task.find Task.countDocuments
  simp only [hs', if_false]
  cases hf : (buildQuery caller p).predicateOn db with
  | none => simp
  | some f =>
    simp only [Option.map_some', Option.some_bind]
    cases ho : db.order (getTasks.sortObj p) (store.filter f) with
    | none => simp
    | some sorted =>
      simp only [Option.some_bind]
      cases hw : db.window (parseInt (getTasks.limit p)) (getTasks.skip p) sorted with
      | none => simp
      | some tasks => simp

/-- The shape of a response of `getTasks`: the predicate of its filter, the
window of the sorted matches and the count of the matches. -/
theorem getTasks_eq_some {store : Store} {caller : ObjectId} {p : ListParams}
    {r : Response (List Task)} (h : getTasks store caller p = some r) :
    ∃ f tasks, (buildQuery caller p).predicate = some f ∧
      applyWindow (parseInt (getTasks.limit p)) (getTasks.skip p)
        (sortDocs (docLe (getTasks.sortObj p)) (store.filter f)) = some tasks ∧
      r = { status := 200, success := true, data := some tasks,
            pagination := some (getTasks.pagination p (store.filter f).length) } := by
  obtain ⟨_, f, sorted, tasks, hf, ho, hw, hr⟩ := getTasksOn_eq_some h
  simp only [plainEngine, Option.some.injEq] at ho
  subst ho
  exact ⟨f, tasks, hf, hw, hr⟩

theorem parseInt_default_page : parseInt "1" = JSNum.fin 1 := by decide

theorem parseInt_default_limit : parseInt "10" = JSNum.fin 10 := by decide

theorem skip_default : ((JSNum.fin 1).sub (JSNum.ofInt 1)).mul (JSNum.fin 10) = JSNum.fin 0 := by
  decide!

/-! ## Lemmas on the ordering -/

theorem insertDoc_pairwise (le : Task → Task → Bool)
    (htotal : ∀ a b, le a b = true ∨ le b a = true)
    (htrans : ∀ a b c, le a b = true → le b c = true → le a c = true)
    (x : Task) (l : List Task) (hl : l.Pairwise (fun a b => le a b = true)) :
    (insertDoc le x l).Pairwise (fun a b => le a b = true) := by
  induction l with
  | nil => simp [insertDoc]
  | cons y ys ih =>
    rw [List.pairwise_cons] at hl
    unfold insertDoc
    split
    · rename_i hxy
      rw [List.pairwise_cons]
      refine ⟨?_, List.pairwise_cons.mpr hl⟩
      intro z hz
      rcases List.mem_cons.mp hz with hzy | hzys
      · rw [hzy]
        exact hxy
      · exact htrans x y z hxy (hl.1 z hzys)
    · rename_i hxy
      rw [List.pairwise_cons]
      refine ⟨?_, ih hl.2⟩
      intro z hz
      have hz' : z ∈ x :: ys := (insertDoc_perm le x ys).subset hz
      rcases List.mem_cons.mp hz' with hzx | hzys
      · rw [hzx]
        exact (htotal x y).resolve_left hxy
      · exact hl.1 z hzys

theorem sortDocs_pairwise (le : Task → Task → Bool)
    (htotal : ∀ a b, le a b = true ∨ le b a = true)
    (htrans : ∀ a b c, le a b = true → le b c = true → le a c = true)
    (l : List Task) : (sortDocs le l).Pairwise (fun a b => le a b = true) := by
  induction l with
  | nil => exact List.Pairwise.nil
  | cons x xs ih => exact insertDoc_pairwise le htotal htrans x _ ih

theorem docLe_createdAt_desc (a b : Task) :
    docLe ("createdAt", -1) a b = decide (b.createdAt ≤ a.createdAt) := by
  simp [docLe, sortKey, SortKey.le]

/-! ## Lemmas on patterns of ordinary characters -/

theorem compilePattern_plain (cs : List Char) (h : ∀ c ∈ cs, c ∉ regexSpecial) :
    compilePattern cs = some (cs.map RegexItem.lit) := by
  induction cs with
  | nil => rfl
  | cons c cs ih =>
    have hc : c ∉ regexSpecial := h c (List.mem_cons_self c cs)
    have hdot : c ≠ '.' := by
      intro hd
      apply hc
      rw [hd]
      decide
    have ih' := ih (fun d hd => h d (List.mem_cons_of_mem c hd))
    simp [compilePattern, hdot, hc, ih']

theorem matchHere_plain (fold : Char → Nat) (cs ds : List Char) :
    matchHere fold (cs.map RegexItem.lit) ds = true ↔
      cs.map fold <+: ds.map fold := by
  induction cs generalizing ds with
  | nil => simp [matchHere]
  | cons c cs ih =>
    cases ds with
    | nil => simp [matchHere]
    | cons d ds =>
      simp only [List.map_cons, matchHere, RegexItem.accepts, Bool.and_eq_true, beq_iff_eq,
        List.cons_prefix_cons, ih ds]

theorem regexSearch_plain (fold : Char → Nat) (cs ds : List Char) :
    regexSearch fold (cs.map RegexItem.lit) ds = true ↔
      cs.map fold <:+: ds.map fold := by
  induction ds with
  | nil =>
    cases cs with
    | nil => simp [regexSearch, matchHere]
    | cons c cs => simp [regexSearch, matchHere]
  | cons d ds ih =>
    rw [regexSearch, Bool.or_eq_true, matchHere_plain, ih, List.map_cons (f := fold) (a := d),
      List.infix_cons_iff]

/-- Two foldings that identify the same pairs of a character of the pattern
and a character of the subject give the same matches. -/
theorem matchHere_congr (f g : Char → Nat) (cs ds : List Char)
    (h : ∀ c ∈ cs, ∀ d ∈ ds, (f c = f d ↔ g c = g d)) :
    matchHere f (cs.map RegexItem.lit) ds = matchHere g (cs.map RegexItem.lit) ds := by
  induction cs generalizing ds with
  | nil => simp [matchHere]
  | cons c cs ih =>
    cases ds with
    | nil => simp [matchHere]
    | cons d ds =>
      have hcd := h c (List.mem_cons_self c cs) d (List.mem_cons_self d ds)
      have hrest := ih ds (fun c' hc' d' hd' =>
        h c' (List.mem_cons_of_mem c hc') d' (List.mem_cons_of_mem d hd'))
      simp only [List.map_cons, matchHere, RegexItem.accepts, hrest]
      congr 1
      by_cases hf : f c = f d
      · simp [hf, hcd.mp hf]
      · have hg : ¬ g c = g d := fun e => hf (hcd.mpr e)
        simp [hf, hg]

theorem regexSearch_congr (f g : Char → Nat) (cs ds : List Char)
    (h : ∀ c ∈ cs, ∀ d ∈ ds, (f c = f d ↔ g c = g d)) :
    regexSearch f (cs.map RegexItem.lit) ds = regexSearch g (cs.map RegexItem.lit) ds := by
  induction ds with
  | nil =>
    cases cs with
    | nil => simp [regexSearch, matchHere]
    | cons c cs => simp [regexSearch, matchHere]
  | cons d ds ih =>
    rw [regexSearch, regexSearch, matchHere_congr f g cs (d :: ds) h,
      ih (fun c hc d' hd' => h c hc d' (List.mem_cons_of_mem d hd'))]

theorem occursIgnoringCase_congr (f g : Char → Nat) (s text : String)
    (h : ∀ c ∈ s.data, ∀ d ∈ text.data, (f c = f d ↔ g c = g d)) :
    occursIgnoringCase f s text ↔ occursIgnoringCase g s text := by
  unfold occursIgnoringCase
  rw [← regexSearch_plain, ← regexSearch_plain, regexSearch_congr f g s.data text.data h]

/-! ## The ownership guard -/

/-- C1: for a task that exists, `getTask` and `deleteTask` answer 200 exactly
when the caller is the owner, and `updateTask` answers 200 only for the owner
and does so whenever the owner's changes pass the validation of the schema;
for any other caller each of the three sends the 403 response with
`success: false`, which is not the 404 response. -/
theorem guard_allows_exactly_the_owner (store : Store) (caller id : ObjectId)
    (task : Task) (body : TaskBody) (now : Date)
    (hfound : Task.findById store id = some task) :
    ((getTask store caller id).status? = some 200 ↔ task.user = caller) ∧
    ((deleteTask store caller id).1.status? = some 200 ↔ task.user = caller) ∧
    (schemaErrors (assignFields task body) = [] →
      ((updateTask store caller id body now).1.status? = some 200 ↔ task.user = caller)) ∧
    ((updateTask store caller id body now).1.status? = some 200 → task.user = caller) ∧
    (task.user ≠ caller →
      getTask store caller id =
        .json { status := 403, success := false,
                message := some "Not authorized to access this task" } ∧
      (updateTask store caller id body now).1 =
        .json { status := 403, success := false,
                message := some "Not authorized to update this task" } ∧
      (deleteTask store caller id).1 =
        .json { status := 403, success := false,
                message := some "Not authorized to delete this task" }) := by
  have hupd : (updateTask store caller id body now).1.status? = some 200 →
      task.user = caller := by
    intro h
    by_contra hne
    simp [updateTask, hfound, hne, Outcome.status?, notAuthorized] at h
  refine ⟨?_, ?_, ?_, hupd, ?_⟩
  · by_cases h : task.user = caller <;>
      simp [getTask, hfound, h, Outcome.status?, notAuthorized]
  · by_cases h : task.user = caller <;>
      simp [deleteTask, hfound, h, Outcome.status?, notAuthorized]
  · intro hvalid
    refine ⟨hupd, ?_⟩
    intro h
    simp [updateTask, hfound, h, Task.save, hvalid, Outcome.status?]
  · intro h
    refine ⟨?_, ?_, ?_⟩
    · simp [getTask, hfound, h, notAuthorized]
    · simp [updateTask, hfound, h, notAuthorized]
    · simp [deleteTask, hfound, h, notAuthorized]

/-- The guard on the sample store: task 1 belongs to user 7, who may rename
it, and user 8 gets the 403 response. -/
theorem guard_allows_exactly_the_owner_witness :
    Task.findById sampleStore 1 = some (sampleTask 1 7 "abc" "pending" 10) ∧
    ((updateTask sampleStore 7 1 { title := some "abc!" } 50).1.status? = some 200 ↔
      (sampleTask 1 7 "abc" "pending" 10).user = 7) ∧
    (getTask sampleStore 8 1).status? = some 403 :=
  ⟨by decide,
   (guard_allows_exactly_the_owner sampleStore 7 1 (sampleTask 1 7 "abc" "pending" 10)
      { title := some "abc!" } 50 (by decide)).2.2.1 (by decide),
   by decide⟩

/-- C2, as the claim states it, fails: the id `abc` is no ObjectId, so it
names no task, and none of the three handlers answers 404 for it: the cast
error of `findById` is handed to `next`, no response is sent by the handler,
and the store is left as it was. -/
theorem malformed_id_is_not_answered_404 :
    getTaskOnParam sampleStore 7 (.other "abc") = .castFailed { value := "abc" } ∧
    getTaskOnParam sampleStore 7 (.other "abc") ≠
      .handled (.json { status := 404, success := false, message := some "Task not found" }) ∧
    updateTaskOnParam sampleStore 7 (.other "abc") { title := some "Report" } 50 =
      (.castFailed { value := "abc" }, sampleStore) ∧
    deleteTaskOnParam sampleStore 7 (.other "abc") = (.castFailed { value := "abc" }, sampleStore) := by
  decide

/-- C2, amended: for an id that is an ObjectId and names no task, `getTask`,
`updateTask` and `deleteTask` send the 404 response with `success: false`,
whoever the caller is and whatever the body holds, and the store is left as
it was; for an id that is no ObjectId each of the three hands the cast error
to `next`, sends no response, and leaves the store as it was. -/
theorem missing_task_is_not_found (store : Store) (caller : ObjectId) (body : TaskBody)
    (now : Date) :
    (∀ id : ObjectId, Task.findById store id = none →
      getTaskOnParam store caller (.objectId id) =
        .handled (.json { status := 404, success := false, message := some "Task not found" }) ∧
      updateTaskOnParam store caller (.objectId id) body now =
        (.handled (.json { status := 404, success := false, message := some "Task not found" }),
         store) ∧
      deleteTaskOnParam store caller (.objectId id) =
        (.handled (.json { status := 404, success := false, message := some "Task not found" }),
         store)) ∧
    (∀ raw : String,
      getTaskOnParam store caller (.other raw) = .castFailed { value := raw } ∧
      updateTaskOnParam store caller (.other raw) body now = (.castFailed { value := raw }, store) ∧
      deleteTaskOnParam store caller (.other raw) = (.castFailed { value := raw }, store)) := by
  constructor
  · intro id hmissing
    simp [getTaskOnParam, updateTaskOnParam, deleteTaskOnParam, getTask, updateTask,
      deleteTask, hmissing, notFound]
  · intro raw
    exact ⟨rfl, rfl, rfl⟩

/-- No task of the sample store has id 9: user 7 and user 8 get the same
404 response, and a delete by user 8 leaves the store as it was. -/
theorem missing_task_is_not_found_witness :
    Task.findById sampleStore 9 = none ∧
    getTaskOnParam sampleStore 7 (.objectId 9) =
      .handled (.json { status := 404, success := false, message := some "Task not found" }) ∧
    deleteTaskOnParam sampleStore 8 (.objectId 9) =
      (.handled (.json { status := 404, success := false, message := some "Task not found" }),
       sampleStore) :=
  ⟨by decide,
   ((missing_task_is_not_found sampleStore 7 {} 0).1 9 (by decide)).1,
   ((missing_task_is_not_found sampleStore 8 {} 0).1 9 (by decide)).2.2⟩

/-- C3: when `updateTask` or `deleteTask` ends with the 404 or the 403
response, the store after the request is the store before it, whatever the
body holds. -/
theorem refused_request_leaves_store (store : Store) (caller id : ObjectId)
    (body : TaskBody) (now : Date) :
    (((updateTask store caller id body now).1.status? = some 404 ∨
      (updateTask store caller id body now).1.status? = some 403) →
        (updateTask store caller id body now).2 = store) ∧
    (((deleteTask store caller id).1.status? = some 404 ∨
      (deleteTask store caller id).1.status? = some 403) →
        (deleteTask store caller id).2 = store) := by
  constructor
  · intro h
    unfold updateTask at h ⊢
    cases hf : Task.findById store id with
    | none => simp
    | some task =>
      by_cases ho : task.user = caller
      · simp only [hf, ho, ne_eq, not_true_eq_false, if_false] at h ⊢
        cases hs : Task.save store task (assignFields task body) now with
        | error e => simp
        | ok r => simp [hs, Outcome.status?] at h
      · simp [ho]
  · intro h
    unfold deleteTask at h ⊢
    cases hf : Task.findById store id with
    | none => simp
    | some task =>
      by_cases ho : task.user = caller
      · simp [hf, ho, Outcome.status?] at h
      · simp [ho]

/-- User 8 tries to complete and to delete task 1 of user 7: both requests
end with 403 and the sample store is unchanged. -/
theorem refused_request_leaves_store_witness :
    (updateTask sampleStore 8 1 { status := some "completed" } 50).1.status? = some 403 ∧
    (updateTask sampleStore 8 1 { status := some "completed" } 50).2 = sampleStore ∧
    (deleteTask sampleStore 8 1).2 = sampleStore :=
  ⟨by decide,
   (refused_request_leaves_store sampleStore 8 1 { status := some "completed" } 50).1
     (Or.inr (by decide)),
   (refused_request_leaves_store sampleStore 8 1 {} 0).2 (Or.inr (by decide))⟩

/-! ## The list request -/

/-- The answer to a request with no search, no page and no limit, on a
path of the schema. -/
theorem getTasksOn_default_isSome (db : StoreEngine) (hpaths : db.SortsPaths)
    (hwin : db.WindowsCounts) (store : Store)
    (caller : ObjectId) (p : ListParams) (hs : truthy p.search = false)
    (hp : p.page = none) (hl : p.limit = none) (hfield : getTasks.sortBy p ∈ schemaPaths) :
    (getTasksOn db store caller p).isSome = true := by
  have hne : getTasks.sortBy p ≠ "" := by
    intro h
    rw [h] at hfield
    exact absurd hfield (by decide)
  have hq : (buildQuery caller p).or = none := by
    rw [buildQuery_eq]
    simp [hs]
  have hf : (buildQuery caller p).predicateOn db =
      some (fun t => (buildQuery caller p).matchesFields t) := by
    simp [Query.predicateOn, hq]
  have hsk : getTasks.skip p = JSNum.fin 0 := by
    simp only [getTasks.skip, getTasks.page, getTasks.limit, hp, hl, Option.getD_none,
      parseInt_default_page, parseInt_default_limit, skip_default]
  have hlim : parseInt (getTasks.limit p) = JSNum.fin 10 := by
    simp only [getTasks.limit, hl, Option.getD_none, parseInt_default_limit]
  have ho := hpaths (getTasks.sortBy p) hfield (getTasks.sortOrder p)
    (store.filter (fun t => (buildQuery caller p).matchesFields t))
  obtain ⟨sorted, hsorted⟩ := Option.isSome_iff_exists.mp ho
  have hw : db.window (JSNum.fin 10) (JSNum.fin 0) sorted = some ((sorted.drop 0).take 10) := by
    have h := hwin 10 0 sorted (by norm_num) (by norm_num) (by norm_num)
    simpa using h
  have hsorted' : db.order (getTasks.sortObj p)
      (store.filter (fun t => (buildQuery caller p).matchesFields t)) = some sorted := hsorted
  rw [getTasksOn_of_sortBy db store caller p hne, hf, Option.some_bind, hsorted',
    Option.some_bind, hlim, hsk, hw]
  rfl

/-- C4: on every engine that gives back only documents it was given,
whatever the list parameters, every task in the data `getTasks` returns is a
stored task owned by the caller, every task its filter selects is owned by
the caller, and the total it reports is the number of the caller's tasks that
satisfy the rest of the filter, so it counts tasks of the caller only. A
request that is not answered is one where a call on the store threw. With no
search, no page and no limit, and a sort on a path of the schema, the request
is answered by an engine that orders by the paths of the schema and windows
by counts. -/
theorem list_holds_only_callers_tasks (db : StoreEngine) (hdb : db.Lawful) (store : Store)
    (caller : ObjectId) (p : ListParams) :
    (∀ r, getTasksOn db store caller p = some r →
      ∃ tasks pg f, r.data = some tasks ∧ r.pagination = some pg ∧
        (∀ t ∈ tasks, t.user = caller ∧ t ∈ store) ∧
        (buildQuery caller p).predicateOn db = some f ∧
        (∀ t, f t = true → t.user = caller) ∧
        pg.total = ((store.filter (fun t => decide (t.user = caller))).filter f).length ∧
        pg.total ≤ (store.filter (fun t => decide (t.user = caller))).length) ∧
    (db.SortsPaths → db.WindowsCounts →
      truthy p.search = false → p.page = none → p.limit = none →
      getTasks.sortBy p ∈ schemaPaths → (getTasksOn db store caller p).isSome = true) := by
  constructor
  · intro r h
    obtain ⟨_, f, sorted, tasks, hf, ho, hw, hr⟩ := getTasksOn_eq_some h
    have huser : ∀ t, f t = true → t.user = caller := fun t ht =>
      (matchesFields_user (predicateOn_fields hf ht)).trans (buildQuery_user caller p)
    have hfil : (store.filter (fun t => decide (t.user = caller))).filter f = store.filter f := by
      rw [List.filter_filter]
      apply List.filter_congr
      intro t _
      by_cases ht : f t = true
      · simp [ht, huser t ht]
      · simp [ht]
    refine ⟨tasks, getTasks.pagination p (store.filter f).length, f, ?_, ?_, ?_, hf, huser,
      ?_, ?_⟩
    · rw [hr]
    · rw [hr]
    · intro t ht
      have hmem : t ∈ store.filter f :=
        (hdb.order_perm _ _ _ ho).subset ((hdb.window_sublist _ _ _ _ hw).subset ht)
      rw [List.mem_filter] at hmem
      exact ⟨huser t hmem.2, hmem.1⟩
    · simp only [getTasks.pagination, hfil]
    · simp only [getTasks.pagination]
      rw [← hfil]
      exact List.length_filter_le _ _
  · intro hpaths hwin
    exact getTasksOn_default_isSome db hpaths hwin store caller p

/-- The search `a*` with the limit -5 on an engine that evaluates both: the
list of user 7 holds tasks of user 7 only. And the default list of user 7 on
the plain engine is answered. -/
theorem list_holds_only_callers_tasks_witness :
    (∃ r, getTasksOn lenientEngine sampleStore 7
        { search := some "a*", limit := some "-5" } = some r ∧
      ∃ tasks pg f, r.data = some tasks ∧ r.pagination = some pg ∧
        (∀ t ∈ tasks, t.user = 7 ∧ t ∈ sampleStore) ∧
        (buildQuery 7 { search := some "a*", limit := some "-5" }).predicateOn lenientEngine
          = some f ∧
        (∀ t, f t = true → t.user = 7) ∧
        pg.total = ((sampleStore.filter (fun t => decide (t.user = 7))).filter f).length ∧
        pg.total ≤ (sampleStore.filter (fun t => decide (t.user = 7))).length) ∧
    (getTasksOn lenientEngine sampleStore 7 { search := some "a*", limit := some "-5" }).map
        (fun r => r.data.map (fun tasks => tasks.map (fun t => t._id))) =
      some (some [2, 4, 1]) ∧
    (getTasksOn plainEngine sampleStore 7 {}).isSome = true :=
  ⟨⟨(getTasksOn lenientEngine sampleStore 7 { search := some "a*", limit := some "-5" }).get
      (by decide!),
    (Option.some_get _).symm,
    (list_holds_only_callers_tasks lenientEngine lenientEngine_lawful sampleStore 7
      { search := some "a*", limit := some "-5" }).1 _ (Option.some_get _).symm⟩,
   by decide!,
   (list_holds_only_callers_tasks plainEngine plainEngine_lawful sampleStore 7 {}).2
     plainEngine_sortsPaths plainEngine_windowsCounts (by decide) rfl rfl (by decide)⟩

/-- C5, as the claim states it, fails: the search string "." selects a task
whose title is "abc" and which has no description, though "." occurs in
neither. -/
theorem search_dot_selects_without_occurrence :
    (buildQuery 7 { search := some "." }).matchesOn plainEngine
        (sampleTask 1 7 "abc" "pending" 10) = some true ∧
    ¬ occursIgnoringCase plainEngine.fold "." (sampleTask 1 7 "abc" "pending" 10).title ∧
    (sampleTask 1 7 "abc" "pending" 10).description = none := by
  decide

/-- C5, amended: on every engine, for a non-empty search string made of
characters with no meaning of their own in a regular expression, and with no
status or priority filter, a task of the caller satisfies the list predicate
exactly when the string occurs as a substring of its title or of its
description, two characters being the same when the case folding of the
option `i` gives them the same value. When the string, the title and the
description are ASCII text, that is the occurrence with the capitals A to Z
read as their small letters. -/
theorem search_plain_text_is_substring (db : StoreEngine) (caller : ObjectId)
    (p : ListParams) (s : String) (t : Task)
    (hsearch : p.search = some s) (hne : s ≠ "")
    (hplain : ∀ c ∈ s.data, c ∉ regexSpecial)
    (hstatus : truthy p.status = false) (hpriority : truthy p.priority = false)
    (hown : t.user = caller) :
    ∃ b, (buildQuery caller p).matchesOn db t = some b ∧
      (b = true ↔
        (occursIgnoringCase db.fold s t.title ∨
          ∃ d, t.description = some d ∧ occursIgnoringCase db.fold s d)) ∧
      (db.FoldsAscii → (∀ c ∈ s.data, c.toNat < 128) → (∀ c ∈ t.title.data, c.toNat < 128) →
        (∀ d, t.description = some d → ∀ c ∈ d.data, c.toNat < 128) →
        (b = true ↔
          (occursIgnoringCase foldCase s t.title ∨
            ∃ d, t.description = some d ∧ occursIgnoringCase foldCase s d))) := by
  have hq : buildQuery caller p = { user := caller, or := some s } := by
    have hts : truthy (some s) = true := by simp [truthy, hne]
    rw [buildQuery_eq, hstatus, hpriority, hsearch, hts]
    simp
  have hgen : matchesOr (fun text => regexSearch db.fold (s.data.map RegexItem.lit) text.data) t
        = true ↔
      (occursIgnoringCase db.fold s t.title ∨
        ∃ d, t.description = some d ∧ occursIgnoringCase db.fold s d) := by
    unfold matchesOr occursIgnoringCase
    rw [Bool.or_eq_true, regexSearch_plain]
    cases hd : t.description with
    | none => simp
    | some d => simp [regexSearch_plain]
  refine ⟨matchesOr (fun text => regexSearch db.fold (s.data.map RegexItem.lit) text.data) t,
    ?_, hgen, ?_⟩
  · simp [Query.matchesOn, Query.predicateOn, StoreEngine.regex, hq,
      compilePattern_plain s.data hplain, Query.matchesFields, hown]
  · intro hdb hs ht hd
    rw [hgen]
    have h1 : occursIgnoringCase db.fold s t.title ↔ occursIgnoringCase foldCase s t.title :=
      occursIgnoringCase_congr _ _ _ _
        (fun c hc d hd' => hdb c d (hs c hc) (ht d hd'))
    rw [h1]
    apply or_congr Iff.rfl
    constructor
    · rintro ⟨d, hdesc, hocc⟩
      exact ⟨d, hdesc, (occursIgnoringCase_congr _ _ _ _
        (fun c hc e he => hdb c e (hs c hc) (hd d hdesc e he))).mp hocc⟩
    · rintro ⟨d, hdesc, hocc⟩
      exact ⟨d, hdesc, (occursIgnoringCase_congr _ _ _ _
        (fun c hc e he => hdb c e (hs c hc) (hd d hdesc e he))).mpr hocc⟩

/-- The search "bc" on the plain engine: task 4 of user 7, titled "ABCD",
satisfies the predicate, and "bc" occurs in its title when case is ignored.
The search "É" on an engine that folds Latin-1: a task titled "été" satisfies
the predicate, which it does not on the plain engine. -/
theorem search_plain_text_is_substring_witness :
    occursIgnoringCase foldCase "bc" (sampleTask 4 7 "ABCD" "pending" 20).title ∧
    (∃ b, (buildQuery 7 { search := some "bc" }).matchesOn plainEngine
          (sampleTask 4 7 "ABCD" "pending" 20) = some b ∧
      (b = true ↔
        (occursIgnoringCase plainEngine.fold "bc" (sampleTask 4 7 "ABCD" "pending" 20).title ∨
          ∃ d, (sampleTask 4 7 "ABCD" "pending" 20).description = some d ∧
            occursIgnoringCase plainEngine.fold "bc" d)) ∧
      (b = true ↔
        (occursIgnoringCase foldCase "bc" (sampleTask 4 7 "ABCD" "pending" 20).title ∨
          ∃ d, (sampleTask 4 7 "ABCD" "pending" 20).description = some d ∧
            occursIgnoringCase foldCase "bc" d))) ∧
    (buildQuery 7 { search := some "bc" }).matchesOn plainEngine
        (sampleTask 4 7 "ABCD" "pending" 20) = some true ∧
    (buildQuery 7 { search := some "É" }).matchesOn latinEngine
        (sampleTask 5 7 "été" "pending" 20) = some true ∧
    (buildQuery 7 { search := some "É" }).matchesOn plainEngine
        (sampleTask 5 7 "été" "pending" 20) = some false ∧
    (∃ b, (buildQuery 7 { search := some "É" }).matchesOn latinEngine
          (sampleTask 5 7 "été" "pending" 20) = some b ∧
      (b = true ↔
        (occursIgnoringCase latinEngine.fold "É" (sampleTask 5 7 "été" "pending" 20).title ∨
          ∃ d, (sampleTask 5 7 "été" "pending" 20).description = some d ∧
            occursIgnoringCase latinEngine.fold "É" d))) :=
  ⟨by decide,
   let ⟨b, h1, h2, h3⟩ := search_plain_text_is_substring plainEngine 7
     { search := some "bc" } "bc" (sampleTask 4 7 "ABCD" "pending" 20) rfl (by decide)
     (by decide) (by decide) (by decide) (by decide)
   ⟨b, h1, h2, h3 plainEngine_foldsAscii (by decide) (by decide) (by simp [sampleTask])⟩,
   by decide, by decide, by decide,
   let ⟨b, h1, h2, _⟩ := search_plain_text_is_substring latinEngine 7
     { search := some "É" } "É" (sampleTask 5 7 "été" "pending" 20) rfl (by decide)
     (by decide) (by decide) (by decide) (by decide)
   ⟨b, h1, h2⟩⟩

/-- C6: with no search, a task satisfies the list predicate exactly when it
is owned by the caller, its status equals the `status` parameter unless that
is absent or empty, and its priority equals the `priority` parameter unless
that is absent or empty; so with both omitted every task of the caller does.
And whatever the other parameters, with a non-empty `status` parameter every
returned task has that status. -/
theorem filters_are_exact_equalities (caller : ObjectId) (p : ListParams) (t : Task) :
    (truthy p.search = false →
      ((buildQuery caller p).matches t = some true ↔
        t.user = caller ∧
        (p.status = none ∨ p.status = some "" ∨ p.status = some t.status) ∧
        (p.priority = none ∨ p.priority = some "" ∨ p.priority = some t.priority)) ∧
      ((buildQuery caller p).matches t).isSome = true ∧
      (p.status = none → p.priority = none → t.user = caller →
        (buildQuery caller p).matches t = some true)) ∧
    (∀ s, p.status = some s → s ≠ "" →
      ∀ store r, getTasks store caller p = some r →
        ∃ tasks, r.data = some tasks ∧ ∀ x ∈ tasks, x.status = s) := by
  constructor
  · intro hsearch
    have hm : (buildQuery caller p).matches t =
        some ((buildQuery caller p).matchesFields t) := by
      rw [buildQuery_eq]
      simp [Query.matches, Query.predicate, Query.predicateOn, hsearch]
    have hiff : (buildQuery caller p).matchesFields t = true ↔
        t.user = caller ∧
        (p.status = none ∨ p.status = some "" ∨ p.status = some t.status) ∧
        (p.priority = none ∨ p.priority = some "" ∨ p.priority = some t.priority) := by
      rw [buildQuery_eq]
      unfold Query.matchesFields
      simp only [Bool.and_eq_true, decide_eq_true_eq, and_assoc]
      refine and_congr Iff.rfl (and_congr ?_ ?_)
      · cases hst : p.status with
        | none => simp [truthy]
        | some v =>
          by_cases hv : v = ""
          · simp [truthy, hv]
          · simp [truthy, hv, eq_comm]
      · cases hpr : p.priority with
        | none => simp [truthy]
        | some v =>
          by_cases hv : v = ""
          · simp [truthy, hv]
          · simp [truthy, hv, eq_comm]
    refine ⟨?_, ?_, ?_⟩
    · rw [hm, Option.some.injEq]
      exact hiff
    · rw [hm]
      rfl
    · intro hst hpr hown
      rw [hm, Option.some.injEq]
      exact hiff.mpr ⟨hown, Or.inl hst, Or.inl hpr⟩
  · intro s hs hne store r h
    obtain ⟨f, tasks, hf, hw, hr⟩ := getTasks_eq_some h
    refine ⟨tasks, by rw [hr], ?_⟩
    intro x hx
    have hfields := predicate_fields hf (window_subset_matches hw hx).2
    rw [buildQuery_eq] at hfields
    have hts : truthy (some s) = true := by simp [truthy, hne]
    simp only [Query.matchesFields, hs, hts, if_true, Bool.and_eq_true,
      decide_eq_true_eq] at hfields
    exact hfields.1.2

/-- On the sample store with `status=pending`: task 1 of user 7 satisfies
the predicate, and every task returned to user 7 is pending. -/
theorem filters_are_exact_equalities_witness :
    (buildQuery 7 { status := some "pending" }).matches (sampleTask 1 7 "abc" "pending" 10)
      = some true ∧
    ∃ r, getTasks sampleStore 7 { status := some "pending" } = some r ∧
      ∃ tasks, r.data = some tasks ∧ ∀ x ∈ tasks, x.status = "pending" :=
  ⟨((filters_are_exact_equalities 7 { status := some "pending" }
        (sampleTask 1 7 "abc" "pending" 10)).1 (by decide)).1.mpr (by decide),
   (getTasks sampleStore 7 { status := some "pending" }).get (by decide!),
   (Option.some_get _).symm,
   (filters_are_exact_equalities 7 { status := some "pending" }
      (sampleTask 1 7 "abc" "pending" 10)).2 "pending" rfl (by decide) sampleStore _
      (Option.some_get _).symm⟩

/-- C7, as the claim states it, fails: a field name is rejected. With
`sortBy` the empty string the method `sort` throws, the handler hands the
error to `next` and no list is sent, on whatever engine; the same request
without `sortBy` is answered. -/
theorem empty_sort_field_is_refused :
    getTasks.sortObj { sortBy := some "" } = ("", -1) ∧
    getTasksOn plainEngine sampleStore 7 { sortBy := some "" } = none ∧
    getTasksOn lenientEngine sampleStore 7 { sortBy := some "" } = none ∧
    (getTasksOn plainEngine sampleStore 7 {}).isSome = true := by
  decide!

/-- C7, amended: the ordering `getTasks` builds is `{ [field]: dir }` with
field the `sortBy` parameter, or `createdAt` when that is absent, and dir 1
exactly when `order` is the string `asc` and -1 for every other value, absent,
`ASC` and `descending` among them. The handler checks no field name. The
empty name is refused by `sort`: the request is handed to `next` and no list
is sent. Every other name reaches the store as it was given: the answer is
the one the store gives for the ordering `{ [field]: dir }`. -/
theorem ordering_follows_sortBy_and_order (p : ListParams) :
    getTasks.sortObj p =
      (p.sortBy.getD "createdAt", if p.order = some "asc" then 1 else -1) ∧
    ((getTasks.sortObj p).2 = 1 ↔ p.order = some "asc") ∧
    ((getTasks.sortObj p).2 = -1 ↔ p.order ≠ some "asc") ∧
    getTasks.sortObj { p with sortBy := none, order := none } = ("createdAt", -1) ∧
    getTasks.sortObj { p with order := some "ASC" } = (p.sortBy.getD "createdAt", -1) ∧
    getTasks.sortObj { p with order := some "descending" } = (p.sortBy.getD "createdAt", -1) ∧
    (∀ (db : StoreEngine) (store : Store) (caller : ObjectId),
      p.sortBy = some "" → getTasksOn db store caller p = none) ∧
    (∀ (db : StoreEngine) (store : Store) (caller : ObjectId),
      p.sortBy ≠ some "" →
      getTasksOn db store caller p =
        ((buildQuery caller p).predicateOn db).bind (fun f =>
          (db.order (p.sortBy.getD "createdAt", if p.order = some "asc" then 1 else -1)
              (store.filter f)).bind (fun sorted =>
            (db.window (parseInt (getTasks.limit p)) (getTasks.skip p) sorted).map
              (fun tasks =>
                { status := 200, success := true, data := some tasks,
                  pagination := some (getTasks.pagination p (store.filter f).length) })))) := by
  have hcases : (p.order = some "asc" ∧ getTasks.sortOrder p = 1) ∨
      (p.order ≠ some "asc" ∧ getTasks.sortOrder p = -1) := by
    unfold getTasks.sortOrder getTasks.order
    cases ho : p.order with
    | none => right; simp
    | some o =>
      by_cases h : o = "asc"
      · left; simp [h]
      · right; simp [h]
  have hobj : getTasks.sortObj p =
      (p.sortBy.getD "createdAt", if p.order = some "asc" then 1 else -1) := by
    rcases hcases with ⟨h1, h2⟩ | ⟨h1, h2⟩ <;>
      simp [getTasks.sortObj, getTasks.sortBy, h1, h2]
  refine ⟨hobj, ?_, ?_, ?_, ?_, ?_, ?_, ?_⟩
  · rcases hcases with ⟨h1, h2⟩ | ⟨h1, h2⟩ <;>
      simp [getTasks.sortObj, h1, h2]
  · rcases hcases with ⟨h1, h2⟩ | ⟨h1, h2⟩ <;>
      simp [getTasks.sortObj, h1, h2]
  · simp [getTasks.sortObj, getTasks.sortBy, getTasks.sortOrder, getTasks.order]
  · simp [getTasks.sortObj, getTasks.sortBy, getTasks.sortOrder, getTasks.order]
  · simp [getTasks.sortObj, getTasks.sortBy, getTasks.sortOrder, getTasks.order]
  · intro db store caller hs
    have hempty : (getTasks.sortObj p).1 = "" := by
      simp [getTasks.sortObj, getTasks.sortBy, hs]
    simp [getTasksOn, Task.find, hempty]
  · intro db store caller hs
    have hne : getTasks.sortBy p ≠ "" := by
      unfold getTasks.sortBy
      cases hb : p.sortBy with
      | none => simp
      | some v =>
        intro h
        apply hs
        rw [hb]
        simpa using h
    rw [getTasksOn_of_sortBy db store caller p hne, hobj]

/-- The list of user 7 with `sortBy` the empty string is not answered; with
`sortBy=title` and `order=asc` it is the list the store gives for the
ordering by title, ascending. -/
theorem ordering_follows_sortBy_and_order_witness :
    getTasksOn plainEngine sampleStore 7 { sortBy := some "" } = none ∧
    getTasksOn plainEngine sampleStore 7 { sortBy := some "title", order := some "asc" } =
      ((buildQuery 7 { sortBy := some "title", order := some "asc" }).predicateOn
          plainEngine).bind (fun f =>
        (plainEngine.order ((some "title").getD "createdAt",
            if (some "asc" : Option String) = some "asc" then 1 else -1)
            (sampleStore.filter f)).bind (fun sorted =>
          (plainEngine.window
              (parseInt (getTasks.limit { sortBy := some "title", order := some "asc" }))
              (getTasks.skip { sortBy := some "title", order := some "asc" }) sorted).map
            (fun tasks =>
              { status := 200, success := true, data := some tasks,
                pagination := some (getTasks.pagination
                  { sortBy := some "title", order := some "asc" }
                  (sampleStore.filter f).length) }))) ∧
    (getTasksOn plainEngine sampleStore 7 { sortBy := some "title", order := some "asc" }).map
        (fun r => r.data.map (fun tasks => tasks.map (fun t => t.title))) =
      some (some ["ABCD", "Write report", "abc"]) :=
  ⟨(ordering_follows_sortBy_and_order { sortBy := some "" }).2.2.2.2.2.2.1
      plainEngine sampleStore 7 rfl,
   (ordering_follows_sortBy_and_order { sortBy := some "title", order := some "asc" }).2.2.2.2.2.2.2
      plainEngine sampleStore 7 (by decide),
   by decide!⟩

/-- C8: when `getTasks` is called with `sortBy` absent or `createdAt` and
`order` absent or `desc`, each returned task was created no earlier than the
task after it. -/
theorem newest_tasks_first (store : Store) (caller : ObjectId) (p : ListParams)
    (hsort : p.sortBy = none ∨ p.sortBy = some "createdAt")
    (horder : p.order = none ∨ p.order = some "desc")
    (r : Response (List Task)) (h : getTasks store caller p = some r) :
    ∃ tasks, r.data = some tasks ∧
      tasks.Pairwise (fun a b => b.createdAt ≤ a.createdAt) := by
  obtain ⟨f, tasks, _, hw, hr⟩ := getTasks_eq_some h
  have hobj : getTasks.sortObj p = ("createdAt", -1) := by
    rcases hsort with hs | hs <;> rcases horder with ho | ho <;>
      simp [getTasks.sortObj, getTasks.sortBy, getTasks.sortOrder, getTasks.order, hs, ho]
  refine ⟨tasks, by rw [hr], ?_⟩
  rw [hobj] at hw
  have hsorted := sortDocs_pairwise (docLe ("createdAt", -1))
    (fun a b => by
      simp only [docLe_createdAt_desc, decide_eq_true_eq]
      exact le_total _ _)
    (fun a b c => by
      simp only [docLe_createdAt_desc, decide_eq_true_eq]
      exact fun h1 h2 => le_trans h2 h1)
    (store.filter f)
  have hsub := List.Pairwise.sublist (applyWindow_sublist hw) hsorted
  exact hsub.imp (fun {a b} hab => by
    simpa only [docLe_createdAt_desc, decide_eq_true_eq] using hab)

/-- The default list of user 7 on the sample store is answered, newest task
first. -/
theorem newest_tasks_first_witness :
    ∃ r, getTasks sampleStore 7 {} = some r ∧
      ∃ tasks, r.data = some tasks ∧
        tasks.Pairwise (fun a b => b.createdAt ≤ a.createdAt) :=
  ⟨(getTasks sampleStore 7 {}).get (by decide!), (Option.some_get _).symm,
   newest_tasks_first sampleStore 7 {} (Or.inl rfl) (Or.inl rfl) _
     (Option.some_get _).symm⟩

/-- C10, as the claim states it, fails: for the page parameter `abc` the
page of the pagination block and the skip are NaN, not the 1 and the 0 of the
defaults, and for the limit parameter `abc` the limit and the total pages are
NaN, not 10 and 3. -/
theorem non_numeric_page_is_not_default :
    (getTasks.pagination { page := some "abc" } 25).page = JSNum.nan ∧
    (getTasks.pagination {} 25).page = JSNum.fin 1 ∧
    getTasks.skip { page := some "abc" } = JSNum.nan ∧
    getTasks.skip {} = JSNum.fin 0 ∧
    (getTasks.pagination { limit := some "abc" } 25).limit = JSNum.nan ∧
    (getTasks.pagination {} 25).limit = JSNum.fin 10 ∧
    (getTasks.pagination { limit := some "abc" } 25).totalPages = JSNum.nan ∧
    (getTasks.pagination {} 25).totalPages = JSNum.fin 3 := by
  decide!

/-- C10, amended: an absent page parameter is read as 1 and an absent limit
parameter as 10, with the skip, the take and the pagination block of the
explicit `page=1` and `limit=10`; and when `parseInt` finds no number in the
page parameter, or in the limit parameter, the skip is NaN and so is the page,
or the limit and the total pages, of the pagination block, with `hasMore`
false. -/
theorem page_and_limit_defaults_only_when_absent (p : ListParams) (total : Nat) :
    (p.page = none →
      (getTasks.pagination p total).page = JSNum.fin 1 ∧
      getTasks.skip p = getTasks.skip { p with page := some "1" } ∧
      getTasks.pagination p total = getTasks.pagination { p with page := some "1" } total) ∧
    (p.limit = none →
      (getTasks.pagination p total).limit = JSNum.fin 10 ∧
      getTasks.skip p = getTasks.skip { p with limit := some "10" } ∧
      getTasks.pagination p total = getTasks.pagination { p with limit := some "10" } total) ∧
    (p.page = none → p.limit = none → getTasks.skip p = JSNum.fin 0) ∧
    (parseInt (getTasks.page p) = JSNum.nan →
      getTasks.skip p = JSNum.nan ∧
      (getTasks.pagination p total).page = JSNum.nan ∧
      (getTasks.pagination p total).hasMore = false) ∧
    (parseInt (getTasks.limit p) = JSNum.nan →
      getTasks.skip p = JSNum.nan ∧
      (getTasks.pagination p total).limit = JSNum.nan ∧
      (getTasks.pagination p total).totalPages = JSNum.nan ∧
      (getTasks.pagination p total).hasMore = false) := by
  refine ⟨?_, ?_, ?_, ?_, ?_⟩
  · intro hp
    refine ⟨?_, ?_, ?_⟩
    · simp [getTasks.pagination, getTasks.page, hp, parseInt_default_page]
    · simp [getTasks.skip, getTasks.page, getTasks.limit, hp]
    · simp [getTasks.pagination, getTasks.totalPages, getTasks.page, getTasks.limit, hp]
  · intro hl
    refine ⟨?_, ?_, ?_⟩
    · simp [getTasks.pagination, getTasks.limit, hl, parseInt_default_limit]
    · simp [getTasks.skip, getTasks.page, getTasks.limit, hl]
    · simp [getTasks.pagination, getTasks.totalPages, getTasks.page, getTasks.limit, hl]
  · intro hp hl
    simp only [getTasks.skip, getTasks.page, getTasks.limit, hp, hl, Option.getD_none,
      parseInt_default_page, parseInt_default_limit, skip_default]
  · intro hnan
    refine ⟨?_, ?_, ?_⟩
    · simp [getTasks.skip, hnan, JSNum.sub, JSNum.add, JSNum.mul]
    · simp [getTasks.pagination, hnan]
    · simp [getTasks.pagination, hnan, JSNum.lt]
  · intro hnan
    have htp : getTasks.totalPages p total = JSNum.nan := by
      unfold getTasks.totalPages
      rw [hnan]
      unfold JSNum.div JSNum.ofInt
      simp [JSNum.ceil]
    refine ⟨?_, ?_, htp, ?_⟩
    · unfold getTasks.skip
      rw [hnan]
      cases (parseInt (getTasks.page p)).sub (JSNum.ofInt 1) <;> simp [JSNum.mul]
    · simp [getTasks.pagination, hnan]
    · simp only [getTasks.pagination, htp]
      cases parseInt (getTasks.page p) <;> simp [JSNum.lt]

/-- The list parameters with `page=abc`: `parseInt` finds no number, the
skip is NaN and so is the page of the pagination block. -/
theorem page_and_limit_defaults_only_when_absent_witness :
    parseInt (getTasks.page { page := some "abc" }) = JSNum.nan ∧
    getTasks.skip { page := some "abc" } = JSNum.nan ∧
    (getTasks.pagination { page := some "abc" } 25).page = JSNum.nan ∧
    (getTasks.pagination { page := some "abc" } 25).hasMore = false :=
  ⟨by decide,
   (page_and_limit_defaults_only_when_absent { page := some "abc" } 25).2.2.2.1 (by decide)⟩

/-! ## The pagination block -/

theorem fin_of_toInt?_ne_zero {x : JSNum} {a : Int} (h : x.toInt? = some a) (ha : a ≠ 0) :
    x = JSNum.fin (a : ℚ) := by
  rcases toInt?_cases h with hx | ⟨_, h0⟩
  · exact hx
  · exact absurd h0 ha

/-- The quotient `total / limit` of a count by a non-zero integer, rounded
up by `Math.ceil`. -/
theorem ceil_div_of_ne_zero (total : Nat) {y : JSNum} {lm : Int}
    (hy : y.toInt? = some lm) (hlm : lm ≠ 0) :
    (((JSNum.ofInt total).div y).ceil).toInt? = some ⌈(total : ℚ) / lm⌉ := by
  rw [fin_of_toInt?_ne_zero hy hlm]
  have hb : (lm : ℚ) ≠ 0 := by exact_mod_cast hlm
  by_cases ht : total = 0
  · subst ht
    by_cases hneg : (lm : ℚ) < 0
    · simp [JSNum.div, JSNum.ofInt, JSNum.toRat?, hb, JSNum.zero, JSNum.signBit, hneg,
        JSNum.ceil, JSNum.toInt?]
    · simp [JSNum.div, JSNum.ofInt, JSNum.toRat?, hb, JSNum.zero, JSNum.signBit, hneg,
        JSNum.ceil, JSNum.toInt?]
  · have ha : ((total : Int) : ℚ) ≠ 0 := by exact_mod_cast ht
    have hd : JSNum.div (JSNum.ofInt total) (JSNum.fin (lm : ℚ)) =
        JSNum.fin ((total : ℚ) / lm) := by
      simp [JSNum.div, JSNum.ofInt, JSNum.toRat?, hb, ht]
    rw [hd]
    simp only [JSNum.ceil]
    split_ifs with hc0
    · simp [JSNum.toInt?, JSNum.toRat?, hc0.1]
    · exact toInt?_fin_intCast _

/-- For a limit of at least 1 the rounded quotient is a finite number. -/
theorem ceil_div_of_pos (total : Nat) {y : JSNum} {lm : Int}
    (hy : y.toInt? = some lm) (hlm : 1 ≤ lm) :
    ((JSNum.ofInt total).div y).ceil = JSNum.fin ((⌈(total : ℚ) / lm⌉ : Int) : ℚ) := by
  have hne : lm ≠ 0 := by omega
  have hq : (0 : ℚ) ≤ (total : ℚ) / lm := by
    have : (0 : ℚ) < lm := by exact_mod_cast hlm
    positivity
  have hc : (0 : Int) ≤ ⌈(total : ℚ) / lm⌉ := Int.ceil_nonneg hq
  rcases toInt?_cases (ceil_div_of_ne_zero total hy hne) with h | ⟨h, _⟩
  · exact h
  · exfalso
    rw [fin_of_toInt?_ne_zero hy hne] at h
    by_cases ht : total = 0
    · subst ht
      have hb : (lm : ℚ) ≠ 0 := by exact_mod_cast hne
      have hneg : ¬ ((lm : ℚ) < 0) := by
        have : (0 : ℚ) < lm := by exact_mod_cast hlm
        linarith
      simp [JSNum.div, JSNum.ofInt, JSNum.toRat?, hb, JSNum.zero, JSNum.signBit, hneg,
        JSNum.ceil] at h
    · have hb : (lm : ℚ) ≠ 0 := by exact_mod_cast hne
      have hd : JSNum.div (JSNum.ofInt total) (JSNum.fin (lm : ℚ)) =
          JSNum.fin ((total : ℚ) / lm) := by
        simp [JSNum.div, JSNum.ofInt, JSNum.toRat?, hb, ht]
      rw [hd] at h
      simp only [JSNum.ceil] at h
      split_ifs at h with hc0
      exact absurd hc0.2 (not_lt.mpr hq)

/-- C11, as the claim states it, fails: the limit is not raised to 1. With
`limit=0` and 25 matches the total pages are Infinity, where the claim gives
25; with no match they are NaN; and with `limit=-5` they are -5. -/
theorem total_pages_not_finite_for_zero_limit :
    getTasks.totalPages { limit := some "0" } 25 = JSNum.inf false ∧
    ⌈((25 : Nat) : ℚ) / max ((0 : Int) : ℚ) 1⌉ = 25 ∧
    getTasks.totalPages { limit := some "0" } 0 = JSNum.nan ∧
    getTasks.totalPages { limit := some "-5" } 25 = JSNum.fin (-5) := by
  refine ⟨by decide!, ?_, by decide!, by decide!⟩
  norm_num

/-- C11, amended: for every total below 2^53, as every count of stored
documents is, and every limit parameter that `parseInt` reads as an integer of
at least 1, the total pages are `ceil(total / limit)`, a finite integer that
is not negative and that is 0 for no match. For the limit 0 they are Infinity
when there is a match and NaN when there is none; for a limit read as a
negative integer they are `ceil(total / limit)`, which is not positive; and
for a limit too large for a double, which `parseInt` reads as Infinity, they
are 0. -/
theorem total_pages_is_ceil_for_positive_limit (p : ListParams) (total : Nat)
    (htotal : total < 2 ^ 53) :
    (∀ lm : Int, (parseInt (getTasks.limit p)).toInt? = some lm → 1 ≤ lm →
      getTasks.totalPages p total = JSNum.fin ((⌈(total : ℚ) / lm⌉ : Int) : ℚ) ∧
      ⌈(total : ℚ) / lm⌉ = ⌈(total : ℚ) / max (lm : ℚ) 1⌉ ∧
      0 ≤ ⌈(total : ℚ) / lm⌉ ∧
      (total = 0 → getTasks.totalPages p total = JSNum.fin 0)) ∧
    (parseInt (getTasks.limit p) = JSNum.fin 0 →
      (0 < total → getTasks.totalPages p total = JSNum.inf false) ∧
      (total = 0 → getTasks.totalPages p total = JSNum.nan)) ∧
    (∀ lm : Int, (parseInt (getTasks.limit p)).toInt? = some lm → lm < 0 →
      (getTasks.totalPages p total).toInt? = some ⌈(total : ℚ) / lm⌉ ∧
      ⌈(total : ℚ) / lm⌉ ≤ 0) ∧
    (parseInt (getTasks.limit p) = JSNum.inf false →
      getTasks.totalPages p total = JSNum.fin 0) := by
  refine ⟨?_, ?_, ?_, ?_⟩
  · intro lm hlimit h1
    have hpos : (1 : ℚ) ≤ lm := by exact_mod_cast h1
    have hmax : max (lm : ℚ) 1 = lm := max_eq_left hpos
    have hq : (0 : ℚ) ≤ (total : ℚ) / lm := by
      have : (0 : ℚ) < lm := by linarith
      positivity
    refine ⟨ceil_div_of_pos total hlimit h1, by rw [hmax], Int.ceil_nonneg hq, ?_⟩
    intro ht
    unfold getTasks.totalPages
    rw [ceil_div_of_pos total hlimit h1, ht]
    simp
  · intro h0
    constructor
    · intro ht
      have hne : total ≠ 0 := by omega
      have hnn : ¬ ((total : ℚ) < 0) := by
        have : (0 : ℚ) ≤ (total : ℚ) := by positivity
        linarith
      simp [getTasks.totalPages, h0, JSNum.div, JSNum.ofInt, JSNum.toRat?, JSNum.signBit,
        JSNum.ceil, hne, hnn]
    · intro ht
      subst ht
      simp [getTasks.totalPages, h0, JSNum.div, JSNum.ofInt, JSNum.toRat?, JSNum.ceil]
  · intro lm hlimit hneg
    have hne : lm ≠ 0 := by omega
    refine ⟨ceil_div_of_ne_zero total hlimit hne, ?_⟩
    have hq : (total : ℚ) / lm ≤ 0 := by
      have h1 : (lm : ℚ) < 0 := by exact_mod_cast hneg
      have h2 : (0 : ℚ) ≤ (total : ℚ) := by positivity
      exact div_nonpos_of_nonneg_of_nonpos h2 (le_of_lt h1)
    have := Int.ceil_le.mpr (by simpa using hq : (total : ℚ) / lm ≤ ((0 : Int) : ℚ))
    exact this
  · intro hinf
    have hnn : ¬ ((total : ℚ) < 0) := by
      have : (0 : ℚ) ≤ (total : ℚ) := by positivity
      linarith
    simp [getTasks.totalPages, hinf, JSNum.div, JSNum.ofInt, JSNum.zero, JSNum.signBit,
      JSNum.ceil, hnn]

/-- The limit 10: 25 matches make 3 pages and no match makes 0 pages. The
limit written as 1 with 400 zeros is read as Infinity: 25 matches make 0
pages. -/
theorem total_pages_is_ceil_for_positive_limit_witness :
    (parseInt (getTasks.limit { limit := some "10" })).toInt? = some 10 ∧
    getTasks.totalPages { limit := some "10" } 25 =
      JSNum.fin ((⌈((25 : Nat) : ℚ) / ((10 : Int) : ℚ)⌉ : Int) : ℚ) ∧
    getTasks.totalPages { limit := some "10" } 0 = JSNum.fin 0 ∧
    parseInt (getTasks.limit { limit := some (String.mk ('1' :: List.replicate 400 '0')) }) =
      JSNum.inf false ∧
    getTasks.totalPages { limit := some (String.mk ('1' :: List.replicate 400 '0')) } 25 =
      JSNum.fin 0 :=
  ⟨by decide!,
   ((total_pages_is_ceil_for_positive_limit { limit := some "10" } 25 (by decide)).1 10
      (by decide!) (by decide)).1,
   ((total_pages_is_ceil_for_positive_limit { limit := some "10" } 0 (by decide)).1 10
      (by decide!) (by decide)).2.2.2 rfl,
   by decide!,
   (total_pages_is_ceil_for_positive_limit
      { limit := some (String.mk ('1' :: List.replicate 400 '0')) } 25 (by decide)).2.2.2
      (by decide!)⟩

/-- C12: for integers page and limit of at least 1, `hasMore` is true
exactly when the page is less than the total pages, which are
`ceil(total / limit)`. -/
theorem hasMore_iff_page_before_last (p : ListParams) (total : Nat) (pg lm : Int)
    (hpage : (parseInt (getTasks.page p)).toInt? = some pg)
    (hlimit : (parseInt (getTasks.limit p)).toInt? = some lm)
    (hpg : 1 ≤ pg) (hlm : 1 ≤ lm) :
    (getTasks.pagination p total).totalPages =
      JSNum.fin ((⌈(total : ℚ) / lm⌉ : Int) : ℚ) ∧
    (getTasks.pagination p total).page = JSNum.fin (pg : ℚ) ∧
    ((getTasks.pagination p total).hasMore = true ↔ pg < ⌈(total : ℚ) / lm⌉) ∧
    (getTasks.pagination p total).hasMore =
      (getTasks.pagination p total).page.lt (getTasks.pagination p total).totalPages := by
  have htp : getTasks.totalPages p total = JSNum.fin ((⌈(total : ℚ) / lm⌉ : Int) : ℚ) :=
    ceil_div_of_pos total hlimit hlm
  have hp : parseInt (getTasks.page p) = JSNum.fin (pg : ℚ) :=
    fin_of_toInt?_ne_zero hpage (by omega)
  refine ⟨htp, hp, ?_, rfl⟩
  simp only [getTasks.pagination, htp, hp, JSNum.lt, JSNum.toRat?, decide_eq_true_eq]
  exact Int.cast_lt

/-- The three requests of the specification: page 2 of 25 matches by 10 has
more, page 3 has not, and page 1 of no match has not. -/
theorem hasMore_iff_page_before_last_witness :
    ((getTasks.pagination { page := some "2", limit := some "10" } 25).hasMore = true ↔
      (2 : Int) < ⌈((25 : Nat) : ℚ) / ((10 : Int) : ℚ)⌉) ∧
    (getTasks.pagination { page := some "2", limit := some "10" } 25).totalPages =
      JSNum.fin 3 ∧
    (getTasks.pagination { page := some "2", limit := some "10" } 25).hasMore = true ∧
    (getTasks.pagination { page := some "3", limit := some "10" } 25).hasMore = false ∧
    (getTasks.pagination { page := some "1", limit := some "10" } 0).hasMore = false :=
  ⟨(hasMore_iff_page_before_last { page := some "2", limit := some "10" } 25 2 10
      (by decide!) (by decide!) (by decide) (by decide)).2.2.1,
   by decide!, by decide!, by decide!, by decide!⟩

/-! ## The statistics -/

theorem addToGroups_ids (key : String) (gs : List GroupCount) :
    (addToGroups key gs).map (fun g => g._id) =
      if key ∈ gs.map (fun g => g._id) then gs.map (fun g => g._id)
      else gs.map (fun g => g._id) ++ [key] := by
  induction gs with
  | nil => simp [addToGroups]
  | cons g gs ih =>
    unfold addToGroups
    by_cases h : g._id = key
    · simp [h]
    · have h' : ¬ key = g._id := fun e => h e.symm
      simp only [h, if_false, List.map_cons, List.mem_cons, h', false_or, ih]
      split_ifs <;> simp

theorem groupCounts_mem_ids (keys : List String) :
    ∀ key, key ∈ (groupCounts keys).map (fun g => g._id) ↔ key ∈ keys := by
  induction keys with
  | nil =>
    intro key
    simp [groupCounts]
  | cons k ks ih =>
    intro key
    rw [groupCounts, addToGroups_ids]
    split_ifs with h
    · rw [List.mem_cons, ih]
      constructor
      · exact Or.inr
      · rintro (h1 | h1)
        · rw [h1]
          exact (ih k).mp h
        · exact h1
    · rw [List.mem_append, List.mem_singleton, List.mem_cons, ih]
      exact or_comm

theorem groupCounts_nodup (keys : List String) :
    ((groupCounts keys).map (fun g => g._id)).Nodup := by
  induction keys with
  | nil => simp [groupCounts]
  | cons k ks ih =>
    rw [groupCounts, addToGroups_ids]
    split_ifs with h
    · exact ih
    · rw [List.nodup_append]
      refine ⟨ih, List.nodup_singleton k, ?_⟩
      intro a ha hk
      rw [List.mem_singleton] at hk
      exact h (hk ▸ ha)

theorem addToGroups_count (key : String) (c : String → Nat) (gs : List GroupCount)
    (hnd : (gs.map (fun g => g._id)).Nodup)
    (hc : ∀ g ∈ gs, g.count = c g._id)
    (hk : key ∉ gs.map (fun g => g._id) → c key = 0) :
    ∀ g ∈ addToGroups key gs, g.count = if g._id = key then c key + 1 else c g._id := by
  induction gs with
  | nil =>
    intro g hg
    simp only [addToGroups, List.mem_singleton] at hg
    subst hg
    simp [hk (by simp)]
  | cons a as ih =>
    intro g hg
    rw [List.map_cons, List.nodup_cons] at hnd
    unfold addToGroups at hg
    by_cases ha : a._id = key
    · simp only [ha, if_true, List.mem_cons] at hg
      rcases hg with hg | hg
      · subst hg
        simp [hc a (List.mem_cons_self a as), ha]
      · have hne : g._id ≠ key := by
          intro e
          apply hnd.1
          rw [ha, ← e]
          exact List.mem_map_of_mem _ hg
        simp [hne, hc g (List.mem_cons_of_mem a hg)]
    · simp only [ha, if_false, List.mem_cons] at hg
      rcases hg with hg | hg
      · subst hg
        simp [ha, hc g (List.mem_cons_self g as)]
      · refine ih hnd.2 (fun x hx => hc x (List.mem_cons_of_mem a hx)) ?_ g hg
        intro hnot
        apply hk
        rw [List.map_cons, List.mem_cons]
        rintro (e | e)
        · exact ha e.symm
        · exact hnot e

theorem groupCounts_count (keys : List String) :
    ∀ g ∈ groupCounts keys, g.count = keys.count g._id := by
  induction keys with
  | nil =>
    intro g hg
    simp [groupCounts] at hg
  | cons k ks ih =>
    intro g hg
    rw [groupCounts] at hg
    have h := addToGroups_count k (fun x => ks.count x) (groupCounts ks)
      (groupCounts_nodup ks) ih
      (fun hnot => List.count_eq_zero.mpr (fun hmem => hnot ((groupCounts_mem_ids ks k).mpr hmem)))
      g hg
    rw [h, List.count_cons]
    by_cases e : g._id = k
    · simp [e]
    · have e' : ¬ k = g._id := fun x => e x.symm
      simp [e, e']

theorem count_map_eq_length_filter (l : List Task) (path : Task → String) (key : String) :
    (l.map path).count key = (l.filter (fun t => decide (path t = key))).length := by
  induction l with
  | nil => rfl
  | cons t ts ih =>
    rw [List.map_cons, List.count_cons, ih, List.filter_cons]
    by_cases h : path t = key
    · simp [h]
    · simp [h]

/-- The groups of `Task.aggregate`: no key twice, the keys are the values
the path takes on the tasks of the user, and a group counts the tasks of the
user with its key. -/
theorem aggregate_spec (store : Store) (user : ObjectId) (path : Task → String) :
    ((Task.aggregate store user path).map (fun g => g._id)).Nodup ∧
    (∀ key, key ∈ (Task.aggregate store user path).map (fun g => g._id) ↔
      ∃ t ∈ store, t.user = user ∧ path t = key) ∧
    (∀ g ∈ Task.aggregate store user path,
      g.count =
        (store.filter (fun t => decide (t.user = user ∧ path t = g._id))).length ∧
      1 ≤ g.count) := by
  unfold Task.aggregate
  have hcount : ∀ g ∈ groupCounts
      ((store.filter (fun t => decide (t.user = user))).map path),
      g.count = (store.filter (fun t => decide (t.user = user ∧ path t = g._id))).length := by
    intro g hg
    rw [groupCounts_count _ g hg, count_map_eq_length_filter, List.filter_filter]
    congr 1
    apply List.filter_congr
    intro t _
    simp [Bool.and_comm]
  refine ⟨groupCounts_nodup _, ?_, ?_⟩
  · intro key
    rw [groupCounts_mem_ids, List.mem_map]
    constructor
    · rintro ⟨t, ht, hp⟩
      rw [List.mem_filter, decide_eq_true_eq] at ht
      exact ⟨t, ht.1, ht.2, hp⟩
    · rintro ⟨t, ht, hu, hp⟩
      exact ⟨t, List.mem_filter.mpr ⟨ht, by simpa using hu⟩, hp⟩
  · intro g hg
    refine ⟨hcount g hg, ?_⟩
    have hmem : g._id ∈ (groupCounts
        ((store.filter (fun t => decide (t.user = user))).map path)).map (fun g => g._id) :=
      List.mem_map_of_mem _ hg
    rw [groupCounts_mem_ids] at hmem
    rw [groupCounts_count _ g hg]
    exact List.count_pos_iff.mpr hmem

/-- C13: `byStatus` of `getTaskStats` holds one entry for each status some
task of the caller has and no other entry, and the count of an entry is the
number of the caller's tasks with that status, at least 1; for two pending
tasks and one completed task the entries are (pending, 2) and (completed, 1),
in some order. -/
theorem byStatus_counts_each_status (store : Store) (caller : ObjectId) :
    (∃ stats, (getTaskStats store caller).data = some stats ∧
      (stats.byStatus.map (fun g => g._id)).Nodup ∧
      (∀ s, s ∈ stats.byStatus.map (fun g => g._id) ↔
        ∃ t ∈ store, t.user = caller ∧ t.status = s) ∧
      (∀ g ∈ stats.byStatus,
        g.count =
          (store.filter (fun t => decide (t.user = caller ∧ t.status = g._id))).length ∧
        1 ≤ g.count)) ∧
    (∃ stats, (getTaskStats sampleStore 7).data = some stats ∧
      stats.total = 3 ∧
      List.Perm stats.byStatus
        [{ _id := "pending", count := 2 }, { _id := "completed", count := 1 }]) := by
  constructor
  · exact ⟨_, rfl, aggregate_spec store caller (fun t => t.status)⟩
  · exact ⟨_, rfl, by decide, by decide⟩

/-- C14: the total of `getTaskStats` is the number of stored tasks owned by
the caller, and the whole response is the one computed from the caller's tasks
alone: tasks of other users, wherever they stand in the store, change neither
total, byStatus nor byPriority. -/
theorem stats_count_only_callers_tasks (store : Store) (caller : ObjectId) :
    (∃ stats, (getTaskStats store caller).data = some stats ∧
      stats.total = (store.filter (fun t => decide (t.user = caller))).length) ∧
    getTaskStats store caller =
      getTaskStats (store.filter (fun t => decide (t.user = caller))) caller ∧
    (∀ other : Store,
      (store.filter (fun t => decide (t.user = caller))) =
        (other.filter (fun t => decide (t.user = caller))) →
      getTaskStats store caller = getTaskStats other caller) ∧
    (∀ others : List Task, (∀ t ∈ others, t.user ≠ caller) →
      getTaskStats (store ++ others) caller = getTaskStats store caller ∧
      getTaskStats (others ++ store) caller = getTaskStats store caller) := by
  have key : ∀ a b : Store,
      (a.filter (fun t => decide (t.user = caller))) =
        (b.filter (fun t => decide (t.user = caller))) →
      getTaskStats a caller = getTaskStats b caller := by
    intro a b h
    simp only [getTaskStats, Task.aggregate, h]
  refine ⟨⟨_, rfl, rfl⟩, ?_, ?_, ?_⟩
  · apply key
    rw [List.filter_filter]
    simp
  · intro other h
    exact key store other h
  · intro others hothers
    have hnil : others.filter (fun t => decide (t.user = caller)) = [] := by
      rw [List.filter_eq_nil_iff]
      intro t ht
      simpa using hothers t ht
    constructor
    · apply key
      rw [List.filter_append, hnil, List.append_nil]
    · apply key
      rw [List.filter_append, hnil, List.nil_append]

/-- The statistics of user 7 on the sample store, and on the store with the
task of user 8 taken out, are the same. -/
theorem stats_count_only_callers_tasks_witness :
    (∀ t ∈ [sampleTask 3 8 "abc" "pending" 20], t.user ≠ 7) ∧
    getTaskStats (sampleStore ++ [sampleTask 3 8 "abc" "pending" 20]) 7 =
      getTaskStats sampleStore 7 :=
  ⟨by decide,
   ((stats_count_only_callers_tasks sampleStore 7).2.2.2
      [sampleTask 3 8 "abc" "pending" 20] (by decide)).1⟩

/-- The entries of `byStatus` for user 8 on the sample store. -/
theorem byStatus_counts_each_status_witness :
    ∃ stats, (getTaskStats sampleStore 8).data = some stats ∧
      (stats.byStatus.map (fun g => g._id)).Nodup ∧
      (∀ s, s ∈ stats.byStatus.map (fun g => g._id) ↔
        ∃ t ∈ sampleStore, t.user = 8 ∧ t.status = s) ∧
      (∀ g ∈ stats.byStatus,
        g.count =
          (sampleStore.filter (fun t => decide (t.user = 8 ∧ t.status = g._id))).length ∧
        1 ≤ g.count) :=
  (byStatus_counts_each_status sampleStore 8).1

/-! ## Lemmas on saving -/

theorem findById_id {store : Store} {id : ObjectId} {task : Task}
    (h : Task.findById store id = some task) : task._id = id := by
  unfold Task.findById at h
  have := List.find?_some h
  simpa using this

theorem findById_mem {store : Store} {id : ObjectId} {task : Task}
    (h : Task.findById store id = some task) : task ∈ store := by
  unfold Task.findById at h
  exact List.mem_of_find?_eq_some h

theorem findById_replaceDoc {store : Store} {id : ObjectId} {task t : Task}
    (h : Task.findById store id = some task) (ht : t._id = id) :
    Task.findById (replaceDoc t store) id = some t := by
  induction store with
  | nil => simp [Task.findById] at h
  | cons d ds ih =>
    unfold replaceDoc
    by_cases hd : d._id = id
    · simp [Task.findById, hd, ht]
    · have hd' : ¬ d._id = t._id := by rw [ht]; exact hd
      have h' : Task.findById ds id = some task := by
        simpa [Task.findById, List.find?_cons, hd] using h
      simpa [Task.findById, List.find?_cons, hd, hd'] using ih h'

theorem replaceDoc_owners (t task : Task) (store : Store)
    (hfound : Task.findById store t._id = some task) (huser : task.user = t.user) :
    (replaceDoc t store).map (fun d => (d._id, d.user)) =
      store.map (fun d => (d._id, d.user)) := by
  induction store with
  | nil => rfl
  | cons d ds ih =>
    unfold replaceDoc
    by_cases hd : d._id = t._id
    · have hdt : d = task := by
        simpa [Task.findById, List.find?_cons, hd] using hfound
      subst hdt
      simp [hd, huser]
    · have h' : Task.findById ds t._id = some task := by
        simpa [Task.findById, List.find?_cons, hd] using hfound
      simp [hd, ih h']

theorem preSave_fields (m : Bool) (now : Date) (t : Task) :
    (preSave m now t)._id = t._id ∧ (preSave m now t).title = t.title ∧
    (preSave m now t).description = t.description ∧ (preSave m now t).status = t.status ∧
    (preSave m now t).priority = t.priority ∧ (preSave m now t).dueDate = t.dueDate ∧
    (preSave m now t).user = t.user ∧ (preSave m now t).tags = t.tags ∧
    (preSave m now t).createdAt = t.createdAt ∧
    (preSave m now t).completedAt =
      if m = true ∧ t.status = "completed" ∧ t.completedAt = none then some now
      else t.completedAt := by
  unfold preSave
  by_cases h : (m && t.status == "completed" && t.completedAt.isNone) = true
  · have h' : m = true ∧ t.status = "completed" ∧ t.completedAt = none := by
      simpa [Bool.and_eq_true, and_assoc, Option.isNone_iff_eq_none] using h
    simp [h, h']
  · have h' : ¬ (m = true ∧ t.status = "completed" ∧ t.completedAt = none) := by
      simpa [Bool.and_eq_true, and_assoc, Option.isNone_iff_eq_none] using h
    simp [h, h']

theorem assignFields_fixed (task : Task) (body : TaskBody) :
    (assignFields task body)._id = task._id ∧ (assignFields task body).user = task.user ∧
    (assignFields task body).completedAt = task.completedAt ∧
    (assignFields task body).createdAt = task.createdAt := by
  unfold assignFields
  cases body.title <;> cases body.description <;> cases body.status <;>
    cases body.priority <;> cases body.dueDate <;> cases body.tags <;> simp

/-- What a successful `updateTask` has done: the task was found, the caller
owns it, the changed task passed the validation, and the task in the response
is the changed task, with `completedAt` as the hook leaves it, written over
the stored one. -/
theorem updateTask_ok {store : Store} {caller id : ObjectId} {body : TaskBody} {now : Date}
    (h : (updateTask store caller id body now).1.status? = some 200) :
    ∃ task t, Task.findById store id = some task ∧ task.user = caller ∧
      schemaErrors (assignFields task body) = [] ∧
      updateTask store caller id body now =
        (.json { status := 200, success := true,
                 message := some "Task updated successfully", data := some t },
         replaceDoc t store) ∧
      t._id = task._id ∧ t.user = task.user ∧ t.createdAt = task.createdAt ∧
      t.title = (assignFields task body).title ∧
      t.description = (assignFields task body).description ∧
      t.status = (assignFields task body).status ∧
      t.priority = (assignFields task body).priority ∧
      t.dueDate = (assignFields task body).dueDate ∧
      t.tags = (assignFields task body).tags ∧
      t.completedAt =
        if (assignFields task body).status ≠ task.status ∧
            (assignFields task body).status = "completed" ∧ task.completedAt = none
        then some now else task.completedAt := by
  cases hf : Task.findById store id with
  | none => simp [updateTask, hf, Outcome.status?, notFound] at h
  | some task =>
    by_cases ho : task.user = caller
    · by_cases hv : schemaErrors (assignFields task body) = []
      · obtain ⟨a1, a2, a3, a4⟩ := assignFields_fixed task body
        by_cases hm : assignFields task body = task
        · have hp := preSave_fields
            (decide ((assignFields task body).status ≠ task.status)) now
            (assignFields task body)
          refine ⟨task, preSave (decide ((assignFields task body).status ≠ task.status)) now
            (assignFields task body), rfl, ho, hv, ?_, ?_⟩
          · have hv' : schemaErrors task = [] := by simpa [hm] using hv
            simp [updateTask, hf, ho, Task.save, hv', hm]
          · obtain ⟨p1, p2, p3, p4, p5, p6, p7, p8, p9, p10⟩ := hp
            simp only [hm] at p1 p2 p3 p4 p5 p6 p7 p8 p9 p10 ⊢
            refine ⟨p1, p7, p9, p2, p3, p4, p5, p6, p8, ?_⟩
            rw [p10]
            simp
        · have hp := preSave_fields
            (decide ((assignFields task body).status ≠ task.status)) now
            { assignFields task body with updatedAt := now }
          refine ⟨task, preSave (decide ((assignFields task body).status ≠ task.status)) now
            { assignFields task body with updatedAt := now }, rfl, ho, hv, ?_, ?_⟩
          · simp [updateTask, hf, ho, Task.save, hv, hm]
          · obtain ⟨p1, p2, p3, p4, p5, p6, p7, p8, p9, p10⟩ := hp
            refine ⟨p1.trans a1, p7.trans a2, p9.trans a4, p2, p3, p4, p5, p6, p8, ?_⟩
            rw [p10]
            simp [a3]
      · simp [updateTask, hf, ho, Task.save, hv, Outcome.status?] at h
    · simp [updateTask, hf, ho, Outcome.status?, notAuthorized] at h

/-- The owner's update of a task that stays valid is answered 200. -/
theorem updateTask_of_valid {store : Store} {caller id : ObjectId} {task : Task}
    (body : TaskBody) (now : Date)
    (hf : Task.findById store id = some task) (ho : task.user = caller)
    (hv : schemaErrors (assignFields task body) = []) :
    (updateTask store caller id body now).1.status? = some 200 := by
  simp [updateTask, hf, ho, Task.save, hv, Outcome.status?]

/-- What a successful `createTask` has done: the new task, with the
defaults of the schema, passed the validation and was added to the store. -/
theorem createTask_ok {store : Store} {caller newId : ObjectId} {body : TaskBody}
    {now : Date} (h : (createTask store caller newId body now).1.status? = some 201) :
    ∃ t, createTask store caller newId body now =
        (.json { status := 201, success := true,
                 message := some "Task created successfully", data := some t },
         store ++ [t]) ∧
      t._id = newId ∧ t.user = caller ∧
      t.title = (body.title.map jsTrim).getD "" ∧
      t.description = body.description.map jsTrim ∧
      t.status = body.status.getD "pending" ∧
      t.priority = body.priority.getD "medium" ∧
      t.dueDate = body.dueDate.getD none ∧
      t.tags = (body.tags.getD []).map jsTrim ∧
      t.createdAt = now ∧ t.updatedAt = now ∧
      t.completedAt =
        if body.status = some "completed" then some now else none := by
  have hp := preSave_fields body.status.isSome now
    { _id := newId, title := (body.title.map jsTrim).getD "",
      description := body.description.map jsTrim,
      status := body.status.getD "pending", priority := body.priority.getD "medium",
      dueDate := body.dueDate.getD none, user := caller,
      tags := (body.tags.getD []).map jsTrim, completedAt := none,
      createdAt := now, updatedAt := now }
  by_cases hv : schemaErrors
      { _id := newId, title := (body.title.map jsTrim).getD "",
        description := body.description.map jsTrim,
        status := body.status.getD "pending", priority := body.priority.getD "medium",
        dueDate := body.dueDate.getD none, user := caller,
        tags := (body.tags.getD []).map jsTrim, completedAt := none,
        createdAt := now, updatedAt := now } = []
  · refine ⟨preSave body.status.isSome now
      { _id := newId, title := (body.title.map jsTrim).getD "",
        description := body.description.map jsTrim,
        status := body.status.getD "pending", priority := body.priority.getD "medium",
        dueDate := body.dueDate.getD none, user := caller,
        tags := (body.tags.getD []).map jsTrim, completedAt := none,
        createdAt := now, updatedAt := now }, ?_, ?_⟩
    · simp [createTask, Task.create, hv]
    · obtain ⟨p1, p2, p3, p4, p5, p6, p7, p8, p9, p10⟩ := hp
      refine ⟨p1, p7, p2, p3, p4, p5, p6, p8, p9, ?_, ?_⟩
      · unfold preSave
        split_ifs <;> rfl
      · rw [p10]
        cases hs : body.status with
        | none => simp
        | some v => simp
  · simp [createTask, Task.create, hv, Outcome.status?] at h

/-! ## The completion time -/

/-- C16: once `completedAt` of a task is set, a successful `updateTask`
leaves it as it was, whatever the body holds: the task in the response and
the task stored under the id have the same `completedAt` as before. -/
theorem completedAt_never_changes_once_set (store : Store) (caller id : ObjectId)
    (body : TaskBody) (now : Date) (task : Task) (d : Date)
    (hfound : Task.findById store id = some task)
    (hset : task.completedAt = some d)
    (hok : (updateTask store caller id body now).1.status? = some 200) :
    ∃ t, (updateTask store caller id body now).1 =
        .json { status := 200, success := true,
                message := some "Task updated successfully", data := some t } ∧
      Task.findById (updateTask store caller id body now).2 id = some t ∧
      t.completedAt = some d := by
  obtain ⟨task', t, hf', _, _, hu, hid, _, _, _, _, _, _, _, _, hc⟩ := updateTask_ok hok
  rw [hfound] at hf'
  injection hf' with hf'
  subst hf'
  refine ⟨t, by rw [hu], ?_, ?_⟩
  · rw [hu]
    exact findById_replaceDoc hfound (hid.trans (findById_id hfound))
  · rw [hc, hset]
    simp

/-- The completed task of `completedStore` is set back to pending, with
its due date cleared, at time 70: `completedAt` is still 40. -/
theorem completedAt_never_changes_once_set_witness :
    (Task.findById completedStore 1).map (fun t => t.completedAt) = some (some 40) ∧
    ∃ t, (updateTask completedStore 7 1 { status := some "pending", dueDate := some none }
          70).1 =
        .json { status := 200, success := true,
                message := some "Task updated successfully", data := some t } ∧
      Task.findById (updateTask completedStore 7 1
        { status := some "pending", dueDate := some none } 70).2 1 = some t ∧
      t.completedAt = some 40 :=
  ⟨by decide,
   completedAt_never_changes_once_set completedStore 7 1
     { status := some "pending", dueDate := some none } 70
     { sampleTask 1 7 "Write report" "completed" 10 with
       completedAt := some 40, dueDate := some 90, updatedAt := 40 } 40
     (by decide) rfl (by decide)⟩

/-! ## Partial update -/

/-- The fields of a task after the assignments of `updateTask`, key by
key of the body. -/
theorem assignFields_fields (task : Task) (body : TaskBody) :
    ((assignFields task body).title =
      match body.title with
      | some v => jsTrim v
      | none => task.title) ∧
    ((assignFields task body).description =
      match body.description with
      | some v => some (jsTrim v)
      | none => task.description) ∧
    ((assignFields task body).status =
      match body.status with
      | some v => v
      | none => task.status) ∧
    ((assignFields task body).priority =
      match body.priority with
      | some v => v
      | none => task.priority) ∧
    ((assignFields task body).dueDate =
      match body.dueDate with
      | some v => v
      | none => task.dueDate) ∧
    ((assignFields task body).tags =
      match body.tags with
      | some v => v.map jsTrim
      | none => task.tags) := by
  unfold assignFields
  cases body.title <;> cases body.description <;> cases body.status <;>
    cases body.priority <;> cases body.dueDate <;> cases body.tags <;> simp

/-- C17, as the claim states it, fails: the owner of task 1 supplies the
tags `[" home "]` and the title `" abc! "`; the update succeeds and the task
holds the tags `["home"]` and the title `"abc!"`, not the supplied values.
The validation of the route lets the tags through as they are. -/
theorem update_stores_trimmed_values :
    (updateTask sampleStore 7 1 { tags := some [" home "] } 50).1.status? = some 200 ∧
    (Task.findById (updateTask sampleStore 7 1 { tags := some [" home "] } 50).2 1).map
        (fun t => t.tags) = some ["home"] ∧
    putTaskRoute sampleStore 7 1 { tags := some [" home "] } 50 =
      updateTask sampleStore 7 1 { tags := some [" home "] } 50 ∧
    (Task.findById (updateTask sampleStore 7 1 { title := some " abc! " } 50).2 1).map
        (fun t => t.title) = some "abc!" := by
  decide

/-- C17, amended: after a successful `updateTask`, a field among title,
description, status, priority, dueDate and tags that is absent from the body
is as it was, and a field that is present holds the supplied value, with the
white space around it removed for title, description and each tag. -/
theorem update_writes_the_supplied_fields (store : Store) (caller id : ObjectId)
    (body : TaskBody) (now : Date) (task : Task)
    (hfound : Task.findById store id = some task)
    (hok : (updateTask store caller id body now).1.status? = some 200) :
    ∃ t, (updateTask store caller id body now).1 =
        .json { status := 200, success := true,
                message := some "Task updated successfully", data := some t } ∧
      Task.findById (updateTask store caller id body now).2 id = some t ∧
      (body.title = none → t.title = task.title) ∧
      (∀ v, body.title = some v → t.title = jsTrim v) ∧
      (body.description = none → t.description = task.description) ∧
      (∀ v, body.description = some v → t.description = some (jsTrim v)) ∧
      (body.status = none → t.status = task.status) ∧
      (∀ v, body.status = some v → t.status = v) ∧
      (body.priority = none → t.priority = task.priority) ∧
      (∀ v, body.priority = some v → t.priority = v) ∧
      (body.dueDate = none → t.dueDate = task.dueDate) ∧
      (∀ v, body.dueDate = some v → t.dueDate = v) ∧
      (body.tags = none → t.tags = task.tags) ∧
      (∀ v, body.tags = some v → t.tags = v.map jsTrim) := by
  obtain ⟨task', t, hf', _, _, hu, hid, _, _, h1, h2, h3, h4, h5, h6, _⟩ := updateTask_ok hok
  rw [hfound] at hf'
  injection hf' with hf'
  subst hf'
  obtain ⟨a1, a2, a3, a4, a5, a6⟩ := assignFields_fields task body
  refine ⟨t, by rw [hu], ?_, ?_, ?_, ?_, ?_, ?_, ?_, ?_, ?_, ?_, ?_, ?_, ?_⟩
  · rw [hu]
    exact findById_replaceDoc hfound (hid.trans (findById_id hfound))
  · intro hb
    rw [h1, a1, hb]
  · intro v hb
    rw [h1, a1, hb]
  · intro hb
    rw [h2, a2, hb]
  · intro v hb
    rw [h2, a2, hb]
  · intro hb
    rw [h3, a3, hb]
  · intro v hb
    rw [h3, a3, hb]
  · intro hb
    rw [h4, a4, hb]
  · intro v hb
    rw [h4, a4, hb]
  · intro hb
    rw [h5, a5, hb]
  · intro v hb
    rw [h5, a5, hb]
  · intro hb
    rw [h6, a6, hb]
  · intro v hb
    rw [h6, a6, hb]

/-- The owner of task 1 of the sample store sets its priority to `high`:
the priority is `high` and the title is the title it had. -/
theorem update_writes_the_supplied_fields_witness :
    Task.findById sampleStore 1 = some (sampleTask 1 7 "abc" "pending" 10) ∧
    ∃ t, (updateTask sampleStore 7 1 { priority := some "high" } 50).1 =
        .json { status := 200, success := true,
                message := some "Task updated successfully", data := some t } ∧
      t.priority = "high" ∧ t.title = "abc" :=
  ⟨by decide,
   (update_writes_the_supplied_fields sampleStore 7 1 { priority := some "high" } 50
      (sampleTask 1 7 "abc" "pending" 10) (by decide) (by decide)).elim
     (fun t ht => ⟨t, ht.1, ht.2.2.2.2.2.2.2.2.2.1 "high" rfl, ht.2.2.1 rfl⟩)⟩

/-! ## Clearing the due date -/

theorem schemaErrors_eq_nil_iff (t : Task) :
    schemaErrors t = [] ↔
      (¬ (t.title = "" ∨ 100 < jsLength t.title)) ∧
      (∀ d, t.description = some d → ¬ 500 < jsLength d) ∧
      t.status ∈ statusEnum ∧ t.priority ∈ priorityEnum := by
  unfold schemaErrors
  simp only [List.append_eq_nil]
  cases hd : t.description with
  | none =>
    by_cases h1 : (t.title = "" ∨ 100 < jsLength t.title) <;>
      by_cases h3 : t.status ∈ statusEnum <;>
      by_cases h4 : t.priority ∈ priorityEnum <;> simp [h1, h3, h4]
  | some d =>
    by_cases h1 : (t.title = "" ∨ 100 < jsLength t.title) <;>
      by_cases h2 : 500 < jsLength d <;>
      by_cases h3 : t.status ∈ statusEnum <;>
      by_cases h4 : t.priority ∈ priorityEnum <;> simp [h1, h2, h3, h4, not_lt.mp]

/-- C18: a body whose `dueDate` is null passes the chain on `dueDate` of
the update validation, which reads it as it reads an absent `dueDate`, and
when the route answers 200 the due date of the task is null, where an absent
`dueDate` leaves it as it was. The body of the renew action passes the
validation, and sent by the owner of a task that is valid in the store it
leaves the task with status `pending` and no due date. -/
theorem null_dueDate_clears_the_due_date (store : Store) (caller id : ObjectId)
    (body : RequestBody) (now : Date) (task : Task)
    (hfound : Task.findById store id = some task) (hown : task.user = caller) :
    (body.dueDate = some DueInput.null →
      updateDueDateErrors body.dueDate = [] ∧
      taskUpdateValidation body = taskUpdateValidation { body with dueDate := none }) ∧
    (taskUpdateValidation body = [] →
      schemaErrors (assignFields task body.sanitized) = [] →
      ∃ t, (putTaskRoute store caller id body now).1 =
          .json { status := 200, success := true,
                  message := some "Task updated successfully", data := some t } ∧
        Task.findById (putTaskRoute store caller id body now).2 id = some t ∧
        (body.dueDate = some DueInput.null → t.dueDate = none) ∧
        (body.dueDate = none → t.dueDate = task.dueDate)) ∧
    taskUpdateValidation renewBody = [] ∧
    (schemaErrors task = [] →
      ∃ t, (putTaskRoute store caller id renewBody now).1 =
          .json { status := 200, success := true,
                  message := some "Task updated successfully", data := some t } ∧
        Task.findById (putTaskRoute store caller id renewBody now).2 id = some t ∧
        t.status = "pending" ∧ t.dueDate = none) := by
  have route : ∀ b : RequestBody, taskUpdateValidation b = [] →
      schemaErrors (assignFields task b.sanitized) = [] →
      ∃ t, (putTaskRoute store caller id b now).1 =
          .json { status := 200, success := true,
                  message := some "Task updated successfully", data := some t } ∧
        Task.findById (putTaskRoute store caller id b now).2 id = some t ∧
        t.status = (assignFields task b.sanitized).status ∧
        t.dueDate = (assignFields task b.sanitized).dueDate := by
    intro b hval hschema
    have hroute : putTaskRoute store caller id b now =
        updateTask store caller id b.sanitized now := by
      simp [putTaskRoute, hval]
    have hok := updateTask_of_valid b.sanitized now hfound hown hschema
    obtain ⟨task', t, hf', _, _, hu, hid, _, _, _, _, h3, _, h5, _, _⟩ := updateTask_ok hok
    rw [hfound] at hf'
    injection hf' with hf'
    subst hf'
    refine ⟨t, by rw [hroute, hu], ?_, h3, h5⟩
    rw [hroute, hu]
    exact findById_replaceDoc hfound (hid.trans (findById_id hfound))
  refine ⟨?_, ?_, by decide, ?_⟩
  · intro hnull
    constructor
    · rw [hnull]
      rfl
    · simp [taskUpdateValidation, hnull, updateDueDateErrors]
  · intro hval hschema
    obtain ⟨t, h1, h2, _, h4⟩ := route body hval hschema
    obtain ⟨_, _, _, _, a5, _⟩ := assignFields_fields task body.sanitized
    refine ⟨t, h1, h2, ?_, ?_⟩
    · intro hnull
      rw [h4, a5]
      simp [RequestBody.sanitized, hnull, DueInput.cast]
    · intro hnone
      rw [h4, a5]
      simp [RequestBody.sanitized, hnone]
  · intro hstored
    obtain ⟨a1, a2, a3, a4, a5, _⟩ := assignFields_fields task renewBody.sanitized
    have hschema : schemaErrors (assignFields task renewBody.sanitized) = [] := by
      rw [schemaErrors_eq_nil_iff] at hstored ⊢
      rw [a1, a2, a3, a4]
      refine ⟨hstored.1, hstored.2.1, ?_, hstored.2.2.2⟩
      show "pending" ∈ statusEnum
      decide
    obtain ⟨t, h1, h2, h3, h4⟩ := route renewBody (by decide) hschema
    refine ⟨t, h1, h2, ?_, ?_⟩
    · rw [h3, a3]
      rfl
    · rw [h4, a5]
      rfl

/-- The renew action on the completed task of `completedStore`, due at
time 90: the task is pending and has no due date. -/
theorem null_dueDate_clears_the_due_date_witness :
    (Task.findById completedStore 1).map (fun t => (t.status, t.dueDate))
      = some ("completed", some 90) ∧
    ∃ t, (putTaskRoute completedStore 7 1 renewBody 70).1 =
        .json { status := 200, success := true,
                message := some "Task updated successfully", data := some t } ∧
      Task.findById (putTaskRoute completedStore 7 1 renewBody 70).2 1 = some t ∧
      t.status = "pending" ∧ t.dueDate = none :=
  ⟨by decide,
   (null_dueDate_clears_the_due_date completedStore 7 1 renewBody 70
      { sampleTask 1 7 "Write report" "completed" 10 with
        completedAt := some 40, dueDate := some 90, updatedAt := 40 }
      (by decide) rfl).2.2.2 (by decide)⟩

/-! ## The owner of a task -/

theorem updateTask_owners (store : Store) (caller id : ObjectId) (body : TaskBody)
    (now : Date) :
    (updateTask store caller id body now).2.map (fun d => (d._id, d.user)) =
      store.map (fun d => (d._id, d.user)) := by
  by_cases hok : (updateTask store caller id body now).1.status? = some 200
  · obtain ⟨task, t, hf, _, _, hu, hid, huser, _⟩ := updateTask_ok hok
    rw [hu]
    apply replaceDoc_owners t task store _ huser.symm
    rw [hid, findById_id hf]
    exact hf
  · cases hf : Task.findById store id with
    | none => simp [updateTask, hf]
    | some task =>
      by_cases ho : task.user = caller
      · by_cases hv : schemaErrors (assignFields task body) = []
        · exact absurd (updateTask_of_valid body now hf ho hv) hok
        · simp [updateTask, hf, ho, Task.save, hv]
      · simp [updateTask, hf, ho]

theorem deleteTask_sublist (store : Store) (caller id : ObjectId) :
    List.Sublist (deleteTask store caller id).2 store := by
  unfold deleteTask
  cases Task.findById store id with
  | none => exact List.Sublist.refl _
  | some task =>
    by_cases ho : task.user = caller
    · simp only [ho, ne_eq, not_true_eq_false, if_false, Task.deleteOne]
      exact List.eraseP_sublist _
    · simp only [ho, ne_eq, not_false_eq_true, if_true]
      exact List.Sublist.refl _

theorem createTask_store (store : Store) (caller newId : ObjectId) (body : TaskBody)
    (now : Date) :
    (createTask store caller newId body now).2 = store ∨
    ∃ t, (createTask store caller newId body now).2 = store ++ [t] ∧
      t._id = newId ∧ t.user = caller := by
  by_cases hok : (createTask store caller newId body now).1.status? = some 201
  · obtain ⟨t, ht, hid, huser, _⟩ := createTask_ok hok
    exact Or.inr ⟨t, by rw [ht], hid, huser⟩
  · left
    unfold createTask at hok ⊢
    cases hc : Task.create store newId body caller now with
    | error e => rfl
    | ok r => simp [hc, Outcome.status?] at hok

/-- Along a history of requests every stored task keeps, as its owner, the
caller of a create request for its id. -/
theorem owners_along_history (requests : List Request) :
    ∀ (store : Store) (earlier : List Request),
      (∀ t ∈ store, ∃ caller body now,
        Request.create caller t._id body now ∈ earlier ∧ t.user = caller) →
      ∀ t ∈ runRequests store requests, ∃ caller body now,
        Request.create caller t._id body now ∈ earlier ++ requests ∧ t.user = caller := by
  induction requests with
  | nil =>
    intro store earlier h t ht
    simpa [runRequests] using h t ht
  | cons r rs ih =>
    intro store earlier h t ht
    have hstep : ∀ x ∈ Request.apply store r, ∃ caller body now,
        Request.create caller x._id body now ∈ earlier ++ [r] ∧ x.user = caller := by
      intro x hx
      have hold : ∀ y ∈ store, ∃ caller body now,
          Request.create caller y._id body now ∈ earlier ++ [r] ∧ y.user = caller := by
        intro y hy
        obtain ⟨c, b, n, hmem, hu⟩ := h y hy
        exact ⟨c, b, n, List.mem_append_left _ hmem, hu⟩
      cases r with
      | create caller newId body now =>
        rcases createTask_store store caller newId body now with hs | ⟨t', hs, hid, hu⟩
        · simp only [Request.apply, hs] at hx
          exact hold x hx
        · simp only [Request.apply, hs, List.mem_append, List.mem_singleton] at hx
          rcases hx with hx | hx
          · exact hold x hx
          · subst hx
            exact ⟨caller, body, now, by simp [hid], hu⟩
      | update caller id body now =>
        have hmap := updateTask_owners store caller id body now
        have hx' : (x._id, x.user) ∈
            (updateTask store caller id body now).2.map (fun d => (d._id, d.user)) :=
          List.mem_map_of_mem (fun d => (d._id, d.user)) hx
        rw [hmap, List.mem_map] at hx'
        obtain ⟨y, hy, hyx⟩ := hx'
        obtain ⟨c, b, n, hmem, hu⟩ := hold y hy
        have h1 : y._id = x._id := congrArg Prod.fst hyx
        have h2 : y.user = x.user := congrArg Prod.snd hyx
        exact ⟨c, b, n, h1 ▸ hmem, h2 ▸ hu⟩
      | delete caller id =>
        exact hold x ((deleteTask_sublist store caller id).subset hx)
    have := ih (Request.apply store r) (earlier ++ [r]) hstep t
      (by simpa [runRequests] using ht)
    simpa [List.append_assoc] using this

/-- C19: `createTask` gives the new task the caller as its owner whatever the
body holds, no `updateTask` changes the owner of any stored task whatever its
body holds, a `user` key included, and so in every state reached from the
empty store through the three handlers the owner of each task is the caller
of a create request for its id. -/
theorem owner_is_the_creating_caller :
    (∀ (store : Store) (caller newId : ObjectId) (body : TaskBody) (now : Date),
      (createTask store caller newId body now).1.status? = some 201 →
      ∃ t, (createTask store caller newId body now).1 =
          .json { status := 201, success := true,
                  message := some "Task created successfully", data := some t } ∧
        (createTask store caller newId body now).2 = store ++ [t] ∧
        t._id = newId ∧ t.user = caller) ∧
    (∀ (store : Store) (caller id : ObjectId) (body : TaskBody) (now : Date),
      (updateTask store caller id body now).2.map (fun d => (d._id, d.user)) =
        store.map (fun d => (d._id, d.user))) ∧
    (∀ (requests : List Request) (t : Task), t ∈ runRequests [] requests →
      ∃ caller body now,
        Request.create caller t._id body now ∈ requests ∧ t.user = caller) := by
  refine ⟨?_, updateTask_owners, ?_⟩
  · intro store caller newId body now hok
    obtain ⟨t, ht, hid, huser, _⟩ := createTask_ok hok
    exact ⟨t, by rw [ht], by rw [ht], hid, huser⟩
  · intro requests t ht
    have := owners_along_history requests [] [] (by simp) t ht
    simpa using this

/-- User 7 creates task 1 with a `user` key of 8 in the body, then sends an
update with a `user` key of 8: the owner of the task is 7. -/
theorem owner_is_the_creating_caller_witness :
    (runRequests []
      [ Request.create 7 1 { title := some "Pay rent", user := some 8 } 50,
        Request.update 7 1 { priority := some "high", user := some 8 } 60 ]).map
        (fun t => (t._id, t.user, t.priority)) = [(1, 7, "high")] ∧
    ∃ t, (createTask [] 7 1 { title := some "Pay rent", user := some 8 } 50).1 =
        .json { status := 201, success := true,
                message := some "Task created successfully", data := some t } ∧
      (createTask [] 7 1 { title := some "Pay rent", user := some 8 } 50).2 = [] ++ [t] ∧
      t._id = 1 ∧ t.user = 7 :=
  ⟨by decide,
   owner_is_the_creating_caller.1 [] 7 1 { title := some "Pay rent", user := some 8 } 50
     (by decide)⟩

/-! ## The defaults of a new task -/

/-- C20, as the claim states it, fails: a task created with status
`completed` and no `dueDate` has no due date, and its `completedAt` is the
time of the save, not null. -/
theorem new_completed_task_has_completedAt :
    (createTask [] 7 1 { title := some "Pay rent", status := some "completed" } 50).1 =
      .json { status := 201, success := true,
              message := some "Task created successfully",
              data := some { _id := 1, title := "Pay rent", description := none,
                             status := "completed", priority := "medium", dueDate := none,
                             user := 7, tags := [], completedAt := some 50,
                             createdAt := 50, updatedAt := 50 } } := by
  decide

/-- C20, amended: a task created by `createTask` has status `pending` when
the body has no status and the supplied status otherwise, priority `medium`
when the body has no priority and the supplied priority otherwise, and no due
date when the body has no `dueDate`; its `completedAt` is null unless its
status is `completed`, so it is null when the body has no status. -/
theorem new_task_takes_schema_defaults (store : Store) (caller newId : ObjectId)
    (body : TaskBody) (now : Date)
    (hok : (createTask store caller newId body now).1.status? = some 201) :
    ∃ t, (createTask store caller newId body now).1 =
        .json { status := 201, success := true,
                message := some "Task created successfully", data := some t } ∧
      t ∈ (createTask store caller newId body now).2 ∧
      (body.status = none → t.status = "pending") ∧
      (body.priority = none → t.priority = "medium") ∧
      (body.dueDate = none → t.dueDate = none) ∧
      (t.status ≠ "completed" → t.completedAt = none) ∧
      (body.status = none → t.completedAt = none) ∧
      (∀ v, body.status = some v → t.status = v) ∧
      (∀ v, body.priority = some v → t.priority = v) := by
  obtain ⟨t, ht, _, _, _, _, h5, h6, h7, _, _, _, h11⟩ := createTask_ok hok
  refine ⟨t, by rw [ht], by rw [ht]; simp, ?_, ?_, ?_, ?_, ?_, ?_, ?_⟩
  · intro hb
    rw [h5, hb]
    rfl
  · intro hb
    rw [h6, hb]
    rfl
  · intro hb
    rw [h7, hb]
    rfl
  · intro hne
    rw [h11]
    split_ifs with hs
    · exfalso
      apply hne
      rw [h5, hs]
      rfl
    · rfl
  · intro hb
    rw [h11, hb]
    simp
  · intro v hb
    rw [h5, hb]
    rfl
  · intro v hb
    rw [h6, hb]
    rfl

/-- A task created with a title only: pending, of medium priority, with no
due date and no completion time. -/
theorem new_task_takes_schema_defaults_witness :
    (createTask [] 7 1 { title := some "Pay rent" } 50).1.status? = some 201 ∧
    ∃ t, (createTask [] 7 1 { title := some "Pay rent" } 50).1 =
        .json { status := 201, success := true,
                message := some "Task created successfully", data := some t } ∧
      t.status = "pending" ∧ t.priority = "medium" ∧ t.dueDate = none ∧
      t.completedAt = none :=
  ⟨by decide,
   (new_task_takes_schema_defaults [] 7 1 { title := some "Pay rent" } 50 (by decide)).elim
     (fun t ht => ⟨t, ht.1, ht.2.2.1 rfl, ht.2.2.2.1 rfl, ht.2.2.2.2.1 rfl,
       ht.2.2.2.2.2.2.1 rfl⟩)⟩

/-! ## The title of a new task -/

theorem dropWhile_rdropWhile (p : Char → Bool) (l : List Char) :
    (List.rdropWhile p (List.dropWhile p l)).dropWhile p =
      List.rdropWhile p (List.dropWhile p l) := by
  obtain ⟨rest, hrest⟩ := List.rdropWhile_prefix p (List.dropWhile p l)
  cases hb : List.rdropWhile p (List.dropWhile p l) with
  | nil => rfl
  | cons b bs =>
    rw [hb, List.cons_append] at hrest
    have hpos : 0 < (List.dropWhile p l).length := by
      rw [← hrest]
      exact Nat.succ_pos _
    have hnot := List.dropWhile_get_zero_not p l hpos
    have hhead : (List.dropWhile p l).get ⟨0, hpos⟩ = b := by
      simp [← hrest]
    rw [hhead] at hnot
    simp [List.dropWhile_cons, hnot]

theorem jsTrim_idempotent (s : String) : jsTrim (jsTrim s) = jsTrim s := by
  unfold jsTrim
  congr 1
  show List.rdropWhile isStrWhiteSpace
      (List.dropWhile isStrWhiteSpace
        (List.rdropWhile isStrWhiteSpace (List.dropWhile isStrWhiteSpace s.data))) =
    List.rdropWhile isStrWhiteSpace (List.dropWhile isStrWhiteSpace s.data)
  rw [dropWhile_rdropWhile, List.rdropWhile_idempotent]

/-- When `createTask` answers 201: the new document passes the validation
of the schema. -/
theorem createTask_status_iff (store : Store) (caller newId : ObjectId) (body : TaskBody)
    (now : Date) :
    (createTask store caller newId body now).1.status? = some 201 ↔
      schemaErrors
        { _id := newId, title := (body.title.map jsTrim).getD "",
          description := body.description.map jsTrim,
          status := body.status.getD "pending", priority := body.priority.getD "medium",
          dueDate := body.dueDate.getD none, user := caller,
          tags := (body.tags.getD []).map jsTrim, completedAt := none,
          createdAt := now, updatedAt := now } = [] := by
  by_cases hv : schemaErrors
      { _id := newId, title := (body.title.map jsTrim).getD "",
        description := body.description.map jsTrim,
        status := body.status.getD "pending", priority := body.priority.getD "medium",
        dueDate := body.dueDate.getD none, user := caller,
        tags := (body.tags.getD []).map jsTrim, completedAt := none,
        createdAt := now, updatedAt := now } = []
  · simp [createTask, Task.create, hv, Outcome.status?]
  · simp [createTask, Task.create, hv, Outcome.status?]

theorem length_le_jsLength (s : String) : s.length ≤ jsLength s := by
  unfold jsLength
  show s.data.length ≤ _
  induction s.data with
  | nil => simp
  | cons c cs ih =>
    simp only [List.map_cons, List.sum_cons, List.length_cons]
    split_ifs <;> omega

theorem isLengthCount_le_length (s : String) : isLengthCount s ≤ s.length :=
  List.length_filter_le _ _

theorem isLengthCount_of_no_selector (s : String)
    (h : ∀ c ∈ s.data, c.toNat ≠ 0xFE0E ∧ c.toNat ≠ 0xFE0F) : isLengthCount s = s.length := by
  unfold isLengthCount
  show _ = s.data.length
  rw [List.filter_eq_self.mpr]
  intro c hc
  have := h c hc
  simp [this.1, this.2]

theorem createTitleErrors_eq_nil_iff (title : Option String) :
    createTitleErrors title = [] ↔
      3 ≤ isLengthCount (jsTrim (title.getD "")) ∧
        isLengthCount (jsTrim (title.getD "")) ≤ 100 := by
  unfold createTitleErrors
  by_cases hlen : 3 ≤ isLengthCount (jsTrim (title.getD "")) ∧
      isLengthCount (jsTrim (title.getD "")) ≤ 100
  · have hne : jsTrim (title.getD "") ≠ "" := by
      intro h
      rw [h] at hlen
      exact absurd hlen.1 (by decide)
    simp [hlen, hne]
  · simp [hlen]

/-- C21, as the claim states it, fails: a title that trims to the two
characters `ab`, or to the one character `a`, is answered 400 by the route,
with the message that the title must be between 3 and 100 characters. -/
theorem short_title_is_rejected :
    (jsTrim " ab ").length = 2 ∧
    postTaskRoute [] 7 1 { title := some " ab " } 50 =
      (.json { status := 400, success := false,
               errors := some [("title", "Title must be between 3 and 100 characters")] },
       []) ∧
    (postTaskRoute [] 7 1 { title := some "a" } 50).1.status? = some 400 := by
  decide

/-- C21, amended: the validation of the create route accepts the title
exactly when, after trimming, its length as `isLength` counts it is between
3 and 100: the count is the number of characters that are no variation
selector (U+FE0E, U+FE0F), a character outside the basic plane counting
once. A body whose title the validation does not accept is answered 400 and
nothing is stored. A body with a title only is answered 201 exactly when that
count of the trimmed title is at least 3 and the trimmed title is at most 100
UTF-16 units long, the bound of the schema. The schema alone, without the
route, accepts a trimmed title of 1 to 100 units. The count is never more than
the number of characters, which is never more than the number of units, and
the three agree on a title of the basic plane without selectors. -/
theorem title_of_three_to_hundred_is_accepted (store : Store) (caller newId : ObjectId)
    (now : Date) :
    (∀ title, createTitleErrors title = [] ↔
      3 ≤ isLengthCount (jsTrim (title.getD "")) ∧
        isLengthCount (jsTrim (title.getD "")) ≤ 100) ∧
    (∀ body : RequestBody, createTitleErrors body.title ≠ [] →
      (postTaskRoute store caller newId body now).1.status? = some 400 ∧
      (postTaskRoute store caller newId body now).2 = store) ∧
    (∀ v, (postTaskRoute store caller newId { title := some v } now).1.status? = some 201 ↔
      3 ≤ isLengthCount (jsTrim v) ∧ jsLength (jsTrim v) ≤ 100) ∧
    (∀ v, (createTask store caller newId { title := some v } now).1.status? = some 201 ↔
      jsTrim v ≠ "" ∧ jsLength (jsTrim v) ≤ 100) ∧
    (∀ s : String, isLengthCount s ≤ s.length ∧ s.length ≤ jsLength s) ∧
    (∀ s : String, (∀ c ∈ s.data, c.toNat ≠ 0xFE0E ∧ c.toNat ≠ 0xFE0F) →
      isLengthCount s = s.length) := by
  have hschema : ∀ v, (createTask store caller newId { title := some v } now).1.status? =
      some 201 ↔ jsTrim v ≠ "" ∧ jsLength (jsTrim v) ≤ 100 := by
    intro v
    rw [createTask_status_iff, schemaErrors_eq_nil_iff]
    simp only [Option.map_some', Option.getD_some, Option.map_none', Option.getD_none]
    constructor
    · intro h
      have h1 := h.1
      rw [not_or, not_lt] at h1
      exact h1
    · intro h
      refine ⟨?_, ?_, by decide, by decide⟩
      · rw [not_or, not_lt]
        exact h
      · intro d hd
        exact absurd hd (by simp)
  refine ⟨createTitleErrors_eq_nil_iff, ?_, ?_, hschema,
    fun s => ⟨isLengthCount_le_length s, length_le_jsLength s⟩,
    isLengthCount_of_no_selector⟩
  · intro body hbad
    have hval : taskCreateValidation body ≠ [] := by
      unfold taskCreateValidation
      intro h
      simp only [List.append_eq_nil] at h
      exact hbad h.1.1.1.1
    simp [postTaskRoute, hval, Outcome.status?]
  · intro v
    have hval : taskCreateValidation { title := some v } = createTitleErrors (some v) := by
      simp [taskCreateValidation, descriptionErrors, statusErrors, priorityErrors,
        createDueDateErrors]
    have hlen := createTitleErrors_eq_nil_iff (some v)
    simp only [Option.getD_some] at hlen
    have hle : isLengthCount (jsTrim v) ≤ jsLength (jsTrim v) :=
      le_trans (isLengthCount_le_length _) (length_le_jsLength _)
    by_cases hok : createTitleErrors (some v) = []
    · have hroute : postTaskRoute store caller newId { title := some v } now =
          createTask store caller newId { title := some (jsTrim v) } now := by
        simp [postTaskRoute, hval, hok, RequestBody.sanitized]
      rw [hroute, hschema (jsTrim v), jsTrim_idempotent]
      have h3 := hlen.mp hok
      constructor
      · intro h
        exact ⟨h3.1, h.2⟩
      · intro h
        refine ⟨?_, h.2⟩
        intro he
        rw [he] at h3
        exact absurd h3.1 (by decide)
    · have hnot : ¬ (3 ≤ isLengthCount (jsTrim v) ∧ isLengthCount (jsTrim v) ≤ 100) :=
        fun h => hok (hlen.mpr h)
      have hstatus : (postTaskRoute store caller newId { title := some v } now).1.status? =
          some 400 := by
        simp [postTaskRoute, hval, hok, Outcome.status?]
      rw [hstatus]
      constructor
      · intro h
        exact absurd h (by decide)
      · intro h
        exact absurd ⟨h.1, le_trans hle h.2⟩ hnot

/-- The title `Pay rent` is accepted and the task is stored; the title
`ab` is not accepted by the validation, and neither is `ab` followed by the
selector U+FE0F, which has three characters. -/
theorem title_of_three_to_hundred_is_accepted_witness :
    (postTaskRoute [] 7 1 { title := some "Pay rent" } 50).1.status? = some 201 ∧
    createTitleErrors (some "ab") ≠ [] ∧
    ((postTaskRoute [] 7 1 { title := some "ab" } 50).1.status? = some 400 ∧
     (postTaskRoute [] 7 1 { title := some "ab" } 50).2 = []) ∧
    "ab\uFE0F".length = 3 ∧
    ((postTaskRoute [] 7 1 { title := some "ab\uFE0F" } 50).1.status? = some 400 ∧
     (postTaskRoute [] 7 1 { title := some "ab\uFE0F" } 50).2 = []) :=
  ⟨((title_of_three_to_hundred_is_accepted [] 7 1 50).2.2.1 "Pay rent").mpr (by decide),
   by decide,
   (title_of_three_to_hundred_is_accepted [] 7 1 50).2.1 { title := some "ab" } (by decide),
   by decide,
   (title_of_three_to_hundred_is_accepted [] 7 1 50).2.1 { title := some "ab\uFE0F" }
     (by decide)⟩

/-! ## Writing a status -/

/-- An `updateTask` that is not answered 200 leaves the store as it was. -/
theorem updateTask_store_of_not_ok {store : Store} {caller id : ObjectId} {body : TaskBody}
    {now : Date} (h : (updateTask store caller id body now).1.status? ≠ some 200) :
    (updateTask store caller id body now).2 = store := by
  cases hf : Task.findById store id with
  | none => simp [updateTask, hf]
  | some task =>
    by_cases ho : task.user = caller
    · by_cases hv : schemaErrors (assignFields task body) = []
      · exact absurd (updateTask_of_valid body now hf ho hv) h
      · simp [updateTask, hf, ho, Task.save, hv]
    · simp [updateTask, hf, ho]

/-- C22: whatever the current status of a task, an update by its owner
with a status of the enum is accepted by the route and leaves the task with
that status, provided the task with the new status is valid for the schema;
a status outside the enum is answered 400 by the route, is not accepted by
the handler alone either, and the store is left as it was. -/
theorem any_status_of_the_enum_is_written (store : Store) (caller id : ObjectId)
    (task : Task) (now : Date) (v : String)
    (hfound : Task.findById store id = some task) (hown : task.user = caller) :
    (v ∈ statusEnum → schemaErrors { task with status := v } = [] →
      ∃ t, (putTaskRoute store caller id { status := some v } now).1 =
          .json { status := 200, success := true,
                  message := some "Task updated successfully", data := some t } ∧
        Task.findById (putTaskRoute store caller id { status := some v } now).2 id = some t ∧
        t.status = v) ∧
    (v ∉ statusEnum → ∀ body : RequestBody, body.status = some v →
      (putTaskRoute store caller id body now).1.status? = some 400 ∧
      (putTaskRoute store caller id body now).2 = store) ∧
    (v ∉ statusEnum → ∀ body : TaskBody, body.status = some v →
      (updateTask store caller id body now).1.status? ≠ some 200 ∧
      (updateTask store caller id body now).2 = store) := by
  refine ⟨?_, ?_, ?_⟩
  · intro hv hschema
    have hval : taskUpdateValidation { status := some v } = [] := by
      simp [taskUpdateValidation, updateTitleErrors, descriptionErrors, statusErrors,
        priorityErrors, updateDueDateErrors, hv]
    have hroute : putTaskRoute store caller id { status := some v } now =
        updateTask store caller id { status := some v } now := by
      simp [putTaskRoute, hval, RequestBody.sanitized]
    have hassign : assignFields task { status := some v } = { task with status := v } := rfl
    have hok := updateTask_of_valid { status := some v } now hfound hown
      (by rw [hassign]; exact hschema)
    obtain ⟨task', t, hf', _, _, hu, hid, _, _, _, _, h3, _, _, _, _⟩ := updateTask_ok hok
    rw [hfound] at hf'
    injection hf' with hf'
    subst hf'
    refine ⟨t, by rw [hroute, hu], ?_, ?_⟩
    · rw [hroute, hu]
      exact findById_replaceDoc hfound (hid.trans (findById_id hfound))
    · rw [h3, hassign]
  · intro hv body hb
    have hval : taskUpdateValidation body ≠ [] := by
      unfold taskUpdateValidation
      intro h
      simp only [List.append_eq_nil] at h
      have hs := h.1.1.2
      simp [statusErrors, hb, hv] at hs
    simp [putTaskRoute, hval, Outcome.status?]
  · intro hv body hb
    have hnot : (updateTask store caller id body now).1.status? ≠ some 200 := by
      intro hok
      obtain ⟨task', t, hf', _, hvalid, _⟩ := updateTask_ok hok
      rw [schemaErrors_eq_nil_iff] at hvalid
      obtain ⟨_, _, a3, _⟩ := assignFields_fields task' body
      rw [a3, hb] at hvalid
      exact hv hvalid.2.2.1
    exact ⟨hnot, updateTask_store_of_not_ok hnot⟩

/-- The completed task of `completedStore` is cancelled by its owner, and
the status `archived` is answered 400. -/
theorem any_status_of_the_enum_is_written_witness :
    (∃ t, (putTaskRoute completedStore 7 1 { status := some "cancelled" } 70).1 =
        .json { status := 200, success := true,
                message := some "Task updated successfully", data := some t } ∧
      Task.findById (putTaskRoute completedStore 7 1 { status := some "cancelled" } 70).2 1
        = some t ∧
      t.status = "cancelled") ∧
    (putTaskRoute completedStore 7 1 { status := some "archived" } 70).1.status? = some 400 ∧
    (putTaskRoute completedStore 7 1 { status := some "archived" } 70).2 = completedStore :=
  ⟨(any_status_of_the_enum_is_written completedStore 7 1
      { sampleTask 1 7 "Write report" "completed" 10 with
        completedAt := some 40, dueDate := some 90, updatedAt := 40 } 70 "cancelled"
      (by decide) rfl).1 (by decide) (by decide),
   (any_status_of_the_enum_is_written completedStore 7 1
      { sampleTask 1 7 "Write report" "completed" 10 with
        completedAt := some 40, dueDate := some 90, updatedAt := 40 } 70 "archived"
      (by decide) rfl).2.1 (by decide) { status := some "archived" } rfl⟩

/-! ## Deleting a task -/

theorem filter_ne_of_not_mem (id : ObjectId) (ds : List Task)
    (h : id ∉ ds.map (fun t => t._id)) :
    ds.filter (fun t => decide (t._id ≠ id)) = ds := by
  rw [List.filter_eq_self]
  intro t ht
  have hne : t._id ≠ id := by
    intro e
    apply h
    rw [← e]
    exact List.mem_map_of_mem _ ht
  exact decide_eq_true hne

theorem eraseP_eq_filter_of_nodup (id : ObjectId) (store : Store)
    (hids : (store.map (fun t => t._id)).Nodup) :
    store.eraseP (fun d => d._id == id) = store.filter (fun t => decide (t._id ≠ id)) := by
  induction store with
  | nil => rfl
  | cons d ds ih =>
    rw [List.map_cons, List.nodup_cons] at hids
    rw [List.eraseP_cons, List.filter_cons]
    by_cases hd : d._id = id
    · have hp : (d._id == id) = true := beq_iff_eq.mpr hd
      have hq : decide (d._id ≠ id) = false := decide_eq_false (not_not.mpr hd)
      rw [hp, hq]
      simp only [cond_true, Bool.false_eq_true, if_false]
      exact (filter_ne_of_not_mem id ds (hd ▸ hids.1)).symm
    · have hp : (d._id == id) = false := beq_eq_false_iff_ne.mpr hd
      have hq : decide (d._id ≠ id) = true := decide_eq_true hd
      rw [hp, hq, ih hids.2]
      simp only [cond_false, if_true]

theorem findById_filter_ne (id : ObjectId) (store : Store) :
    Task.findById (store.filter (fun t => decide (t._id ≠ id))) id = none := by
  unfold Task.findById
  rw [List.find?_eq_none]
  intro t ht
  rw [List.mem_filter] at ht
  have hne : t._id ≠ id := of_decide_eq_true ht.2
  simpa using hne

theorem filter_owner_length_of_found (id caller : ObjectId) (task : Task) (store : Store)
    (hids : (store.map (fun t => t._id)).Nodup)
    (hfound : Task.findById store id = some task) (hown : task.user = caller) :
    ((store.filter (fun t => decide (t._id ≠ id))).filter
        (fun t => decide (t.user = caller))).length + 1 =
      (store.filter (fun t => decide (t.user = caller))).length := by
  induction store with
  | nil => simp [Task.findById] at hfound
  | cons d ds ih =>
    rw [List.map_cons, List.nodup_cons] at hids
    by_cases hd : d._id = id
    · have hdt : d = task := by
        simpa [Task.findById, List.find?_cons, hd] using hfound
      subst hdt
      have hq : decide (d._id ≠ id) = false := decide_eq_false (not_not.mpr hd)
      have hu : decide (d.user = caller) = true := decide_eq_true hown
      rw [List.filter_cons, hq]
      simp only [Bool.false_eq_true, if_false]
      rw [filter_ne_of_not_mem id ds (hd ▸ hids.1), List.filter_cons, hu]
      simp only [if_true, List.length_cons]
    · have hf' : Task.findById ds id = some task := by
        simpa [Task.findById, List.find?_cons, hd] using hfound
      have hq : decide (d._id ≠ id) = true := decide_eq_true hd
      have hrec := ih hids.2 hf'
      rw [List.filter_cons, hq]
      simp only [if_true]
      rw [List.filter_cons, List.filter_cons]
      by_cases hu : d.user = caller
      · have hu' : decide (d.user = caller) = true := decide_eq_true hu
        rw [hu']
        simp only [if_true, List.length_cons]
        omega
      · have hu' : decide (d.user = caller) = false := decide_eq_false hu
        rw [hu']
        simp only [Bool.false_eq_true, if_false]
        exact hrec

theorem status_404_of_not_found {store : Store} {id : ObjectId}
    (h : Task.findById store id = none) (c : ObjectId) (body : TaskBody) (now : Date) :
    (getTask store c id).status? = some 404 ∧
    (updateTask store c id body now).1.status? = some 404 ∧
    (deleteTask store c id).1.status? = some 404 := by
  simp [getTask, updateTask, deleteTask, h, notFound, Outcome.status?]

/-- C23: in a store whose ids are pairwise different, after the owner has
deleted a task the store is the store before without that task, every other
task as it was; no task is found under the id, so `getTask`, `updateTask` and
`deleteTask` on it answer 404, no list holds it, and the owner's total in the
statistics is one less. -/
theorem deleted_task_is_gone (store : Store) (caller id : ObjectId) (task : Task)
    (hfound : Task.findById store id = some task) (hown : task.user = caller)
    (hids : (store.map (fun t => t._id)).Nodup) :
    deleteTask store caller id =
      (.json { status := 200, success := true,
               message := some "Task deleted successfully", data := some () },
       store.filter (fun t => decide (t._id ≠ id))) ∧
    Task.findById (deleteTask store caller id).2 id = none ∧
    (∀ (c : ObjectId) (body : TaskBody) (now : Date),
      (getTask (deleteTask store caller id).2 c id).status? = some 404 ∧
      (updateTask (deleteTask store caller id).2 c id body now).1.status? = some 404 ∧
      (deleteTask (deleteTask store caller id).2 c id).1.status? = some 404) ∧
    (∀ (c : ObjectId) (p : ListParams) (r : Response (List Task)) (tasks : List Task),
      getTasks (deleteTask store caller id).2 c p = some r → r.data = some tasks →
      ∀ t ∈ tasks, t._id ≠ id) ∧
    (∃ before after, (getTaskStats store caller).data = some before ∧
      (getTaskStats (deleteTask store caller id).2 caller).data = some after ∧
      after.total + 1 = before.total) ∧
    (∀ t ∈ store, t._id ≠ id → t ∈ (deleteTask store caller id).2) := by
  have hdel : deleteTask store caller id =
      (.json { status := 200, success := true,
               message := some "Task deleted successfully", data := some () },
       store.filter (fun t => decide (t._id ≠ id))) := by
    simp only [deleteTask, hfound, hown, ne_eq, not_true_eq_false, if_false, Task.deleteOne,
      findById_id hfound]
    rw [eraseP_eq_filter_of_nodup id store hids]
  have hnone : Task.findById (deleteTask store caller id).2 id = none := by
    rw [hdel]
    exact findById_filter_ne id store
  refine ⟨hdel, hnone, ?_, ?_, ?_, ?_⟩
  · intro c body now
    exact status_404_of_not_found hnone c body now
  · intro c p r tasks hr hdata t ht
    obtain ⟨f, tasks', _, hw, hr'⟩ := getTasks_eq_some hr
    rw [hr'] at hdata
    injection hdata with hdata
    subst hdata
    have hmem := (window_subset_matches hw ht).1
    rw [hdel, List.mem_filter] at hmem
    exact of_decide_eq_true hmem.2
  · refine ⟨_, _, rfl, rfl, ?_⟩
    simp only [getTaskStats, hdel]
    exact filter_owner_length_of_found id caller task store hids hfound hown
  · intro t ht hne
    rw [hdel, List.mem_filter]
    exact ⟨ht, decide_eq_true hne⟩

/-- User 7 deletes task 2 of the sample store: tasks 1, 3 and 4 remain and
nothing is found under the id 2. -/
theorem deleted_task_is_gone_witness :
    (sampleStore.map (fun t => t._id)).Nodup ∧
    (deleteTask sampleStore 7 2).2 =
      [ sampleTask 1 7 "abc" "pending" 10, sampleTask 3 8 "abc" "pending" 20,
        sampleTask 4 7 "ABCD" "pending" 20 ] ∧
    Task.findById (deleteTask sampleStore 7 2).2 2 = none :=
  ⟨by decide, by decide,
   (deleted_task_is_gone sampleStore 7 2 (sampleTask 2 7 "Write report" "completed" 30)
      (by decide) rfl (by decide)).2.1⟩

/-! ## The renew button -/

/-- C24, as the claim states it, fails: for a cancelled task neither the
page `Tasks` nor the page `Dashboard` renders the Renew button. -/
theorem no_renew_button_for_cancelled :
    TaskAction.renew ∉ Tasks.actions "cancelled" ∧
    TaskAction.renew ∉ Dashboard.actions "cancelled" ∧
    Tasks.actions "cancelled" = [TaskAction.edit, TaskAction.delete] ∧
    Dashboard.actions "cancelled" = [] := by
  decide

/-- C24, amended: on the page `Tasks` and on the page `Dashboard` the Renew
button is rendered for a task exactly when its status is `completed`. -/
theorem renew_button_iff_completed (status : String) :
    (TaskAction.renew ∈ Tasks.actions status ↔ status = "completed") ∧
    (TaskAction.renew ∈ Dashboard.actions status ↔ status = "completed") := by
  unfold Tasks.actions Dashboard.actions
  by_cases h1 : status = "pending" ∨ status = "in-progress" <;>
    by_cases h2 : status = "completed" <;> simp [h1, h2]

/-! ## The password of a registration -/

/-- C25 on the code: the password `abcdef` has no uppercase letter and no
digit, and the chain on `password` of `registerValidation` finds no error in
it; the message of the rule is given for a password that is too short, such
as `Ab1`, which holds all three kinds of character. -/
theorem lowercase_password_passes_registration :
    ¬ meetsPasswordRule "abcdef" ∧
    registerPasswordErrors (some "abcdef") = [] ∧
    meetsPasswordRule "Ab1" ∧
    registerPasswordErrors (some "Ab1") =
      [("password",
        "Password must contain at least one uppercase letter, one lowercase letter, and one number")] := by
  decide

/-! ## More tasks beyond the window -/

/-- C26: for integers page and limit of at least 1, `hasMore` is true
exactly when page times limit is less than the total, that is, when the skip
plus the limit is less than the total: a match lies beyond the window. -/
theorem hasMore_iff_window_ends_before_total (p : ListParams) (total : Nat) (pg lm : Int)
    (hpage : (parseInt (getTasks.page p)).toInt? = some pg)
    (hlimit : (parseInt (getTasks.limit p)).toInt? = some lm)
    (hpg : 1 ≤ pg) (hlm : 1 ≤ lm) :
    ((getTasks.pagination p total).hasMore = true ↔ pg * lm < total) ∧
    (getTasks.skip p).toInt? = some ((pg - 1) * lm) ∧
    ((getTasks.pagination p total).hasMore = true ↔ (pg - 1) * lm + lm < total) := by
  have htp : getTasks.totalPages p total = JSNum.fin ((⌈(total : ℚ) / lm⌉ : Int) : ℚ) :=
    ceil_div_of_pos total hlimit hlm
  have hp : parseInt (getTasks.page p) = JSNum.fin (pg : ℚ) :=
    fin_of_toInt?_ne_zero hpage (by omega)
  have hlmq : (0 : ℚ) < lm := by exact_mod_cast (by omega : (0 : Int) < lm)
  have hmore : (getTasks.pagination p total).hasMore = true ↔ pg * lm < total := by
    simp only [getTasks.pagination, htp, hp, JSNum.lt, JSNum.toRat?, decide_eq_true_eq]
    rw [Int.cast_lt, Int.lt_ceil, lt_div_iff₀ hlmq]
    constructor
    · intro h
      exact_mod_cast h
    · intro h
      exact_mod_cast h
  have hskip : (getTasks.skip p).toInt? = some ((pg - 1) * lm) := by
    unfold getTasks.skip
    rw [sub_one_of_toInt? hpage]
    exact mul_of_toInt? (toInt?_fin_intCast (pg - 1)) hlimit
  refine ⟨hmore, hskip, ?_⟩
  rw [hmore]
  have : (pg - 1) * lm + lm = pg * lm := by ring
  rw [this]

/-- Page 2 by 10: 25 matches leave more (20 < 25), 20 matches do not. -/
theorem hasMore_iff_window_ends_before_total_witness :
    ((getTasks.pagination { page := some "2", limit := some "10" } 25).hasMore = true ↔
      (2 : Int) * 10 < ((25 : Nat) : Int)) ∧
    (getTasks.pagination { page := some "2", limit := some "10" } 25).hasMore = true ∧
    (getTasks.pagination { page := some "2", limit := some "10" } 20).hasMore = false :=
  ⟨(hasMore_iff_window_ends_before_total { page := some "2", limit := some "10" } 25 2 10
      (by decide!) (by decide!) (by decide) (by decide)).1,
   by decide!, by decide!⟩

/-! ## The pages of a list -/

theorem fin_intCast_eq_natCast (a : Int) (h : 0 ≤ a) :
    JSNum.fin (a : ℚ) = JSNum.fin ((a.toNat : Nat) : ℚ) := by
  congr 1
  rw [← Int.cast_natCast, Int.toNat_of_nonneg h]

/-- The answer of `getTasks` for a page and a limit of at least 1, with the
limit and the skip at most 2^53, when the store evaluates the filter and
orders the matches. -/
theorem getTasksOn_page (db : StoreEngine) (hwin : db.WindowsCounts) (store : Store)
    (caller : ObjectId) (p : ListParams) (f : Task → Bool) (sorted : List Task)
    (pg lm : Int)
    (hs : getTasks.sortBy p ≠ "")
    (hf : (buildQuery caller p).predicateOn db = some f)
    (ho : db.order (getTasks.sortObj p) (store.filter f) = some sorted)
    (hpage : (parseInt (getTasks.page p)).toInt? = some pg)
    (hlimit : (parseInt (getTasks.limit p)).toInt? = some lm)
    (hpg : 1 ≤ pg) (hlm : 1 ≤ lm) (hlm' : lm ≤ 2 ^ 53) (hk : (pg - 1) * lm ≤ 2 ^ 53) :
    getTasksOn db store caller p =
      some { status := 200, success := true,
             data := some ((sorted.drop ((pg - 1) * lm).toNat).take lm.toNat),
             pagination := some (getTasks.pagination p (store.filter f).length) } := by
  have hk0 : 0 ≤ (pg - 1) * lm := mul_nonneg (by omega) (by omega)
  have hsk : getTasks.skip p = JSNum.fin ((((pg - 1) * lm).toNat : Nat) : ℚ) := by
    unfold getTasks.skip
    rw [skip_of_positive hpage hlimit hpg hlm]
    exact fin_intCast_eq_natCast _ hk0
  have hlim : parseInt (getTasks.limit p) = JSNum.fin ((lm.toNat : Nat) : ℚ) := by
    rw [fin_of_toInt?_ne_zero hlimit (by omega)]
    exact fin_intCast_eq_natCast _ (by omega)
  have h1 : 1 ≤ lm.toNat := by omega
  have h2 : lm.toNat ≤ 2 ^ 53 := by
    have : ((lm.toNat : Nat) : Int) ≤ 2 ^ 53 := by
      rw [Int.toNat_of_nonneg (by omega)]
      exact hlm'
    exact_mod_cast this
  have h3 : ((pg - 1) * lm).toNat ≤ 2 ^ 53 := by
    have : ((((pg - 1) * lm).toNat : Nat) : Int) ≤ 2 ^ 53 := by
      rw [Int.toNat_of_nonneg hk0]
      exact hk
    exact_mod_cast this
  rw [getTasksOn_of_sortBy db store caller p hs, hf, Option.some_bind, ho, Option.some_bind,
    hlim, hsk, hwin _ _ sorted h1 h2 h3]
  rfl

/-- The first `n` pages of a list, one after the other, are its first
`n * size` elements. -/
theorem flatMap_pages (docs : List Task) (size : Nat) (n : Nat) :
    (List.range n).flatMap (fun i => (docs.drop (i * size)).take size) =
      docs.take (n * size) := by
  induction n with
  | zero => simp
  | succ n ih =>
    rw [List.range_succ, List.flatMap_append, ih, List.flatMap_singleton, Nat.succ_mul,
      List.take_add]

/-- C9, as the claim states it, fails: the page parameter 9007199254740993
is an integer, and the page the pagination block echoes is 9007199254740992,
the double `parseInt` rounds it to. -/
theorem page_beyond_safe_integers_is_rounded :
    (getTasks.pagination { page := some "9007199254740993" } 25).page =
      JSNum.fin 9007199254740992 ∧
    (getTasks.pagination { page := some "9007199254740993" } 25).page.toInt? =
      some 9007199254740992 ∧
    (getTasks.pagination { page := some "9007199254740992" } 25).page =
      (getTasks.pagination { page := some "9007199254740993" } 25).page := by
  decide!

/-- C9, amended: when `parseInt` reads the page and limit parameters as the
integers `pg` and `lm`, and `(pg - 1) * lm` is at most 2^53 in size, the skip
`getTasks` computes is `(pg - 1) * lm`, the pagination block echoes `pg` and
`lm`, and on every engine the data of a response is the window the store
gives for that skip and the take `lm` on the ordered matches; for `pg` at
least 1 and `lm` from 1 to 2^53, a filter the store evaluates and an ordering
it gives, the request is answered with the `lm` ordered matches that follow
the first `(pg - 1) * lm`. -/
theorem window_is_page_and_limit (p : ListParams) (pg lm : Int)
    (hpage : (parseInt (getTasks.page p)).toInt? = some pg)
    (hlimit : (parseInt (getTasks.limit p)).toInt? = some lm)
    (hsafe : |(pg - 1) * lm| ≤ 2 ^ 53) :
    (getTasks.skip p).toInt? = some ((pg - 1) * lm) ∧
    (∀ total, (getTasks.pagination p total).page.toInt? = some pg ∧
      (getTasks.pagination p total).limit.toInt? = some lm) ∧
    (∀ (db : StoreEngine) (store : Store) (caller : ObjectId) (r : Response (List Task)),
      getTasksOn db store caller p = some r →
      ∃ f sorted take skip, (buildQuery caller p).predicateOn db = some f ∧
        db.order (getTasks.sortObj p) (store.filter f) = some sorted ∧
        take.toInt? = some lm ∧ skip.toInt? = some ((pg - 1) * lm) ∧
        r.data = db.window take skip sorted ∧
        r.pagination = some (getTasks.pagination p (store.filter f).length)) ∧
    (∀ (db : StoreEngine), db.WindowsCounts → 1 ≤ pg → 1 ≤ lm → lm ≤ 2 ^ 53 →
      ∀ (store : Store) (caller : ObjectId) (f : Task → Bool) (sorted : List Task),
      getTasks.sortBy p ≠ "" →
      (buildQuery caller p).predicateOn db = some f →
      db.order (getTasks.sortObj p) (store.filter f) = some sorted →
      getTasksOn db store caller p =
        some { status := 200, success := true,
               data := some ((sorted.drop ((pg - 1) * lm).toNat).take lm.toNat),
               pagination := some (getTasks.pagination p (store.filter f).length) }) := by
  have hskip : (getTasks.skip p).toInt? = some ((pg - 1) * lm) := by
    unfold getTasks.skip
    rw [sub_one_of_toInt? hpage]
    exact mul_of_toInt? (toInt?_fin_intCast (pg - 1)) hlimit
  refine ⟨hskip, fun total => ⟨hpage, hlimit⟩, ?_, ?_⟩
  · intro db store caller r h
    obtain ⟨_, f, sorted, tasks, hf, ho, hw, hr⟩ := getTasksOn_eq_some h
    refine ⟨f, sorted, parseInt (getTasks.limit p), getTasks.skip p, hf, ho, hlimit, hskip,
      ?_, ?_⟩
    · rw [hw, hr]
    · rw [hr]
  · intro db hdb h1 h2 h3 store caller f sorted hs hf ho
    exact getTasksOn_page db hdb store caller p f sorted pg lm hs hf ho hpage hlimit h1 h2 h3
      (le_trans (le_abs_self _) hsafe)

/-- The request `page=2&limit=10`: skip 10. The request `page=2&limit=2` of
user 7 on the sample store: skip 2 and take 2, and the answer holds the one
task after the first two. -/
theorem window_is_page_and_limit_witness :
    (getTasks.skip { page := some "2", limit := some "10" }).toInt? = some ((2 - 1) * 10) ∧
    (parseInt (getTasks.page { page := some "2", limit := some "2" })).toInt? = some 2 ∧
    (parseInt (getTasks.limit { page := some "2", limit := some "2" })).toInt? = some 2 ∧
    (getTasks.skip { page := some "2", limit := some "2" }).toInt? = some ((2 - 1) * 2) ∧
    getTasksOn plainEngine sampleStore 7 { page := some "2", limit := some "2" } =
      some { status := 200, success := true,
             data := some (((sortDocs (docLe ("createdAt", -1))
               (sampleStore.filter
                 (fun t => (buildQuery 7 { page := some "2", limit := some "2" }).matchesFields
                   t))).drop ((2 - 1) * 2 : Int).toNat).take (2 : Int).toNat),
             pagination := some (getTasks.pagination { page := some "2", limit := some "2" }
               (sampleStore.filter
                 (fun t => (buildQuery 7 { page := some "2", limit := some "2" }).matchesFields
                   t)).length) } ∧
    (getTasksOn plainEngine sampleStore 7 { page := some "2", limit := some "2" }).map
        (fun r => r.data.map (fun tasks => tasks.map (fun t => t._id))) = some (some [1]) :=
  ⟨(window_is_page_and_limit { page := some "2", limit := some "10" } 2 10
      (by decide!) (by decide!) (by decide)).1,
   by decide!, by decide!,
   (window_is_page_and_limit { page := some "2", limit := some "2" } 2 2
      (by decide!) (by decide!) (by decide)).1,
   (window_is_page_and_limit { page := some "2", limit := some "2" } 2 2
      (by decide!) (by decide!) (by decide)).2.2.2 plainEngine plainEngine_windowsCounts
      (by decide) (by decide) (by decide) sampleStore 7 _ _ (by decide) rfl rfl,
   by decide!⟩

/-- C27, as the claim states it, fails: the store promises no order among
tasks with equal sort keys and each page is a query of its own. The three
tasks of user 7 have the same priority, so they are ordered by priority in
the stored order and in the opposite order alike; when the store gives them
in stored order for page 1 and in the opposite order for page 2, task 1 is on
both pages of 2 and task 4 is on neither. -/
theorem pages_repeat_a_task_with_equal_keys :
    (plainEngine.Lawful ∧ plainEngine.WindowsCounts) ∧
    (reversingEngine.Lawful ∧ reversingEngine.WindowsCounts) ∧
    (sampleStore.filter (fun t => decide (t.user = 7))).map (fun t => (t._id, t.priority)) =
      [(1, "medium"), (2, "medium"), (4, "medium")] ∧
    ((sampleStore.filter (fun t => decide (t.user = 7))).Pairwise
        (fun a b => docLe ("priority", -1) a b = true) ∧
      (sampleStore.filter (fun t => decide (t.user = 7))).reverse.Pairwise
        (fun a b => docLe ("priority", -1) a b = true)) ∧
    (getTasksOn plainEngine sampleStore 7
        { sortBy := some "priority", limit := some "2", page := some "1" }).map
        (fun r => r.data.map (fun tasks => tasks.map (fun t => t._id))) = some (some [1, 2]) ∧
    (getTasksOn reversingEngine sampleStore 7
        { sortBy := some "priority", limit := some "2", page := some "2" }).map
        (fun r => (r.data.map (fun tasks => tasks.map (fun t => t._id)),
          r.pagination.map (fun pg => pg.totalPages))) =
      some (some [1], some (JSNum.fin 2)) :=
  ⟨⟨plainEngine_lawful, plainEngine_windowsCounts⟩,
   ⟨reversingEngine_lawful, reversingEngine_windowsCounts⟩,
   by decide, by decide!, by decide!, by decide!⟩

/-- C27, amended: for a fixed store, filter, ordering and limit from 1 to
2^53, and fewer than 2^53 matches, when the store gives the ordered matches
in one and the same order for every page: the page `k` of `getTasks`, for
`(k - 1) * limit` at most 2^53, is the part of the ordered matches after the
first `(k - 1) * limit`, at most `limit` long; the pages 1 to `totalPages`,
one after the other, are the whole list of ordered matches, which is a
rearrangement of the matches and as long as the total; and every page after
`totalPages` is empty. -/
theorem pages_partition_the_matches (db : StoreEngine) (hdb : db.Lawful)
    (hwin : db.WindowsCounts) (store : Store)
    (caller : ObjectId) (p : ListParams) (f : Task → Bool) (sorted : List Task) (lm : Nat)
    (hs : getTasks.sortBy p ≠ "")
    (hf : (buildQuery caller p).predicateOn db = some f)
    (ho : db.order (getTasks.sortObj p) (store.filter f) = some sorted)
    (hlimit : (parseInt (getTasks.limit p)).toInt? = some (lm : Int))
    (hlm : 1 ≤ lm) (hlm' : lm ≤ 2 ^ 53) (htotal : (store.filter f).length < 2 ^ 53) :
    (∀ (k : Nat) (s : String), 1 ≤ k → (parseInt s).toInt? = some (k : Int) →
      (k - 1) * lm ≤ 2 ^ 53 →
      getTasksOn db store caller { p with page := some s } =
        some { status := 200, success := true,
               data := some ((sorted.drop ((k - 1) * lm)).take lm),
               pagination := some (getTasks.pagination { p with page := some s }
                 (store.filter f).length) }) ∧
    (∀ k : Nat, ((sorted.drop ((k - 1) * lm)).take lm).length ≤ lm) ∧
    (∃ n : Nat,
      getTasks.totalPages p (store.filter f).length = JSNum.fin ((n : Int) : ℚ) ∧
      (List.range n).flatMap (fun i => (sorted.drop (i * lm)).take lm) = sorted ∧
      (∀ k : Nat, n < k → (sorted.drop ((k - 1) * lm)).take lm = [])) ∧
    List.Perm sorted (store.filter f) ∧
    sorted.length = (store.filter f).length ∧
    sorted.length < 2 ^ 53 := by
  have hperm : List.Perm sorted (store.filter f) := hdb.order_perm _ _ _ ho
  have hlen : sorted.length = (store.filter f).length := hperm.length_eq
  refine ⟨?_, ?_, ?_, hperm, hlen, hlen ▸ htotal⟩
  · intro k s hk hs' hbound
    have hcast : ((k : Int) - 1) * (lm : Int) = (((k - 1) * lm : Nat) : Int) := by
      push_cast [Nat.cast_sub hk]
      ring
    have h := getTasksOn_page db hwin store caller { p with page := some s } f sorted
      (k : Int) (lm : Int) hs hf ho hs' hlimit (by omega) (by omega)
      (by exact_mod_cast hlm')
      (by rw [hcast]; exact_mod_cast hbound)
    have h1 : (((k : Int) - 1) * (lm : Int)).toNat = (k - 1) * lm := by
      rw [hcast, Int.toNat_ofNat]
    have h2 : ((lm : Int)).toNat = lm := Int.toNat_ofNat lm
    rw [h1, h2] at h
    exact h
  · intro k
    exact (List.length_take_le _ _)
  · have hq : (0 : ℚ) ≤ ((store.filter f).length : ℚ) / ((lm : Int) : ℚ) := by positivity
    have hc : (0 : Int) ≤ ⌈((store.filter f).length : ℚ) / ((lm : Int) : ℚ)⌉ :=
      Int.ceil_nonneg hq
    have hcover : (store.filter f).length ≤
        (⌈((store.filter f).length : ℚ) / ((lm : Int) : ℚ)⌉).toNat * lm := by
      have hle := Int.le_ceil (((store.filter f).length : ℚ) / ((lm : Int) : ℚ))
      have hlmq : (0 : ℚ) < ((lm : Int) : ℚ) := by
        have : (0 : Int) < (lm : Int) := by omega
        exact_mod_cast this
      rw [div_le_iff₀ hlmq] at hle
      have hint : ((store.filter f).length : Int) ≤
          ⌈((store.filter f).length : ℚ) / ((lm : Int) : ℚ)⌉ * (lm : Int) := by
        exact_mod_cast hle
      have hnat : (((⌈((store.filter f).length : ℚ) / ((lm : Int) : ℚ)⌉).toNat : Int)) =
          ⌈((store.filter f).length : ℚ) / ((lm : Int) : ℚ)⌉ := Int.toNat_of_nonneg hc
      rw [← hnat] at hint
      exact_mod_cast hint
    refine ⟨(⌈((store.filter f).length : ℚ) / ((lm : Int) : ℚ)⌉).toNat, ?_, ?_, ?_⟩
    · rw [Int.toNat_of_nonneg hc]
      exact ceil_div_of_pos _ hlimit (by omega)
    · rw [flatMap_pages]
      apply List.take_of_length_le
      rw [hlen]
      exact hcover
    · intro k hk
      have hdrop : sorted.drop ((k - 1) * lm) = [] := by
        apply List.drop_of_length_le
        rw [hlen]
        calc (store.filter f).length
            ≤ (⌈((store.filter f).length : ℚ) / ((lm : Int) : ℚ)⌉).toNat * lm := hcover
          _ ≤ (k - 1) * lm := Nat.mul_le_mul_right lm (by omega)
      rw [hdrop]
      exact List.take_nil

/-- The list of user 7 on the sample store by pages of 2, on the plain
engine for both pages: page 1 holds tasks 2 and 4, page 2 holds task 1. -/
theorem pages_partition_the_matches_witness :
    (getTasksOn plainEngine sampleStore 7 { limit := some "2", page := some "1" }).map
        (fun r => r.data.map (fun tasks => tasks.map (fun t => t._id))) = some (some [2, 4]) ∧
    (getTasksOn plainEngine sampleStore 7 { limit := some "2", page := some "2" }).map
        (fun r => r.data.map (fun tasks => tasks.map (fun t => t._id))) = some (some [1]) ∧
    getTasksOn plainEngine sampleStore 7 { limit := some "2", page := some "2" } =
      some { status := 200, success := true,
             data := some (((sortDocs (docLe (getTasks.sortObj { limit := some "2" }))
               (sampleStore.filter
                 (fun t => (buildQuery 7 { limit := some "2" }).matchesFields t))).drop
                   ((2 - 1) * 2)).take 2),
             pagination := some (getTasks.pagination { limit := some "2", page := some "2" }
               (sampleStore.filter
                 (fun t => (buildQuery 7 { limit := some "2" }).matchesFields t)).length) } :=
  ⟨by decide!, by decide!,
   (pages_partition_the_matches plainEngine plainEngine_lawful plainEngine_windowsCounts
      sampleStore 7
      { limit := some "2" }
      (fun t => (buildQuery 7 { limit := some "2" }).matchesFields t)
      (sortDocs (docLe (getTasks.sortObj { limit := some "2" }))
        (sampleStore.filter (fun t => (buildQuery 7 { limit := some "2" }).matchesFields t)))
      2 (by decide) rfl rfl (by decide!) (by decide) (by decide) (by decide)).1
      2 "2" (by decide) (by decide!) (by decide)⟩

/-! ## Completed tasks along a history -/

theorem mem_replaceDoc {t x : Task} {store : Store} (h : x ∈ replaceDoc t store) :
    x = t ∨ x ∈ store := by
  induction store with
  | nil => simp [replaceDoc] at h
  | cons d ds ih =>
    unfold replaceDoc at h
    by_cases hd : d._id = t._id
    · simp only [hd, if_true, List.mem_cons] at h
      rcases h with h | h
      · exact Or.inl h
      · exact Or.inr (List.mem_cons_of_mem d h)
    · simp only [hd, if_false, List.mem_cons] at h
      rcases h with h | h
      · exact Or.inr (h ▸ List.mem_cons_self d ds)
      · rcases ih h with h' | h'
        · exact Or.inl h'
        · exact Or.inr (List.mem_cons_of_mem d h')

/-- A request keeps the rule that a completed task has its `completedAt`. -/
theorem completed_after_request (store : Store) (r : Request)
    (h : ∀ t ∈ store, t.status = "completed" → t.completedAt ≠ none) :
    ∀ t ∈ Request.apply store r, t.status = "completed" → t.completedAt ≠ none := by
  intro x hx hdone
  cases r with
  | create caller newId body now =>
    by_cases hok : (createTask store caller newId body now).1.status? = some 201
    · obtain ⟨t, ht, _, _, _, _, h5, _, _, _, _, _, h11⟩ := createTask_ok hok
      simp only [Request.apply, ht, List.mem_append, List.mem_singleton] at hx
      rcases hx with hx | hx
      · exact h x hx hdone
      · subst hx
        rw [h11]
        have hb : body.status = some "completed" := by
          cases hs : body.status with
          | none =>
            rw [h5, hs] at hdone
            exact absurd hdone (by decide)
          | some v =>
            rw [h5, hs] at hdone
            simp only [Option.getD_some] at hdone
            rw [hdone]
        simp [hb]
    · rcases createTask_store store caller newId body now with hs | ⟨t, hs, _, _⟩
      · simp only [Request.apply, hs] at hx
        exact h x hx hdone
      · exfalso
        apply hok
        unfold createTask at hs ⊢
        cases hc : Task.create store newId body caller now with
        | error e =>
          rw [hc] at hs
          have hlen := congrArg List.length hs
          simp at hlen
        | ok res => simp [Outcome.status?]
  | update caller id body now =>
    by_cases hok : (updateTask store caller id body now).1.status? = some 200
    · obtain ⟨task, t, hf, _, _, hu, _, _, _, _, _, h3, _, _, _, hc⟩ := updateTask_ok hok
      simp only [Request.apply, hu] at hx
      rcases mem_replaceDoc hx with hx | hx
      · subst hx
        rw [hc]
        split_ifs with hcond
        · simp
        · rw [h3] at hdone
          by_cases hsame : (assignFields task body).status = task.status
          · exact h task (findById_mem hf) (hsame ▸ hdone)
          · intro hnone
            exact hcond ⟨hsame, hdone, hnone⟩
      · exact h x hx hdone
    · simp only [Request.apply, updateTask_store_of_not_ok hok] at hx
      exact h x hx hdone
  | delete caller id =>
    exact h x ((deleteTask_sublist store caller id).subset hx) hdone

theorem completed_along_history (requests : List Request) :
    ∀ store : Store, (∀ t ∈ store, t.status = "completed" → t.completedAt ≠ none) →
      ∀ t ∈ runRequests store requests, t.status = "completed" → t.completedAt ≠ none := by
  induction requests with
  | nil =>
    intro store h t ht
    exact h t (by simpa [runRequests] using ht)
  | cons r rs ih =>
    intro store h t ht
    exact ih (Request.apply store r) (completed_after_request store r h) t
      (by simpa [runRequests] using ht)

/-- C15: in every store reached from the empty store through the
handlers, a save that leaves a task with status `completed` while its
`completedAt` was unset sets `completedAt` to the time of the save. For
`createTask`: the new task, whose `completedAt` starts unset, has the time of
the save as its `completedAt` when its status is `completed`, which it is
when the body says so. For `updateTask`: when the stored task had no
`completedAt` and the saved task has status `completed`, the task in the
response and in the store has the time of the save as its `completedAt`. -/
theorem saved_completed_task_gets_completedAt (requests : List Request)
    (caller id : ObjectId) (body : TaskBody) (now : Date) :
    ((createTask (runRequests [] requests) caller id body now).1.status? = some 201 →
      ∃ t, (createTask (runRequests [] requests) caller id body now).1 =
          .json { status := 201, success := true,
                  message := some "Task created successfully", data := some t } ∧
        t ∈ (createTask (runRequests [] requests) caller id body now).2 ∧
        (body.status = some "completed" → t.status = "completed") ∧
        (t.status = "completed" → t.completedAt = some now)) ∧
    ((updateTask (runRequests [] requests) caller id body now).1.status? = some 200 →
      ∀ task, Task.findById (runRequests [] requests) id = some task →
      task.completedAt = none →
      ∃ t, (updateTask (runRequests [] requests) caller id body now).1 =
          .json { status := 200, success := true,
                  message := some "Task updated successfully", data := some t } ∧
        Task.findById (updateTask (runRequests [] requests) caller id body now).2 id =
          some t ∧
        (body.status = some "completed" → t.status = "completed") ∧
        (t.status = "completed" → t.completedAt = some now)) := by
  constructor
  · intro h
    obtain ⟨t, ht, _, _, _, _, h5, _, _, _, _, _, h11⟩ := createTask_ok h
    refine ⟨t, by rw [ht], by rw [ht]; simp, ?_, ?_⟩
    · intro hs
      rw [h5, hs]
      rfl
    · intro hdone
      rw [h11]
      have hb : body.status = some "completed" := by
        cases hs : body.status with
        | none =>
          rw [h5, hs] at hdone
          exact absurd hdone (by decide)
        | some v =>
          rw [h5, hs] at hdone
          simp only [Option.getD_some] at hdone
          rw [hdone]
      simp [hb]
  · intro h task hf hnone
    obtain ⟨task', t, hf', _, _, hu, hid, _, _, _, _, hst, _, _, _, hc⟩ := updateTask_ok h
    rw [hf] at hf'
    injection hf' with hf'
    subst hf'
    have hopen : task.status ≠ "completed" := fun hdone =>
      completed_along_history requests [] (by simp) task (findById_mem hf) hdone hnone
    refine ⟨t, by rw [hu], ?_, ?_, ?_⟩
    · rw [hu]
      exact findById_replaceDoc hf (hid.trans (findById_id hf))
    · intro hs
      rw [hst]
      unfold assignFields
      cases body.title <;> cases body.description <;> cases body.priority <;>
        cases body.dueDate <;> cases body.tags <;> simp [hs]
    · intro hdone
      rw [hst] at hdone
      rw [hc]
      have hne : (assignFields task body).status ≠ task.status := fun e =>
        hopen (e ▸ hdone)
      rw [if_pos ⟨hne, hdone, hnone⟩]

/-- User 7 creates a task at time 50. Then a second task created as
completed at time 55 has `completedAt` 55, and the first task, completed at
time 60, has `completedAt` 60. -/
theorem saved_completed_task_gets_completedAt_witness :
    (∃ t, (createTask (runRequests [] [Request.create 7 1 { title := some "Pay rent" } 50])
          7 2 { title := some "Call home", status := some "completed" } 55).1 =
        .json { status := 201, success := true,
                message := some "Task created successfully", data := some t } ∧
      t ∈ (createTask (runRequests [] [Request.create 7 1 { title := some "Pay rent" } 50])
          7 2 { title := some "Call home", status := some "completed" } 55).2 ∧
      (some "completed" = some "completed" → t.status = "completed") ∧
      (t.status = "completed" → t.completedAt = some 55)) ∧
    (∃ t, (updateTask (runRequests [] [Request.create 7 1 { title := some "Pay rent" } 50])
          7 1 { status := some "completed" } 60).1 =
        .json { status := 200, success := true,
                message := some "Task updated successfully", data := some t } ∧
      Task.findById (updateTask
          (runRequests [] [Request.create 7 1 { title := some "Pay rent" } 50])
          7 1 { status := some "completed" } 60).2 1 = some t ∧
      (some "completed" = some "completed" → t.status = "completed") ∧
      (t.status = "completed" → t.completedAt = some 60)) ∧
    (Task.findById (updateTask
        (runRequests [] [Request.create 7 1 { title := some "Pay rent" } 50])
        7 1 { status := some "completed" } 60).2 1).map (fun t => (t.status, t.completedAt)) =
      some ("completed", some 60) :=
  ⟨(saved_completed_task_gets_completedAt [Request.create 7 1 { title := some "Pay rent" } 50]
      7 2 { title := some "Call home", status := some "completed" } 55).1 (by decide),
   (saved_completed_task_gets_completedAt [Request.create 7 1 { title := some "Pay rent" } 50]
      7 1 { status := some "completed" } 60).2 (by decide)
      { _id := 1, title := "Pay rent", description := none, status := "pending",
        priority := "medium", dueDate := none, user := 7, tags := [],
        completedAt := none, createdAt := 50, updatedAt := 50 } (by decide) rfl,
   by decide⟩

/-- C28: in every store reached from the empty store through `createTask`,
`updateTask` and `deleteTask`, a task whose status is `completed` has a
`completedAt` that is not null. -/
theorem completed_tasks_have_completedAt (requests : List Request) (t : Task)
    (hmem : t ∈ runRequests [] requests) (hdone : t.status = "completed") :
    ∃ d, t.completedAt = some d := by
  have h := completed_along_history requests [] (by simp) t hmem hdone
  cases hc : t.completedAt with
  | none => exact absurd hc h
  | some d => exact ⟨d, rfl⟩

/-- User 7 creates a task, completes it at time 60, sets it back to
pending and completes it again at time 80: the task is completed and its
`completedAt` is the time 60. -/
theorem completed_tasks_have_completedAt_witness :
    (runRequests []
      [ Request.create 7 1 { title := some "Pay rent" } 50,
        Request.update 7 1 { status := some "completed" } 60,
        Request.update 7 1 { status := some "pending" } 70,
        Request.update 7 1 { status := some "completed" } 80 ]).map
        (fun t => (t.status, t.completedAt)) = [("completed", some 60)] ∧
    ∃ d, ({ _id := 1, title := "Pay rent", description := none, status := "completed",
            priority := "medium", dueDate := none, user := 7, tags := [],
            completedAt := some 60, createdAt := 50, updatedAt := 80 } : Task).completedAt
        = some d :=
  ⟨by decide,
   completed_tasks_have_completedAt
     [ Request.create 7 1 { title := some "Pay rent" } 50,
       Request.update 7 1 { status := some "completed" } 60,
       Request.update 7 1 { status := some "pending" } 70,
       Request.update 7 1 { status := some "completed" } 80 ]
     { _id := 1, title := "Pay rent", description := none, status := "completed",
       priority := "medium", dueDate := none, user := 7, tags := [],
       completedAt := some 60, createdAt := 50, updatedAt := 80 }
     (by decide) rfl⟩

/-! ## The sums of the statistics -/

theorem addToGroups_sum (key : String) (gs : List GroupCount) :
    ((addToGroups key gs).map (fun g => g.count)).sum =
      (gs.map (fun g => g.count)).sum + 1 := by
  induction gs with
  | nil => simp [addToGroups]
  | cons g gs ih =>
    unfold addToGroups
    by_cases h : g._id = key
    · simp only [h, if_true, List.map_cons, List.sum_cons]
      omega
    · simp only [h, if_false, List.map_cons, List.sum_cons, ih]
      omega

theorem groupCounts_sum (keys : List String) :
    ((groupCounts keys).map (fun g => g.count)).sum = keys.length := by
  induction keys with
  | nil => rfl
  | cons k ks ih => rw [groupCounts, addToGroups_sum, ih, List.length_cons]

/-- C29: in the response of `getTaskStats` the counts of `byStatus` add up
to the total, the counts of `byPriority` add up to the total, and every count
of either list is at least 1. -/
theorem stats_counts_sum_to_total (store : Store) (caller : ObjectId) :
    ∃ stats, (getTaskStats store caller).data = some stats ∧
      (stats.byStatus.map (fun g => g.count)).sum = stats.total ∧
      (stats.byPriority.map (fun g => g.count)).sum = stats.total ∧
      (∀ g ∈ stats.byStatus, 1 ≤ g.count) ∧
      (∀ g ∈ stats.byPriority, 1 ≤ g.count) := by
  refine ⟨_, rfl, ?_, ?_, ?_, ?_⟩
  · simp only [Task.aggregate]
    rw [groupCounts_sum, List.length_map]
  · simp only [Task.aggregate]
    rw [groupCounts_sum, List.length_map]
  · intro g hg
    exact ((aggregate_spec store caller (fun t => t.status)).2.2 g hg).2
  · intro g hg
    exact ((aggregate_spec store caller (fun t => t.priority)).2.2 g hg).2

/-- The statistics of user 7 on the sample store: 2 + 1 = 3 by status and
3 = 3 by priority. -/
theorem stats_counts_sum_to_total_witness :
    (getTaskStats sampleStore 7).data =
      some { total := 3,
             byStatus := [{ _id := "pending", count := 2 }, { _id := "completed", count := 1 }],
             byPriority := [{ _id := "medium", count := 3 }] } ∧
    ∃ stats, (getTaskStats sampleStore 7).data = some stats ∧
      (stats.byStatus.map (fun g => g.count)).sum = stats.total ∧
      (stats.byPriority.map (fun g => g.count)).sum = stats.total ∧
      (∀ g ∈ stats.byStatus, 1 ≤ g.count) ∧
      (∀ g ∈ stats.byPriority, 1 ≤ g.count) :=
  ⟨by decide, stats_counts_sum_to_total sampleStore 7⟩

/-! ## Sending the same update twice -/

theorem replaceDoc_self (t : Task) (store : Store)
    (h : Task.findById store t._id = some t) : replaceDoc t store = store := by
  induction store with
  | nil => rfl
  | cons d ds ih =>
    unfold replaceDoc
    by_cases hd : d._id = t._id
    · have hdt : d = t := by
        simpa [Task.findById, List.find?_cons, hd] using h
      simp [hd, hdt]
    · have h' : Task.findById ds t._id = some t := by
        simpa [Task.findById, List.find?_cons, hd] using h
      simp [hd, ih h']

/-- The assignments of a body change nothing in a task that holds the
values the same body has given it. -/
theorem assignFields_again (task t : Task) (body : TaskBody)
    (h1 : t.title = (assignFields task body).title)
    (h2 : t.description = (assignFields task body).description)
    (h3 : t.status = (assignFields task body).status)
    (h4 : t.priority = (assignFields task body).priority)
    (h5 : t.dueDate = (assignFields task body).dueDate)
    (h6 : t.tags = (assignFields task body).tags) :
    assignFields t body = t := by
  obtain ⟨a1, a2, a3, a4, a5, a6⟩ := assignFields_fields task body
  rw [a1] at h1
  rw [a2] at h2
  rw [a3] at h3
  rw [a4] at h4
  rw [a5] at h5
  rw [a6] at h6
  cases t
  unfold assignFields
  cases hb1 : body.title <;> cases hb2 : body.description <;> cases hb3 : body.status <;>
    cases hb4 : body.priority <;> cases hb5 : body.dueDate <;> cases hb6 : body.tags <;>
    simp_all

/-- C30: when an `updateTask` has succeeded, the same body sent again
succeeds too and changes nothing: the store stays as the first update left
it, and the task in the second response has the title, description, status,
priority, due date, tags, owner and `completedAt` of the task in the first. -/
theorem update_twice_is_update_once (store : Store) (caller id : ObjectId)
    (body : TaskBody) (first second : Date)
    (hok : (updateTask store caller id body first).1.status? = some 200) :
    ∃ t1 t2,
      (updateTask store caller id body first).1 =
        .json { status := 200, success := true,
                message := some "Task updated successfully", data := some t1 } ∧
      (updateTask (updateTask store caller id body first).2 caller id body second).1 =
        .json { status := 200, success := true,
                message := some "Task updated successfully", data := some t2 } ∧
      (updateTask (updateTask store caller id body first).2 caller id body second).2 =
        (updateTask store caller id body first).2 ∧
      t2.title = t1.title ∧ t2.description = t1.description ∧ t2.status = t1.status ∧
      t2.priority = t1.priority ∧ t2.dueDate = t1.dueDate ∧ t2.tags = t1.tags ∧
      t2.user = t1.user ∧ t2.completedAt = t1.completedAt := by
  obtain ⟨task, t1, hf, ho, hv, hu, hid, huser, _, h1, h2, h3, h4, h5, h6, _⟩ :=
    updateTask_ok hok
  have hid1 : t1._id = id := hid.trans (findById_id hf)
  have hf1 : Task.findById (replaceDoc t1 store) id = some t1 := findById_replaceDoc hf hid1
  have hagain : assignFields t1 body = t1 := assignFields_again task t1 body h1 h2 h3 h4 h5 h6
  have hv1 : schemaErrors t1 = [] := by
    rw [schemaErrors_eq_nil_iff] at hv ⊢
    rw [h1, h2, h3, h4]
    exact hv
  have hself : replaceDoc t1 (replaceDoc t1 store) = replaceDoc t1 store :=
    replaceDoc_self t1 _ (by rw [hid1]; exact hf1)
  have hsecond : updateTask (replaceDoc t1 store) caller id body second =
      (.json { status := 200, success := true,
               message := some "Task updated successfully", data := some t1 },
       replaceDoc t1 store) := by
    have hpre : preSave false second t1 = t1 := by
      simp [preSave]
    simp [updateTask, hf1, huser, ho, Task.save, hagain, hv1, hpre, hself]
  refine ⟨t1, t1, by rw [hu], ?_, ?_, rfl, rfl, rfl, rfl, rfl, rfl, rfl, rfl⟩
  · rw [hu]
    simp only
    rw [hsecond]
  · rw [hu]
    simp only
    rw [hsecond]

/-- The owner of task 1 of the sample store completes it at time 60 and
sends the same body at time 70: the store is the one the first update left,
with `completedAt` 60. -/
theorem update_twice_is_update_once_witness :
    (updateTask sampleStore 7 1 { status := some "completed" } 60).1.status? = some 200 ∧
    (Task.findById (updateTask (updateTask sampleStore 7 1 { status := some "completed" }
        60).2 7 1 { status := some "completed" } 70).2 1).map (fun t => t.completedAt)
      = some (some 60) ∧
    ∃ t1 t2,
      (updateTask sampleStore 7 1 { status := some "completed" } 60).1 =
        .json { status := 200, success := true,
                message := some "Task updated successfully", data := some t1 } ∧
      (updateTask (updateTask sampleStore 7 1 { status := some "completed" } 60).2 7 1
          { status := some "completed" } 70).1 =
        .json { status := 200, success := true,
                message := some "Task updated successfully", data := some t2 } ∧
      (updateTask (updateTask sampleStore 7 1 { status := some "completed" } 60).2 7 1
          { status := some "completed" } 70).2 =
        (updateTask sampleStore 7 1 { status := some "completed" } 60).2 ∧
      t2.title = t1.title ∧ t2.description = t1.description ∧ t2.status = t1.status ∧
      t2.priority = t1.priority ∧ t2.dueDate = t1.dueDate ∧ t2.tags = t1.tags ∧
      t2.user = t1.user ∧ t2.completedAt = t1.completedAt :=
  ⟨by decide, by decide,
   update_twice_is_update_once sampleStore 7 1 { status := some "completed" } 60 70
     (by decide)⟩

end PrimoAI
